import Mathlib

/-!
# TRTSegmentation: a shallow embedding of the segmentation pipeline

Source files embedded here:
* `src/src/trt_segmentation.cpp`  (`init`, `preprocess`, `postprocess`, `run`, destructor)
* `src/include/trt_segmentation_impl.h` (the fields of `TRTSegmentation`)
* `src/src/dll_interface.cpp` (`create_segmentation_instance`,
  `destroy_segmentation_instance`, `init_engine`, `run_inference`)

Conventions.
* `float` values that are only compared (the class scores) are values of `F32`:
  NaN, the two infinities, or a finite rational; `F32.gt` is the IEEE `>`.
* `float` values that are computed (the normalised input) are binary32 numbers:
  every operation gives the exact result rounded to nearest, ties to even
  (`roundQuot`); a buffer of `float` is the list of their rational values.
* `int` loop counters and image dimensions are natural numbers; dimensions are
  assumed small enough that the `int` index arithmetic of the source does not
  overflow.
* Behaviour the C++ standard leaves undefined (null dereference, out-of-bounds
  `operator[]`) and exceptions thrown by OpenCV or by the standard library are
  `Except.error` results.
-/

namespace TRTSeg

/-! ## Faults and loops -/

/-- Ways in which a call can fail to return normally. -/
inductive Fault where
  /-- Dereference of an empty `std::unique_ptr`. -/
  | nullDeref
  /-- Read or write through `std::vector::operator[]` outside `[0, size)`. -/
  | outOfBounds
  /-- An exception thrown by OpenCV (a failed `CV_Assert`). -/
  | cvException
  /-- The exception `std::length_error` of a container asked for more than
  `max_size()` elements. -/
  | lengthError
  /-- The exception `std::bad_alloc` of a failed allocation. -/
  | badAlloc
  deriving DecidableEq, Repr

/-- The loop `for (int i = i0; i < i0 + n; ++i) s = body(i, s);`. -/
def forLoop {σ : Type} (body : Nat → σ → σ) : Nat → Nat → σ → σ
  | 0, _, s => s
  | n + 1, i, s => forLoop body n (i + 1) (body i s)

/-- The loop `for (int i = i0; i < i0 + n; ++i) s = body(i, s);` whose body may
fault; the first fault ends the loop. -/
def forLoopE {σ : Type} (body : Nat → σ → Except Fault σ) : Nat → Nat → σ → Except Fault σ
  | 0, _, s => .ok s
  | n + 1, i, s =>
    match body i s with
    | .error e => .error e
    | .ok s' => forLoopE body n (i + 1) s'

/-! ## Floats that are compared -/

/-- A `float` as far as comparisons see it. -/
inductive F32 where
  | nan
  | ninf
  | fin (q : ℚ)
  | pinf
  deriving DecidableEq

/-- IEEE `a > b`: false as soon as one side is NaN. -/
def F32.gt : F32 → F32 → Bool
  | .nan, _ => false
  | _, .nan => false
  | .ninf, _ => false
  | .fin _, .ninf => true
  | .fin a, .fin b => decide (b < a)
  | .fin _, .pinf => false
  | .pinf, .pinf => false
  | .pinf, _ => true

/-- A score is ordered when it is not NaN. -/
def F32.ordered : F32 → Bool
  | .nan => false
  | _ => true

/-! ## Matrices and tensor shapes -/

/-- One `uchar`. -/
abbrev Byte := Fin 256

/-- A single-channel 8-bit `cv::Mat` (`CV_8UC1`), stored row-major. -/
structure Mat8 where
  rows : Nat
  cols : Nat
  data : List Byte

/-- The matrix `cv::Mat(rows, cols, CV_8UC1)`: freshly allocated, its contents
indeterminate (`uninit` says what happens to be in memory). -/
def Mat8.create (rows cols : Nat) (uninit : Nat → Byte) : Mat8 :=
  { rows := rows, cols := cols, data := (List.range (rows * cols)).map uninit }

/-- The assignment `mask.at<uchar>(h, w) = v`. -/
def Mat8.setAt (m : Mat8) (h w : Nat) (v : Byte) : Mat8 :=
  { m with data := m.data.set (h * m.cols + w) v }

/-- The read `mask.at<uchar>(h, w)`. -/
def Mat8.at? (m : Mat8) (h w : Nat) : Option Byte :=
  m.data[h * m.cols + w]?

/-- The shape `nvinfer1::Dims`: `nbDims` and the array `d` (read as 0 past
the end of the list). -/
structure Dims where
  nbDims : Int
  d : List Int
  deriving DecidableEq

/-- The array read `dims.d[j]`. -/
def Dims.get (dims : Dims) (j : Nat) : Int := dims.d.getD j 0

/-- The shape `nvinfer1::Dims4{n, c, h, w}`. -/
def Dims4 (n c h w : Int) : Dims := { nbDims := 4, d := [n, c, h, w] }

/-! ## `TRTSegmentation::postprocess` -/

/-- Index of the score of class `c` at pixel `(h, w)` in `host_output_`:
`c * (height * width) + h * width + w`. -/
def scoreIndex (height width c h w : Nat) : Nat :=
  c * (height * width) + h * width + w

/-- One iteration of the class loop (source lines 96-104): reads the score of
class `c` and keeps it when it is greater than the running maximum. -/
def classStep (host_output : List F32) (height width h w : Nat)
    (c : Nat) (st : F32 × Nat) : Except Fault (F32 × Nat) :=
  match host_output[scoreIndex height width c h w]? with
  | none => .error .outOfBounds
  | some val => if val.gt st.1 then .ok (val, c) else .ok st

/-- The class loop at one pixel (source lines 94-104): starts from
`max_val = -inf`, `max_idx = 0` and returns the final `(max_val, max_idx)`. -/
def scanClasses (host_output : List F32) (num_classes height width h w : Nat) :
    Except Fault (F32 × Nat) :=
  forLoopE (classStep host_output height width h w) num_classes 0 (F32.ninf, 0)

/-- The value written at a pixel: `(max_idx > 0) ? 255 : 0`. -/
def maskValue (max_idx : Nat) : Byte := if max_idx > 0 then 255 else 0

/-- The body of the column loop (source lines 93-106). -/
def pixelStep (host_output : List F32) (num_classes height width h : Nat)
    (w : Nat) (mask : Mat8) : Except Fault Mat8 :=
  match scanClasses host_output num_classes height width h w with
  | .error e => .error e
  | .ok st => .ok (mask.setAt h w (maskValue st.2))

/-- The body of the row loop (source lines 92-107). -/
def rowStep (host_output : List F32) (num_classes height width : Nat)
    (h : Nat) (mask : Mat8) : Except Fault Mat8 :=
  forLoopE (pixelStep host_output num_classes height width h) width 0 mask

/-- `TRTSegmentation::postprocess(mask, dims)`, reading `host_output_`.
`num_classes`, `height`, `width` are `dims.d[1]`, `dims.d[2]`, `dims.d[3]`;
`cv::Mat(height, width, CV_8UC1)` throws on a negative size; a non-positive
`num_classes` runs the class loop zero times. -/
def postprocess (host_output : List F32) (dims : Dims) (uninit : Nat → Byte) :
    Except Fault Mat8 :=
  let num_classes := dims.get 1
  let height := dims.get 2
  let width := dims.get 3
  if height < 0 ∨ width < 0 then .error .cvException
  else
    forLoopE (rowStep host_output num_classes.toNat height.toNat width.toNat)
      height.toNat 0 (Mat8.create height.toNat width.toNat uninit)

/-! ## Floats that are computed (IEEE 754 binary arithmetic) -/

/-- A finite binary floating-point number: the value `m * 2^e`. -/
structure Flt where
  m : Int
  e : Int
  deriving DecidableEq, Repr

/-- The rational value of a floating-point number. -/
def Flt.toRat (x : Flt) : ℚ := (x.m : ℚ) * (2 : ℚ) ^ x.e

/-- The position of the leading bit of `n`: the floor of its binary logarithm
(0 for `n < 2`); `fuel` bounds the number of halvings. -/
def ilog2 : Nat → Nat → Nat
  | 0, _ => 0
  | fuel + 1, n => if n < 2 then 0 else ilog2 fuel (n / 2) + 1

/-- The floor of the binary logarithm of the quotient `n / d` of two positive
numbers. -/
def floorLog2 (n d : Nat) : Int :=
  let l : Int := (ilog2 n n : Int) - (ilog2 d d : Int)
  if d * 2 ^ l.toNat ≤ n * 2 ^ (-l).toNat then l else l - 1

/-- The integer nearest to `num / den`, the even one of the two at a tie. -/
def roundHalfEven (num den : Nat) : Nat :=
  let q := num / den
  let r := num % den
  if 2 * r < den then q
  else if den < 2 * r then q + 1
  else if q % 2 = 0 then q else q + 1

/-- Rounding to nearest, ties to even, of the exact value `(n / d) * 2^s` onto
the binary format with `p` significand bits whose least quantum is `2^emin`
(binary32: `p = 24`, `emin = -149`; binary64: `p = 53`, `emin = -1074`). The
result is a multiple of the quantum `2^k`, `k` the exponent of the value less
`p - 1`, at least `emin`. Overflow to infinity is not represented: the values
`preprocess` computes stay below 3. -/
def roundQuot (p : Nat) (emin : Int) (n : Int) (d : Nat) (s : Int) : Flt :=
  if n = 0 ∨ d = 0 then ⟨0, 0⟩
  else
    let a := n.natAbs
    let k := max (floorLog2 a d + s - ((p : Int) - 1)) emin
    let t := s - k
    let mant := roundHalfEven (a * 2 ^ t.toNat) (d * 2 ^ (-t).toNat)
    ⟨n.sign * (mant : Int), k⟩

/-- Rounding of `(n / d) * 2^s` to `float` (binary32). -/
def toFloat (n : Int) (d : Nat) (s : Int) : Flt := roundQuot 24 (-149) n d s

/-- Rounding of `(n / d) * 2^s` to `double` (binary64). -/
def toDouble (n : Int) (d : Nat) (s : Int) : Flt := roundQuot 53 (-1074) n d s

/-- The `float` product `x * y`. -/
def Flt.mul32 (x y : Flt) : Flt := toFloat (x.m * y.m) 1 (x.e + y.e)

/-- The `float` difference `x - y`. -/
def Flt.sub32 (x y : Flt) : Flt :=
  let e := min x.e y.e
  toFloat (x.m * 2 ^ (x.e - e).toNat - y.m * 2 ^ (y.e - e).toNat) 1 e

/-- The `float` quotient `x / y` for a divisor that is not zero. -/
def Flt.div32 (x y : Flt) : Flt := toFloat (x.m * y.m.sign) y.m.natAbs (x.e - y.e)

/-! ## Images and `TRTSegmentation::preprocess` -/

/-- A 3-channel 8-bit `cv::Mat` (`CV_8UC3`) as `cv::imread(path, IMREAD_COLOR)`
returns it: interleaved by pixel, row-major. -/
structure Image where
  rows : Nat
  cols : Nat
  data : List Byte

/-- The test `image.empty()`. -/
def Image.empty (image : Image) : Bool := image.rows == 0 || image.cols == 0

/-- The byte of channel `c` of pixel `(h, w)`: `image.at<cv::Vec3b>(h, w)[c]`. -/
def Image.at3 (image : Image) (h w c : Nat) : Byte :=
  image.data.getD ((h * image.cols + w) * 3 + c) 0

/-- The scale factor of `image.convertTo(float_image, CV_32FC3, 1.0 / 255.0)`:
the `double` quotient `1.0 / 255.0`, which OpenCV converts to `float` for an
8-bit source and a `float` destination. -/
def scale255 : Flt :=
  let alpha := toDouble 1 255 0
  toFloat alpha.m 1 alpha.e

/-- What `convertTo` makes of one byte: the byte, converted to `float` (exactly),
times the `float` scale factor. -/
def byteToFloat (b : Byte) : Flt := Flt.mul32 ⟨(b.val : Int), 0⟩ scale255

/-- The element `float_image.at<cv::Vec3f>(h, w)[c]` after
`image.convertTo(float_image, CV_32FC3, 1.0 / 255.0)`. -/
def floatImageAt (image : Image) (h w c : Nat) : Flt :=
  byteToFloat (image.at3 h w c)

/-- The constant array `mean[3] = {0.485f, 0.456f, 0.406f}`: each decimal
literal rounded to `float`. -/
def mean (c : Nat) : Flt :=
  [toFloat 485 1000 0, toFloat 456 1000 0, toFloat 406 1000 0].getD c ⟨0, 0⟩

/-- The constant array `std[3] = {0.229f, 0.224f, 0.225f}`: each decimal
literal rounded to `float`. -/
def std (c : Nat) : Flt :=
  [toFloat 229 1000 0, toFloat 224 1000 0, toFloat 225 1000 0].getD c ⟨0, 0⟩

/-- The expression `(val - mean[c]) / std[c]` of source line 79, in `float`
arithmetic. -/
def normalize (val : Flt) (c : Nat) : Flt := (val.sub32 (mean c)).div32 (std c)

/-- The call `v.resize(n)` on a `std::vector`: keeps the first `n` elements and
fills up with the value-initialised element `z`. -/
def vecResize {α : Type} (v : List α) (n : Nat) (z : α) : List α :=
  v.take n ++ List.replicate (n - v.length) z

/-- The body of the innermost loop of `preprocess` (source lines 78-79). -/
def preprocessStep (image : Image) (height width c h : Nat)
    (w : Nat) (host_data : List ℚ) : List ℚ :=
  let val := floatImageAt image h w c
  host_data.set (c * (height * width) + h * width + w) (normalize val c).toRat

/-- `TRTSegmentation::preprocess(image)`: takes the previous `host_input_` and
returns the new one. -/
def preprocess (host_input : List ℚ) (image : Image) : List ℚ :=
  let height := image.rows
  let width := image.cols
  let host_data := vecResize host_input (1 * 3 * height * width) 0
  forLoop (fun c host_data =>
    forLoop (fun h host_data =>
      forLoop (preprocessStep image height width c h) width 0 host_data)
      height 0 host_data)
    3 0 host_data

/-! ## `cv::resize` (OpenCV, outside the repository) -/

/-- The call `cv::resize(src, dst, cv::Size(width, height))` with the default
bilinear filter. OpenCV gives `dst` exactly `height` rows and `width` columns
and throws when `src` or the requested size is empty; the interpolated
contents are left to `pixels`. -/
def cvResizeLinear (pixels : Nat → Byte) (src : Image) (width height : Nat) :
    Except Fault Image :=
  if src.empty || width == 0 || height == 0 then .error .cvException
  else .ok { rows := height, cols := width,
             data := (List.range (height * width * 3)).map pixels }

/-- The call `cv::resize(src, dst, cv::Size(width, height), 0, 0, cv::INTER_NEAREST)`:
`dst(y, x) = src(min(floor(y * src.rows / height), src.rows - 1),
min(floor(x * src.cols / width), src.cols - 1))`; throws when `src` or the
requested size is empty. -/
def cvResizeNearest (src : Mat8) (width height : Nat) : Except Fault Mat8 :=
  if src.rows == 0 || src.cols == 0 || width == 0 || height == 0 then .error .cvException
  else .ok { rows := height, cols := width,
             data := (List.range (height * width)).map fun i =>
               let y := i / width
               let x := i % width
               let sy := min (y * src.rows / height) (src.rows - 1)
               let sx := min (x * src.cols / width) (src.cols - 1)
               src.data.getD (sy * src.cols + sx) 0 }

/-! ## TensorRT and CUDA (outside the repository) -/

/-- The enumeration `nvinfer1::TensorIOMode`. -/
inductive TensorIOMode where
  | kNONE
  | kINPUT
  | kOUTPUT
  deriving DecidableEq, Repr

/-- One entry of an engine I/O tensor list. -/
structure TensorInfo where
  name : String
  mode : TensorIOMode
  deriving DecidableEq

/-- An `nvinfer1::IRuntime` object. -/
structure Runtime where
  id : Nat
  deriving DecidableEq

/-- An `nvinfer1::ICudaEngine` object with its I/O tensor list. -/
structure Engine where
  id : Nat
  tensors : List TensorInfo
  deriving DecidableEq

/-- An `nvinfer1::IExecutionContext` object. -/
structure Context where
  id : Nat
  deriving DecidableEq

/-- The call `engine->getNbIOTensors()`. -/
def Engine.getNbIOTensors (e : Engine) : Nat := e.tensors.length

/-- The call `engine->getIOTensorName(i)`. -/
def Engine.getIOTensorName (e : Engine) (i : Nat) : String :=
  (e.tensors.map TensorInfo.name).getD i ""

/-- The call `engine->getTensorIOMode(name)`: the mode of the tensor of that
name, `kNONE` when there is none. -/
def Engine.getTensorIOMode (e : Engine) (name : String) : TensorIOMode :=
  match e.tensors.find? (fun t => t.name == name) with
  | some t => t.mode
  | none => .kNONE

/-- Device memory: the live allocations `(address, bytes)` and the last address
handed out. The null pointer is address 0. -/
structure Device where
  live : List (Nat × Nat)
  last : Nat

/-- The call `cudaFree(ptr)`: releases the allocation at `ptr`; freeing the
null pointer or a pointer that is not live does nothing. -/
def Device.cudaFree (dev : Device) (ptr : Nat) : Device :=
  { dev with live := dev.live.filter (fun a => a.1 != ptr) }

/-- The call `cudaMalloc(&p, bytes)`, `ok` telling whether the device can
satisfy it: on success a fresh non-null address is stored into `p`, on failure
`p` keeps its value. Returns the device and the new value of `p`. -/
def Device.cudaMalloc (dev : Device) (p : Nat) (bytes : Nat) (ok : Bool) : Device × Nat :=
  if ok then
    ({ live := dev.live ++ [(dev.last + 1, bytes)], last := dev.last + 1 }, dev.last + 1)
  else (dev, p)

/-- Whether `ptr` is a live allocation of at least `bytes` bytes. -/
def Device.holds (dev : Device) (ptr bytes : Nat) : Bool :=
  dev.live.any (fun a => a.1 == ptr && decide (bytes ≤ a.2))

/-- The type `size_t`: arithmetic modulo `2^64`. -/
def sizeT (n : Int) : Nat := (n % (2 ^ 64 : Int)).toNat

/-- The loop `size_t vol = 1; for (j < dims.nbDims) vol *= dims.d[j];`. -/
def volume (dims : Dims) : Nat :=
  forLoop (fun j vol => (vol * sizeT (dims.get j)) % 2 ^ 64) dims.nbDims.toNat 0 1

/-- The constant `sizeof(float)`. -/
def sizeofFloat : Nat := 4

/-! ## The class `TRTSegmentation` -/

/-- The data members of `TRTSegmentation` (`trt_segmentation_impl.h`, lines
38-52). Pointers in `buffers_` are device addresses, 0 being `nullptr`; the
members `input_dims_` and `output_dims_` are never read or written. -/
structure TRTSegmentation where
  runtime_ : Option Runtime
  engine_ : Option Engine
  context_ : Option Context
  buffers_ : List Nat
  input_binding_index_ : Int
  output_binding_index_ : Int
  input_tensor_name_ : String
  output_tensor_name_ : String
  host_input_ : List ℚ
  host_output_ : List F32

/-- The default-constructed object (`TRTSegmentation() = default`). -/
def TRTSegmentation.fresh : TRTSegmentation :=
  { runtime_ := none, engine_ := none, context_ := none, buffers_ := [],
    input_binding_index_ := -1, output_binding_index_ := -1,
    input_tensor_name_ := "", output_tensor_name_ := "",
    host_input_ := [], host_output_ := [] }

/-- What the outside world answers during one call of `init`. -/
structure InitWorld where
  /-- Whether `engine_file.is_open()` holds for the path. -/
  fileOpens : String → Bool
  /-- The value of `engine_file.tellg()` after `seekg(0, end)`, as stored in
  `long int fsize`: the size of the file, or -1 when the stream has failed. -/
  tellg : String → Int
  /-- Whether `std::vector<char>(n)`, for `n` up to `max_size()`, obtains its
  storage; it throws `std::bad_alloc` otherwise. -/
  vectorAlloc : Nat → Bool
  /-- The result of `nvinfer1::createInferRuntime(logger_)`. -/
  createInferRuntime : Option Runtime
  /-- The result of `runtime_->deserializeCudaEngine(data, fsize)`. -/
  deserializeCudaEngine : Option Engine
  /-- The result of `engine_->createExecutionContext()`. -/
  createExecutionContext : Option Context

/-- The body of the tensor loop of `init` (source lines 43-50). -/
def initTensorStep (engine : Engine) (i : Nat) (s : TRTSegmentation) : TRTSegmentation :=
  let tensor_name := engine.getIOTensorName i
  if engine.getTensorIOMode tensor_name = .kINPUT then
    { s with input_tensor_name_ := tensor_name, input_binding_index_ := (i : Int) }
  else
    { s with output_tensor_name_ := tensor_name, output_binding_index_ := (i : Int) }

/-- The value of `std::vector<char>::max_size()`: the largest `ptrdiff_t`. -/
def vectorMaxSize : Nat := 2 ^ 63 - 1

/-- Source lines 16-21 of `init`: the size of the opened file is taken from
`tellg()` into `long int fsize`, and `std::vector<char> engine_data(fsize)` is
constructed, `fsize` being converted to `size_t`, and filled by `read`. The
constructor throws `std::length_error` above `max_size()` and `std::bad_alloc`
when it does not obtain its storage; nothing else here is tested by the source. -/
def readEngineData (world : InitWorld) (engine_path : String) : Except Fault Unit :=
  let fsize := world.tellg engine_path
  if vectorMaxSize < sizeT fsize then .error .lengthError
  else if !world.vectorAlloc (sizeT fsize) then .error .badAlloc
  else .ok ()

/-- Source lines 23-58 of `init`, once the engine data is in memory: runtime,
engine, context, tensor loop and the test of the two names; the returned status
and the object afterwards. What was read matters only through
`deserializeCudaEngine`. -/
def initBringUp (world : InitWorld) (s : TRTSegmentation) : Int × TRTSegmentation :=
  let s := { s with runtime_ := world.createInferRuntime }
  match s.runtime_ with
  | none => (-1, s)
  | some _ =>
    let s := { s with engine_ := world.deserializeCudaEngine }
    match s.engine_ with
    | none => (-1, s)
    | some engine =>
      let s := { s with context_ := world.createExecutionContext }
      match s.context_ with
      | none => (-1, s)
      | some _ =>
        let s := forLoop (initTensorStep engine) engine.getNbIOTensors 0 s
        if s.input_tensor_name_.isEmpty || s.output_tensor_name_.isEmpty then (-1, s)
        else (0, s)

/-- `TRTSegmentation::init(engine_path)`: the returned status and the object
afterwards, or the exception thrown while the engine file is read. -/
def init (world : InitWorld) (s : TRTSegmentation) (engine_path : String) :
    Except Fault (Int × TRTSegmentation) :=
  if !world.fileOpens engine_path then .ok (-1, s)
  else
    match readEngineData world engine_path with
    | .error e => .error e
    | .ok _ => .ok (initBringUp world s)

/-! ## `TRTSegmentation::run` -/

/-- Calls that `run` and the destructor make on the outside world, in order. -/
inductive Event where
  | setInputShape (name : String) (dims : Dims)
  | cudaFree (ptr : Nat)
  | cudaMalloc (index bytes ptr : Nat)
  | memcpyHostToDevice (dst count : Nat)
  | executeV2 (buffers : List Nat)
  | memcpyDeviceToHost (src count : Nat)
  | imwrite (path : String) (mask : Mat8)

/-- What the outside world answers during one call of `run`. -/
structure RunWorld where
  /-- The result of `cv::imread(path, cv::IMREAD_COLOR)`. -/
  imread : String → Image
  /-- The pixels the bilinear `cv::resize` produces. -/
  resizePixels : Nat → Byte
  /-- The result of `context_->setInputShape(name, dims)`. -/
  setInputShape : String → Dims → Bool
  /-- The result of `context_->getTensorShape(name)` once the shape is set. -/
  getTensorShape : String → Dims
  /-- Whether the `cudaMalloc` for tensor `i` of the given size succeeds. -/
  mallocOk : Nat → Nat → Bool
  /-- The result of `context_->executeV2(buffers)`. -/
  executeV2 : List Nat → Bool
  /-- The floats of the output device buffer after execution. -/
  deviceOutput : Nat → F32
  /-- The indeterminate contents of a freshly allocated mask. -/
  uninit : Nat → Byte
  /-- The result of `cv::imwrite(path, mask)`. -/
  imwrite : String → Mat8 → Bool

/-- The state a call works on: the object, device memory and the calls made
so far. -/
structure Machine where
  self : TRTSegmentation
  dev : Device
  events : List Event

/-- The result of a call that returned: its status and the state it leaves. -/
structure RunOut where
  status : Int
  self : TRTSegmentation
  dev : Device
  events : List Event

/-- The statement `return status;`. -/
def Machine.ret (m : Machine) (status : Int) : Except Fault RunOut :=
  .ok { status := status, self := m.self, dev := m.dev, events := m.events }

/-- Records one more call on the outside world. -/
def Machine.emit (m : Machine) (e : Event) : Machine :=
  { m with events := m.events ++ [e] }

/-- The fixed `target_height` of `run` (source line 123). -/
def target_height : Nat := 256

/-- The fixed `target_width` of `run` (source line 124). -/
def target_width : Nat := 2048

/-- The call `cudaFree(buffer)` made on the machine. -/
def freeStep (m : Machine) (buffer : Nat) : Machine :=
  { m with dev := m.dev.cudaFree buffer, events := m.events ++ [Event.cudaFree buffer] }

/-- The loop `for (void* buffer : buffers_) cudaFree(buffer);` (source lines
137-139 and 4-6). -/
def freeBuffers (m : Machine) : Machine :=
  m.self.buffers_.foldl freeStep m

/-- The body of the allocation loop of `run` (source lines 143-147). -/
def allocStep (world : RunWorld) (engine : Engine) (i : Nat) (m : Machine) : Machine :=
  let tensor_name := engine.getIOTensorName i
  let dims := world.getTensorShape tensor_name
  let vol := volume dims
  let bytes := (vol * sizeofFloat) % 2 ^ 64
  let r := m.dev.cudaMalloc (m.self.buffers_.getD i 0) bytes (world.mallocOk i bytes)
  { self := { m.self with buffers_ := m.self.buffers_.set i r.2 },
    dev := r.1,
    events := m.events ++ [Event.cudaMalloc i bytes r.2] }

/-- The element `buffers_[index]` for an `int` index; outside the vector the
access is undefined. -/
def bufferAt (buffers : List Nat) (index : Int) : Except Fault Nat :=
  if index < 0 then .error .outOfBounds
  else
    match buffers[index.toNat]? with
    | none => .error .outOfBounds
    | some ptr => .ok ptr

/-- The statements `host_output_.resize(output_size); cudaMemcpy(host_output_.data(),
src, output_size * sizeof(float), cudaMemcpyDeviceToHost);` (source lines
165-166): the copy takes place when `src` is a live allocation of at least that
many bytes. -/
def download (world : RunWorld) (m : Machine) (output_size src : Nat) : Machine :=
  let host_output := vecResize m.self.host_output_ output_size (F32.fin 0)
  let count := (output_size * sizeofFloat) % 2 ^ 64
  let host_output :=
    if m.dev.holds src count then (List.range output_size).map world.deviceOutput
    else host_output
  ({ m with self := { m.self with host_output_ := host_output } } : Machine).emit
    (Event.memcpyDeviceToHost src count)

/-- Source lines 159-179 of `run`: download, postprocess, restore the original
resolution and write the mask. -/
def runFinish (world : RunWorld) (m : Machine) (original_height original_width : Nat)
    (output_mask_path : String) : Except Fault RunOut :=
  let output_dims := world.getTensorShape m.self.output_tensor_name_
  let output_size := volume output_dims
  match bufferAt m.self.buffers_ m.self.output_binding_index_ with
  | .error e => .error e
  | .ok src =>
    let m := download world m output_size src
    match postprocess m.self.host_output_ output_dims world.uninit with
    | .error e => .error e
    | .ok output_mask =>
      match cvResizeNearest output_mask original_width original_height with
      | .error e => .error e
      | .ok final_mask =>
        let m := m.emit (Event.imwrite output_mask_path final_mask)
        if !world.imwrite output_mask_path final_mask then m.ret (-1)
        else m.ret 0

/-- Source lines 140-148 of `run`: `buffers_.assign(n, nullptr)` and the
allocation loop. -/
def allocBuffers (world : RunWorld) (engine : Engine) (m : Machine) : Machine :=
  let m : Machine :=
    { m with self := { m.self with buffers_ := List.replicate engine.getNbIOTensors 0 } }
  forLoop (allocStep world engine) engine.getNbIOTensors 0 m

/-- Source lines 140-150 of `run`: the allocations, then
`this->preprocess(resized_image)`. -/
def stage (world : RunWorld) (engine : Engine) (m : Machine) (resized_image : Image) :
    Machine :=
  let m := allocBuffers world engine m
  { m with self := { m.self with host_input_ := preprocess m.self.host_input_ resized_image } }

/-- Source lines 154-179 of `run`: execute, then `runFinish`. -/
def runExecute (world : RunWorld) (m : Machine) (original_height original_width : Nat)
    (output_mask_path : String) : Except Fault RunOut :=
  let m := m.emit (Event.executeV2 m.self.buffers_)
  if !world.executeV2 m.self.buffers_ then m.ret (-1)
  else runFinish world m original_height original_width output_mask_path

/-- Source lines 136-179 of `run`: free the previous device buffers, allocate
new ones, preprocess and upload; then `runExecute`. -/
def runInfer (world : RunWorld) (m : Machine) (resized_image : Image)
    (original_height original_width : Nat) (output_mask_path : String) :
    Except Fault RunOut :=
  let m := freeBuffers m
  match m.self.engine_ with
  | none => .error .nullDeref
  | some engine =>
    let m := stage world engine m resized_image
    match bufferAt m.self.buffers_ m.self.input_binding_index_ with
    | .error e => .error e
    | .ok dst =>
      let m := m.emit
        (Event.memcpyHostToDevice dst ((m.self.host_input_.length * sizeofFloat) % 2 ^ 64))
      runExecute world m original_height original_width output_mask_path

/-- The shape `run` requests: `nvinfer1::Dims4{1, 3, target_height, target_width}`. -/
def inputShape : Dims := Dims4 1 3 target_height target_width

/-- `TRTSegmentation::run(image_path, output_mask_path)`. -/
def run (world : RunWorld) (m : Machine) (image_path output_mask_path : String) :
    Except Fault RunOut :=
  let image := world.imread image_path
  if image.empty then m.ret (-1)
  else
    let original_height := image.rows
    let original_width := image.cols
    match cvResizeLinear world.resizePixels image target_width target_height with
    | .error e => .error e
    | .ok resized_image =>
      match m.self.context_ with
      | none => .error .nullDeref
      | some _ =>
        let m := m.emit (Event.setInputShape m.self.input_tensor_name_ inputShape)
        if !world.setInputShape m.self.input_tensor_name_ inputShape then m.ret (-1)
        else runInfer world m resized_image original_height original_width output_mask_path

/-- The destructor `TRTSegmentation::~TRTSegmentation()` (source lines 3-7). -/
def destroy (m : Machine) : Machine := freeBuffers m

/-! ## The C-linkage functions (`dll_interface.cpp`) -/

/-- What a call through the C interface works on: the object the handle
designates (`none` for a null handle), device memory and the calls made so
far. -/
structure Session where
  handle : Option TRTSegmentation
  dev : Device
  events : List Event

/-- `create_segmentation_instance()` (lines 6-9): the handle of
`new TRTSegmentation()`. -/
def create_segmentation_instance (dev : Device) (events : List Event) : Session :=
  { handle := some TRTSegmentation.fresh, dev := dev, events := events }

/-- `destroy_segmentation_instance(handle)` (lines 11-16): for a non-null
handle `delete` runs the destructor; the object is gone afterwards. -/
def destroy_segmentation_instance (s : Session) : Session :=
  match s.handle with
  | none => s
  | some inst =>
    let m := destroy { self := inst, dev := s.dev, events := s.events }
    { handle := none, dev := m.dev, events := m.events }

/-- `init_engine(handle, engine_path)` (lines 18-22); a null `engine_path` is
`none`. -/
def init_engine (world : InitWorld) (s : Session) (engine_path : Option String) :
    Except Fault (Int × Session) :=
  if s.handle.isNone || engine_path.isNone then .ok (-1, s)
  else
    match s.handle, engine_path with
    | some inst, some path =>
      match init world inst path with
      | .error e => .error e
      | .ok r => .ok (r.1, { s with handle := some r.2 })
    | _, _ => .ok (-1, s)

/-- `run_inference(handle, image_path, output_mask_path)` (lines 24-28); a null
string is `none`. -/
def run_inference (world : RunWorld) (s : Session)
    (image_path output_mask_path : Option String) : Except Fault (Int × Session) :=
  if s.handle.isNone || image_path.isNone || output_mask_path.isNone then .ok (-1, s)
  else
    match s.handle, image_path, output_mask_path with
    | some inst, some ip, some op =>
      match run world { self := inst, dev := s.dev, events := s.events } ip op with
      | .error e => .error e
      | .ok out =>
        .ok (out.status, { handle := some out.self, dev := out.dev, events := out.events })
    | _, _, _ => .ok (-1, s)

/-- The specification of `init_engine` in the words of the claim: with a handle
and a path it is `TRTSegmentation::init` on the designated object, otherwise it
is -1 and nothing is touched. -/
def forwardedInit (world : InitWorld) (s : Session) (engine_path : Option String) :
    Except Fault (Int × Session) :=
  match s.handle, engine_path with
  | some inst, some path =>
    match init world inst path with
    | .error e => .error e
    | .ok r => .ok (r.1, { s with handle := some r.2 })
  | _, _ => .ok (-1, s)

/-- The specification of `run_inference` in the words of the claim: with a
handle and both paths it is `TRTSegmentation::run` on the designated object,
otherwise it is -1 and nothing is touched. -/
def forwardedRun (world : RunWorld) (s : Session)
    (image_path output_mask_path : Option String) : Except Fault (Int × Session) :=
  match s.handle, image_path, output_mask_path with
  | some inst, some ip, some op =>
    (run world { self := inst, dev := s.dev, events := s.events } ip op).map
      fun out => (out.status, { handle := some out.self, dev := out.dev, events := out.events })
  | _, _, _ => .ok (-1, s)

/-- An engine as TensorRT builds it: the names of the I/O tensors are pairwise
distinct and every I/O tensor is an input or an output. -/
def Engine.WellFormed (e : Engine) : Prop :=
  (e.tensors.map TensorInfo.name).Nodup ∧
  ∀ t ∈ e.tensors, t.mode = TensorIOMode.kINPUT ∨ t.mode = TensorIOMode.kOUTPUT

/-- The declared I/O mode of the tensor at position `i` of the I/O tensor
list. -/
def Engine.modeAt (e : Engine) (i : Nat) : TensorIOMode :=
  (e.tensors.map TensorInfo.mode).getD i TensorIOMode.kNONE

/-- The product of the dimensions of a shape, `d[0] * ... * d[nbDims - 1]`, as an
integer. -/
def Dims.product (dims : Dims) : Int :=
  ((List.range dims.nbDims.toNat).map dims.get).prod

/-! ## Predicates used to state the properties -/

/-- The score of class `c` at pixel `(h, w)`: `host_output_[c * (height * width) + h * width + w]`
(NaN outside the buffer). -/
def scoreAt (host_output : List F32) (height width c h w : Nat) : F32 :=
  host_output.getD (scoreIndex height width c h w) F32.nan

/-- The invariant of the class loop after classes `0 .. c-1` have been read. -/
def ScanInv (host_output : List F32) (height width h w : Nat) (c : Nat) (st : F32 × Nat) : Prop :=
  (c = 0 → st = (F32.ninf, 0)) ∧
  (0 < c → st.2 < c ∧ st.1 = scoreAt host_output height width st.2 h w) ∧
  (∀ j, j < c → (scoreAt host_output height width j h w).gt st.1 = false) ∧
  (∀ j, j < st.2 → st.1.gt (scoreAt host_output height width j h w) = true)

/-- The invariant of the pixel loops: the mask has its final shape and the
first `k` pixels in row-major order hold their final value. -/
def MaskFilled (host_output : List F32) (C H W : Nat) (k : Nat) (m : Mat8) : Prop :=
  m.rows = H ∧ m.cols = W ∧ m.data.length = H * W ∧
  ∀ h w, w < W → h * W + w < k →
    ∃ st, scanClasses host_output C H W h w = .ok st ∧
      m.data[h * W + w]? = some (maskValue st.2)

/-- The value `preprocess` stores for channel `c` of pixel `(h, w)`:
`(val - mean[c]) / std[c]` with `val` the element of `float_image`. -/
def normalized (image : Image) (c h w : Nat) : ℚ :=
  (normalize (floatImageAt image h w c) c).toRat

/-- The invariant of the loops of `preprocess`: the buffer has its final size
and the first `k` elements hold their final value. -/
def InputFilled (image : Image) (H W : Nat) (k : Nat) (buf : List ℚ) : Prop :=
  buf.length = 3 * H * W ∧
  ∀ c h w, h < H → w < W → c * (H * W) + h * W + w < k →
    buf[c * (H * W) + h * W + w]? = some (normalized image c h w)

/-! ## Sequences of calls and device ownership -/

/-- The machine a returned call of `run` leaves behind. -/
def RunOut.machine (o : RunOut) : Machine :=
  { self := o.self, dev := o.dev, events := o.events }

/-- Successive calls of `run` on one object, each with its own world and its
own `(image_path, output_mask_path)`; a fault ends the sequence. -/
def runSeq : List (RunWorld × String × String) → Machine → Except Fault Machine
  | [], m => .ok m
  | call :: rest, m =>
    match run call.1 m call.2.1 call.2.2 with
    | .error e => .error e
    | .ok out => runSeq rest out.machine

/-- The byte size `run` requests for tensor `i` (source lines 143-147):
the volume of its current shape times `sizeof(float)`, as a `size_t`. -/
def tensorBytes (world : RunWorld) (engine : Engine) (i : Nat) : Nat :=
  (volume (world.getTensorShape (engine.getIOTensorName i)) * sizeofFloat) % 2 ^ 64

/-- Every live device allocation is held by the object: its address is an
entry of `buffers_`. -/
def Owned (m : Machine) : Prop :=
  ∀ a ∈ m.dev.live, a.1 ∈ m.self.buffers_

/-- A call that gets as far as the buffer reconciliation with every
allocation succeeding: the image decodes, the shape is accepted and each
`cudaMalloc` succeeds. -/
def Reconciles (call : RunWorld × String × String) : Prop :=
  (call.1.imread call.2.1).empty = false ∧
  (∀ name, call.1.setInputShape name inputShape = true) ∧
  (∀ i bytes, call.1.mallocOk i bytes = true)

/-- The event is a `cudaMalloc`. -/
def Event.isMalloc : Event → Bool
  | .cudaMalloc _ _ _ => true
  | _ => false

/-- The event is a `cudaFree`. -/
def Event.isFree : Event → Bool
  | .cudaFree _ => true
  | _ => false

/-- The invariant of the allocation loop of `run` after tensors `0 .. i-1`,
started from machine `m0` with `n` tensors: `buffers_` has `n` entries; the
entries from `i` on are null; an earlier entry is null when its allocation
failed and a live allocation of the requested size when it succeeded; every
live allocation was live in `m0` or is an entry of `buffers_`; only
`cudaMalloc` calls were made. -/
def AllocInv (world : RunWorld) (engine : Engine) (m0 : Machine) (i : Nat) (m : Machine) :
    Prop :=
  m.self.buffers_.length = engine.getNbIOTensors ∧
  (∀ j, i ≤ j → j < engine.getNbIOTensors → m.self.buffers_[j]? = some 0) ∧
  (∀ j, j < i → world.mallocOk j (tensorBytes world engine j) = false →
    m.self.buffers_[j]? = some 0) ∧
  (∀ j, j < i → world.mallocOk j (tensorBytes world engine j) = true →
    ∃ p, p ≠ 0 ∧ m.self.buffers_[j]? = some p ∧ (p, tensorBytes world engine j) ∈ m.dev.live) ∧
  (∀ a ∈ m.dev.live, a ∈ m0.dev.live ∨ ∃ j, j < i ∧ m.self.buffers_[j]? = some a.1) ∧
  (∃ l, m.events = m0.events ++ l ∧ ∀ e ∈ l, Event.isMalloc e = true)

/-- The machine of `run` once the device buffers are reconciled (source lines
131-148): the shape request, the frees of the previous buffers, then the
allocations for `engine`. -/
def reconciled (world : RunWorld) (engine : Engine) (m : Machine) : Machine :=
  allocBuffers world engine
    (freeBuffers (m.emit (Event.setInputShape m.self.input_tensor_name_ inputShape)))

/-- Tensor `i` of the engine is classified as an input by the test of `init`
(source line 44): `getTensorIOMode(getIOTensorName(i)) == kINPUT`. -/
def Engine.isInputAt (e : Engine) (i : Nat) : Prop :=
  e.getTensorIOMode (e.getIOTensorName i) = TensorIOMode.kINPUT

/-- The invariant of the tensor loop of `init` after tensors `0 .. k-1`, started
from object `s0`: each of the two name/index pairs is still that of `s0` when no
tensor of its role was met, and otherwise that of the last tensor of its role;
nothing else changed. -/
def InitInv (engine : Engine) (s0 : TRTSegmentation) (k : Nat) (s : TRTSegmentation) : Prop :=
  ((∀ i, i < k → ¬ engine.isInputAt i) →
    s.input_tensor_name_ = s0.input_tensor_name_ ∧
    s.input_binding_index_ = s0.input_binding_index_) ∧
  (∀ i, i < k → engine.isInputAt i → (∀ j, i < j → j < k → ¬ engine.isInputAt j) →
    s.input_tensor_name_ = engine.getIOTensorName i ∧ s.input_binding_index_ = (i : Int)) ∧
  ((∀ i, i < k → engine.isInputAt i) →
    s.output_tensor_name_ = s0.output_tensor_name_ ∧
    s.output_binding_index_ = s0.output_binding_index_) ∧
  (∀ i, i < k → ¬ engine.isInputAt i → (∀ j, i < j → j < k → engine.isInputAt j) →
    s.output_tensor_name_ = engine.getIOTensorName i ∧ s.output_binding_index_ = (i : Int)) ∧
  s.runtime_ = s0.runtime_ ∧ s.engine_ = s0.engine_ ∧ s.context_ = s0.context_ ∧
  s.buffers_ = s0.buffers_ ∧ s.host_input_ = s0.host_input_ ∧ s.host_output_ = s0.host_output_

/-- The event belongs to the stages of `run` that follow the execution: the
download of the output and the write of the mask. -/
def Event.afterExecute : Event → Bool
  | .memcpyDeviceToHost _ _ => true
  | .imwrite _ _ => true
  | _ => false

/-! ## A concrete session used to exercise the theorems -/

/-- An engine with one input and one output tensor. -/
def demoEngine : Engine :=
  { id := 1, tensors := [{ name := "input", mode := .kINPUT },
                         { name := "output", mode := .kOUTPUT }] }

/-- A world in which every step of `init` succeeds. -/
def demoInitWorld : InitWorld :=
  { fileOpens := fun _ => true,
    tellg := fun _ => 4096,
    vectorAlloc := fun _ => true,
    createInferRuntime := some { id := 0 },
    deserializeCudaEngine := some demoEngine,
    createExecutionContext := some { id := 2 } }

/-- A world in which the engine path names a directory: the stream opens,
`tellg()` gives the largest `long int` and the vector of that size does not
obtain its storage. -/
def directoryInitWorld : InitWorld :=
  { demoInitWorld with tellg := fun _ => 2 ^ 63 - 1,
                       vectorAlloc := fun n => decide (n < 2 ^ 40) }

/-- A world in which the engine file cannot be opened. -/
def missingFileWorld : InitWorld :=
  { demoInitWorld with fileOpens := fun _ => false }

/-- A world in which every step of `run` succeeds: a 4000 x 3000 image, an
output tensor of shape (1, 2, 1, 2). -/
def demoWorld : RunWorld :=
  { imread := fun _ => { rows := 3000, cols := 4000, data := List.replicate (3000 * 4000 * 3) 0 },
    resizePixels := fun _ => 0,
    setInputShape := fun _ _ => true,
    getTensorShape := fun name => if name = "input" then Dims4 1 3 256 2048 else Dims4 1 2 1 2,
    mallocOk := fun _ _ => true,
    executeV2 := fun _ => true,
    deviceOutput := fun i => if i = 3 then F32.fin 1 else F32.fin 0,
    uninit := fun _ => 7,
    imwrite := fun _ _ => true }

/-- The machine after a successful `init` of a new object: in `demoInitWorld`
the engine file is read, so that `init` returns what its bring-up gives. -/
def demoMachine : Machine :=
  { self := (initBringUp demoInitWorld TRTSegmentation.fresh).2,
    dev := { live := [], last := 0 },
    events := [] }

/-- An engine with two input tensors and one output tensor. -/
def twoInputEngine : Engine :=
  { id := 3, tensors := [{ name := "input_a", mode := .kINPUT },
                         { name := "input_b", mode := .kINPUT },
                         { name := "output", mode := .kOUTPUT }] }

/-- The world `demoWorld` with an image that is already 2048 x 256. -/
def demoWorld256 : RunWorld :=
  { demoWorld with
    imread := fun _ => { rows := 256, cols := 2048, data := List.replicate (256 * 2048 * 3) 0 } }

/-- The world `demoWorld` in which the allocation for tensor 1 fails and the
execution then fails. -/
def allocFailWorld : RunWorld :=
  { demoWorld with mallocOk := fun i _ => i != 1, executeV2 := fun _ => false }

/-- A strictly increasing transformation of the scores with bounded range
(the "softsign" squashing): `x / (1 + |x|)` on finite scores, -1 at `-inf`, 1 at
`+inf`, NaN at NaN. -/
def squash : F32 → F32
  | .nan => .nan
  | .ninf => .fin (-1)
  | .fin q => .fin (q / (1 + |q|))
  | .pinf => .fin 1

/-! # Theorems -/

/-! ## Loop rules -/

theorem forLoop_inv {σ : Type} (body : Nat → σ → σ) (P : Nat → σ → Prop) :
    ∀ (n i : Nat) (s : σ), P i s →
      (∀ j t, i ≤ j → j < i + n → P j t → P (j + 1) (body j t)) →
      P (i + n) (forLoop body n i s) := by
  intro n
  induction n with
  | zero => intro i s h _; simpa [forLoop] using h
  | succ n ih =>
    intro i s h hstep
    have h1 : P (i + 1) (body i s) := hstep i s (Nat.le_refl i) (by omega) h
    have h2 := ih (i + 1) (body i s) h1
      (fun j t hj hlt hP => hstep j t (by omega) (by omega) hP)
    have e : i + 1 + n = i + (n + 1) := by omega
    rw [e] at h2
    simpa [forLoop] using h2

theorem forLoopE_inv {σ : Type} (body : Nat → σ → Except Fault σ) (P : Nat → σ → Prop) :
    ∀ (n i : Nat) (s s' : σ), P i s →
      (∀ j t t', i ≤ j → j < i + n → P j t → body j t = .ok t' → P (j + 1) t') →
      forLoopE body n i s = .ok s' → P (i + n) s' := by
  intro n
  induction n with
  | zero =>
    intro i s s' h _ hrun
    simp [forLoopE] at hrun
    subst hrun
    simpa using h
  | succ n ih =>
    intro i s s' h hstep hrun
    cases hb : body i s with
    | error e => simp [forLoopE, hb] at hrun
    | ok t =>
      simp only [forLoopE, hb] at hrun
      have h1 : P (i + 1) t := hstep i s t (Nat.le_refl i) (by omega) h hb
      have h2 := ih (i + 1) t s' h1
        (fun j u u' hj hlt hP hu => hstep j u u' (by omega) (by omega) hP hu) hrun
      have e : i + 1 + n = i + (n + 1) := by omega
      rw [e] at h2
      exact h2

theorem forLoopE_total {σ : Type} (body : Nat → σ → Except Fault σ) (P : Nat → σ → Prop) :
    ∀ (n i : Nat) (s : σ), P i s →
      (∀ j t, i ≤ j → j < i + n → P j t → ∃ t', body j t = .ok t' ∧ P (j + 1) t') →
      ∃ s', forLoopE body n i s = .ok s' ∧ P (i + n) s' := by
  intro n
  induction n with
  | zero => intro i s h _; exact ⟨s, by simp [forLoopE], by simpa using h⟩
  | succ n ih =>
    intro i s h hstep
    obtain ⟨t, hb, h1⟩ := hstep i s (Nat.le_refl i) (by omega) h
    obtain ⟨s', hrun, h2⟩ := ih (i + 1) t h1
      (fun j u hj hlt hP => hstep j u (by omega) (by omega) hP)
    have e : i + 1 + n = i + (n + 1) := by omega
    rw [e] at h2
    exact ⟨s', by simp [forLoopE, hb, hrun], h2⟩

/-! ## Row-major indices -/

theorem rowMajor_unique (W h w h' w' : Nat) (hw : w < W) (hw' : w' < W)
    (e : h * W + w = h' * W + w') : h = h' ∧ w = w' := by
  have hW : 0 < W := by omega
  have d1 : (h * W + w) / W = h := by
    rw [Nat.add_comm, Nat.add_mul_div_right _ _ hW, Nat.div_eq_of_lt hw, Nat.zero_add]
  have d2 : (h' * W + w') / W = h' := by
    rw [Nat.add_comm, Nat.add_mul_div_right _ _ hW, Nat.div_eq_of_lt hw', Nat.zero_add]
  have hh : h = h' := by rw [← d1, ← d2, e]
  subst hh
  exact ⟨rfl, by omega⟩

theorem rowMajor_lt (H W h w : Nat) (hh : h < H) (hw : w < W) : h * W + w < H * W := by
  have : (h + 1) * W ≤ H * W := Nat.mul_le_mul_right W hh
  have e : (h + 1) * W = h * W + W := by ring
  omega

/-! ## The order on scores -/

theorem F32.gt_irrefl (a : F32) : a.gt a = false := by
  cases a <;> simp [F32.gt]

theorem F32.gt_asymm {a b : F32} (h : a.gt b = true) : b.gt a = false := by
  cases a <;> cases b <;> simp_all [F32.gt]
  exact le_of_lt h

theorem F32.eq_ninf_of_not_gt {a : F32} (ha : a.ordered = true) (h : a.gt F32.ninf = false) :
    a = F32.ninf := by
  cases a <;> simp_all [F32.gt, F32.ordered]

theorem F32.gt_of_gt_of_not_gt {a b c : F32} (hc : c.ordered = true)
    (h1 : a.gt b = true) (h2 : c.gt b = false) : a.gt c = true := by
  cases a <;> cases b <;> cases c <;> simp_all [F32.gt, F32.ordered]
  exact lt_of_le_of_lt h2 h1

theorem F32.ordered_of_gt {a b : F32} (h : a.gt b = true) : a.ordered = true := by
  cases a <;> cases b <;> simp_all [F32.gt, F32.ordered]

/-! ## The class loop -/

theorem classStep_ok (host_output : List F32) (height width h w c : Nat) (st : F32 × Nat)
    (hb : scoreIndex height width c h w < host_output.length) :
    classStep host_output height width h w c st =
      .ok (if (scoreAt host_output height width c h w).gt st.1 then
        (scoreAt host_output height width c h w, c) else st) := by
  unfold classStep scoreAt
  rw [List.getElem?_eq_getElem hb, List.getD_eq_getElem _ _ hb]
  simp only
  split <;> rfl

theorem classStep_inBounds (host_output : List F32) (height width h w c : Nat)
    (st st' : F32 × Nat) (hs : classStep host_output height width h w c st = .ok st') :
    scoreIndex height width c h w < host_output.length := by
  by_contra hb
  have : host_output[scoreIndex height width c h w]? = none :=
    List.getElem?_eq_none (by omega)
  simp [classStep, this] at hs

theorem scanInv_step (host_output : List F32) (height width h w c : Nat) (st : F32 × Nat)
    (hord : ∀ j, j ≤ c → (scoreAt host_output height width j h w).ordered = true)
    (hI : ScanInv host_output height width h w c st) :
    ScanInv host_output height width h w (c + 1)
      (if (scoreAt host_output height width c h w).gt st.1 then
        (scoreAt host_output height width c h w, c) else st) := by
  obtain ⟨h0, h1, h2, h3⟩ := hI
  by_cases hg : (scoreAt host_output height width c h w).gt st.1 = true
  · rw [if_pos hg]
    refine ⟨by omega, fun _ => ⟨by simp, rfl⟩, ?_, ?_⟩
    · intro j hj
      by_cases hjc : j = c
      · subst hjc; exact F32.gt_irrefl _
      · exact F32.gt_asymm
          (F32.gt_of_gt_of_not_gt (hord j (by omega)) hg (h2 j (by omega)))
    · intro j hj
      exact F32.gt_of_gt_of_not_gt (hord j (by simp at hj; omega)) hg (h2 j (by simpa using hj))
  · have hg' : (scoreAt host_output height width c h w).gt st.1 = false := by
      simpa using hg
    rw [if_neg hg]
    refine ⟨by omega, fun _ => ?_, ?_, h3⟩
    · by_cases hc : c = 0
      · subst hc
        have hst := h0 rfl
        subst hst
        have := F32.eq_ninf_of_not_gt (hord 0 (Nat.le_refl 0)) hg'
        exact ⟨by simp, by simp [this]⟩
      · have := h1 (by omega)
        exact ⟨by omega, this.2⟩
    · intro j hj
      by_cases hjc : j = c
      · subst hjc; exact hg'
      · exact h2 j (by omega)

theorem scanClasses_total (host_output : List F32) (C height width h w : Nat)
    (hb : ∀ c, c < C → scoreIndex height width c h w < host_output.length) :
    ∃ st, scanClasses host_output C height width h w = .ok st := by
  obtain ⟨st, hst, _⟩ := forLoopE_total (classStep host_output height width h w)
    (fun _ _ => True) C 0 (F32.ninf, 0) trivial
    (fun j t _ hj _ => ⟨_, classStep_ok host_output height width h w j t (hb j (by omega)), trivial⟩)
  exact ⟨st, hst⟩

theorem scanClasses_argmax (host_output : List F32) (C height width h w : Nat) (st : F32 × Nat)
    (hb : ∀ c, c < C → scoreIndex height width c h w < host_output.length)
    (hord : ∀ c, c < C → (scoreAt host_output height width c h w).ordered = true)
    (hs : scanClasses host_output C height width h w = .ok st) :
    ScanInv host_output height width h w C st := by
  have key := forLoopE_inv (classStep host_output height width h w)
    (fun c st => c ≤ C ∧ ScanInv host_output height width h w c st) C 0 (F32.ninf, 0) st
    ⟨Nat.zero_le _, fun _ => rfl, fun hc => absurd hc (Nat.lt_irrefl 0),
      fun j hj => absurd hj (Nat.not_lt_zero j), fun j hj => absurd hj (Nat.not_lt_zero j)⟩
    (fun j t t' _ hj hP ht => by
      rw [classStep_ok host_output height width h w j t (hb j (by omega))] at ht
      injection ht with ht
      subst ht
      exact ⟨by omega, scanInv_step host_output height width h w j t
        (fun i hi => hord i (by omega)) hP.2⟩) hs
  simpa using key.2

/-! ## The pixel loops of `postprocess` -/

theorem maskFilled_pixelStep (host_output : List F32) (C H W h w : Nat) (m m' : Mat8)
    (hh : h < H) (hw : w < W)
    (hI : MaskFilled host_output C H W (h * W + w) m)
    (hs : pixelStep host_output C H W h w m = .ok m') :
    MaskFilled host_output C H W (h * W + (w + 1)) m' := by
  obtain ⟨hr, hc, hl, hf⟩ := hI
  unfold pixelStep at hs
  cases hscan : scanClasses host_output C H W h w with
  | error e => simp [hscan] at hs
  | ok st =>
    simp only [hscan] at hs
    injection hs with hs
    subst hs
    refine ⟨hr, hc, by simp [Mat8.setAt, hl], ?_⟩
    intro h' w' hw' hlt
    have hin : h * W + w < m.data.length := by
      rw [hl]; exact rowMajor_lt H W h w hh hw
    by_cases he : h' * W + w' = h * W + w
    · obtain ⟨e1, e2⟩ := rowMajor_unique W h' w' h w hw' hw he
      subst e1; subst e2
      refine ⟨st, hscan, ?_⟩
      simp only [Mat8.setAt, hc]
      rw [List.getElem?_set_self hin]
    · obtain ⟨st', hst', hval⟩ := hf h' w' hw' (by omega)
      refine ⟨st', hst', ?_⟩
      simp only [Mat8.setAt, hc]
      rw [List.getElem?_set_ne (fun e => he e.symm)]
      exact hval

theorem maskFilled_rowStep (host_output : List F32) (C H W h : Nat) (m m' : Mat8)
    (hh : h < H)
    (hI : MaskFilled host_output C H W (h * W) m)
    (hs : rowStep host_output C H W h m = .ok m') :
    MaskFilled host_output C H W ((h + 1) * W) m' := by
  have key := forLoopE_inv (pixelStep host_output C H W h)
    (fun w m => MaskFilled host_output C H W (h * W + w) m) W 0 m m'
    (by simpa using hI)
    (fun j t t' _ hj hP ht =>
      maskFilled_pixelStep host_output C H W h j t t' hh (by omega) hP ht) hs
  have e : h * W + (0 + W) = (h + 1) * W := by ring
  simp only [e] at key
  exact key

theorem maskFilled_create (host_output : List F32) (C H W : Nat) (uninit : Nat → Byte) :
    MaskFilled host_output C H W 0 (Mat8.create H W uninit) :=
  ⟨rfl, rfl, by simp [Mat8.create], fun _ _ _ hlt => absurd hlt (Nat.not_lt_zero _)⟩

theorem postprocess_filled (host_output : List F32) (dims : Dims) (uninit : Nat → Byte)
    (mask : Mat8) (hp : postprocess host_output dims uninit = .ok mask) :
    0 ≤ dims.get 2 ∧ 0 ≤ dims.get 3 ∧
    MaskFilled host_output (dims.get 1).toNat (dims.get 2).toNat (dims.get 3).toNat
      ((dims.get 2).toNat * (dims.get 3).toNat) mask := by
  unfold postprocess at hp
  simp only at hp
  split at hp
  · simp at hp
  · rename_i hneg
    have key := forLoopE_inv
      (rowStep host_output (dims.get 1).toNat (dims.get 2).toNat (dims.get 3).toNat)
      (fun h m => MaskFilled host_output (dims.get 1).toNat (dims.get 2).toNat
        (dims.get 3).toNat (h * (dims.get 3).toNat) m)
      (dims.get 2).toNat 0 _ mask
      (by simpa using maskFilled_create host_output _ _ _ uninit)
      (fun j t t' _ hj hP ht =>
        maskFilled_rowStep host_output _ _ _ j t t' (by omega) hP ht) hp
    refine ⟨by omega, by omega, ?_⟩
    simpa using key

theorem pixelStep_total (host_output : List F32) (C H W h w : Nat) (m : Mat8)
    (hb : ∀ c, c < C → scoreIndex H W c h w < host_output.length) :
    ∃ m', pixelStep host_output C H W h w m = .ok m' := by
  obtain ⟨st, hst⟩ := scanClasses_total host_output C H W h w hb
  exact ⟨m.setAt h w (maskValue st.2), by simp [pixelStep, hst]⟩

theorem postprocess_total (host_output : List F32) (dims : Dims) (uninit : Nat → Byte)
    (h2 : 0 ≤ dims.get 2) (h3 : 0 ≤ dims.get 3)
    (hb : ∀ c h w, c < (dims.get 1).toNat → h < (dims.get 2).toNat → w < (dims.get 3).toNat →
      scoreIndex (dims.get 2).toNat (dims.get 3).toNat c h w < host_output.length) :
    ∃ mask, postprocess host_output dims uninit = .ok mask := by
  unfold postprocess
  simp only
  rw [if_neg (by omega)]
  obtain ⟨mask, hm, _⟩ := forLoopE_total
    (rowStep host_output (dims.get 1).toNat (dims.get 2).toNat (dims.get 3).toNat)
    (fun _ _ => True) (dims.get 2).toNat 0 (Mat8.create _ _ uninit) trivial
    (fun h t _ hh _ => by
      obtain ⟨t', ht', _⟩ := forLoopE_total
        (pixelStep host_output (dims.get 1).toNat (dims.get 2).toNat (dims.get 3).toNat h)
        (fun _ _ => True) (dims.get 3).toNat 0 t trivial
        (fun w u _ hw _ => by
          obtain ⟨u', hu'⟩ := pixelStep_total host_output _ _ _ h w u
            (fun c hc => hb c h w hc (by omega) (by omega))
          exact ⟨u', hu', trivial⟩)
      exact ⟨t', ht', trivial⟩)
  exact ⟨mask, hm⟩

theorem maskValue_cases (i : Nat) : maskValue i = 0 ∨ maskValue i = 255 := by
  unfold maskValue
  split
  · exact Or.inr rfl
  · exact Or.inl rfl

theorem maskValue_eq_255 (i : Nat) : maskValue i = 255 ↔ 0 < i := by
  unfold maskValue
  split <;> simp_all

theorem maskValue_eq_zero (i : Nat) : maskValue i = 0 ↔ i = 0 := by
  unfold maskValue
  split
  · constructor
    · intro h; exact absurd h (by decide)
    · intro h; omega
  · simp_all

theorem scoreIndex_lt (C H W c h w : Nat) (hc : c < C) (hh : h < H) (hw : w < W) :
    scoreIndex H W c h w < C * H * W := by
  unfold scoreIndex
  have h1 : h * W + w < H * W := rowMajor_lt H W h w hh hw
  have h2 : (c + 1) * (H * W) ≤ C * (H * W) := Nat.mul_le_mul_right _ hc
  have e1 : (c + 1) * (H * W) = c * (H * W) + H * W := by ring
  have e2 : C * H * W = C * (H * W) := by ring
  omega

/-- C1: for an output shape (N, C, H, W) with C >= 1 and a buffer of C*H*W
ordered (non-NaN) scores, `postprocess` returns a mask, and at every position
(h, w) the class loop selects an index `max_idx < C` whose score is not exceeded
by any class and is strictly greater than the score of every lower class (the
least index attaining the maximum); the mask pixel is `maskValue max_idx`. When
classes 0 and 2 both score 0.5 and every other class scores lower, the selected
index is 0 and the mask pixel is 0. -/
theorem postprocess_selects_least_argmax (host_output : List F32) (N : Int) (C H W : Nat)
    (uninit : Nat → Byte) (hC : 1 ≤ C) (hlen : host_output.length = C * H * W)
    (hord : ∀ v ∈ host_output, v.ordered = true) (h w : Nat) (hh : h < H) (hw : w < W) :
    ∃ mask max_val max_idx,
      postprocess host_output (Dims4 N C H W) uninit = .ok mask ∧
      scanClasses host_output C H W h w = .ok (max_val, max_idx) ∧
      mask.at? h w = some (maskValue max_idx) ∧
      (∀ c, c < C → host_output[c * (H * W) + h * W + w]? =
        some (scoreAt host_output H W c h w)) ∧
      max_idx < C ∧
      max_val = scoreAt host_output H W max_idx h w ∧
      (∀ c, c < C →
        (scoreAt host_output H W c h w).gt (scoreAt host_output H W max_idx h w) = false) ∧
      (∀ c, c < max_idx →
        (scoreAt host_output H W max_idx h w).gt (scoreAt host_output H W c h w) = true ∧
        scoreAt host_output H W c h w ≠ scoreAt host_output H W max_idx h w) ∧
      (2 < C →
        scoreAt host_output H W 0 h w = F32.fin (1 / 2) →
        scoreAt host_output H W 2 h w = F32.fin (1 / 2) →
        (∀ c, c < C → c ≠ 0 → c ≠ 2 →
          (F32.fin (1 / 2)).gt (scoreAt host_output H W c h w) = true) →
        max_idx = 0 ∧ mask.at? h w = some 0) := by
  have g1 : (Dims4 N C H W).get 1 = (C : Int) := rfl
  have g2 : (Dims4 N C H W).get 2 = (H : Int) := rfl
  have g3 : (Dims4 N C H W).get 3 = (W : Int) := rfl
  have hbAll : ∀ c h w, c < C → h < H → w < W → scoreIndex H W c h w < host_output.length := by
    intro c h w hc hh hw
    rw [hlen]; exact scoreIndex_lt C H W c h w hc hh hw
  obtain ⟨mask, hmask⟩ := postprocess_total host_output (Dims4 N C H W) uninit
    (by rw [g2]; exact Int.natCast_nonneg H) (by rw [g3]; exact Int.natCast_nonneg W)
    (by
      intro c h w hc hh hw
      rw [g1, Int.toNat_natCast] at hc
      rw [g2, Int.toNat_natCast] at hh ⊢
      rw [g3, Int.toNat_natCast] at hw ⊢
      exact hbAll c h w hc hh hw)
  obtain ⟨_, _, hr, hcol, hl, hf⟩ := postprocess_filled host_output _ uninit mask hmask
  rw [g1, g2, g3] at hf
  simp only [Int.toNat_natCast] at hf hcol
  rw [g3, Int.toNat_natCast] at hcol
  obtain ⟨st, hst, hpx⟩ := hf h w hw (rowMajor_lt H W h w hh hw)
  have hb : ∀ c, c < C → scoreIndex H W c h w < host_output.length :=
    fun c hc => hbAll c h w hc hh hw
  have hordAt : ∀ c, c < C → (scoreAt host_output H W c h w).ordered = true := by
    intro c hc
    apply hord
    unfold scoreAt
    rw [List.getD_eq_getElem _ _ (hb c hc)]
    exact List.getElem_mem _
  obtain ⟨_, i1, i2, i3⟩ := scanClasses_argmax host_output C H W h w st hb hordAt hst
  obtain ⟨hlt, hval⟩ := i1 (by omega)
  have hat : mask.at? h w = some (maskValue st.2) := by
    unfold Mat8.at?; rw [hcol]; exact hpx
  refine ⟨mask, st.1, st.2, hmask, hst, hat, ?_, hlt, hval, ?_, ?_, ?_⟩
  · intro c hc
    have := hb c hc
    unfold scoreIndex at this
    unfold scoreAt scoreIndex
    rw [List.getElem?_eq_getElem this, List.getD_eq_getElem _ _ this]
  · intro c hc
    rw [← hval]; exact i2 c hc
  · intro c hc
    have hgt := i3 c hc
    rw [hval] at hgt
    refine ⟨hgt, fun e => ?_⟩
    rw [e, F32.gt_irrefl] at hgt
    exact Bool.noConfusion hgt
  · intro hC3 e0 e2 hlow
    have hz : st.2 = 0 := by
      by_contra hne
      have hgt := i3 0 (by omega)
      rw [hval, e0] at hgt
      by_cases h2 : st.2 = 2
      · rw [h2, e2, F32.gt_irrefl] at hgt
        exact Bool.noConfusion hgt
      · have := F32.gt_asymm (hlow st.2 hlt hne h2)
        rw [this] at hgt
        exact Bool.noConfusion hgt
    refine ⟨hz, ?_⟩
    rw [hat, hz]; rfl

theorem postprocess_data_binary (host_output : List F32) (dims : Dims) (uninit : Nat → Byte)
    (mask : Mat8) (hp : postprocess host_output dims uninit = .ok mask) :
    mask.data.length = mask.rows * mask.cols ∧ ∀ b ∈ mask.data, b = 0 ∨ b = 255 := by
  obtain ⟨_, _, hr, hc, hl, hf⟩ := postprocess_filled host_output dims uninit mask hp
  refine ⟨by rw [hl, hr, hc], ?_⟩
  intro b hb
  obtain ⟨i, hi, rfl⟩ := List.mem_iff_getElem.mp hb
  rw [hl] at hi
  have hW : 0 < (dims.get 3).toNat := by
    rcases Nat.eq_zero_or_pos (dims.get 3).toNat with h0 | h0
    · rw [h0] at hi; simp at hi
    · exact h0
  have hdecomp : i / (dims.get 3).toNat * (dims.get 3).toNat + i % (dims.get 3).toNat = i :=
    Nat.div_add_mod' i _
  obtain ⟨st, _, hval⟩ := hf (i / (dims.get 3).toNat) (i % (dims.get 3).toNat)
    (Nat.mod_lt _ hW) (by rw [hdecomp]; exact hi)
  rw [hdecomp] at hval
  have hi' : i < mask.data.length := by rw [hl]; exact hi
  rw [List.getElem?_eq_getElem hi'] at hval
  injection hval with hval
  rw [hval]
  exact maskValue_cases st.2

/-- C2: every pixel of a mask produced by `postprocess` is exactly 0 or exactly
255, whatever the shape, the scores (NaN included) and the previous contents of
the freshly allocated matrix; the mask has `rows * cols` pixels. -/
theorem postprocess_mask_binary (host_output : List F32) (dims : Dims) (uninit : Nat → Byte)
    (mask : Mat8) (hp : postprocess host_output dims uninit = .ok mask) :
    mask.data.length = mask.rows * mask.cols ∧ ∀ b ∈ mask.data, b = 0 ∨ b = 255 :=
  postprocess_data_binary host_output dims uninit mask hp

/-- C3: at every position (h, w) of a mask produced by `postprocess`, the
pixel is 255 if and only if the index selected by the class loop is greater
than 0, and 0 if and only if that index is 0. -/
theorem postprocess_pixel_iff_foreground (host_output : List F32) (dims : Dims)
    (uninit : Nat → Byte) (mask : Mat8)
    (hp : postprocess host_output dims uninit = .ok mask)
    (h w : Nat) (hh : h < mask.rows) (hw : w < mask.cols) :
    ∃ max_val max_idx px,
      scanClasses host_output (dims.get 1).toNat (dims.get 2).toNat (dims.get 3).toNat h w =
        .ok (max_val, max_idx) ∧
      mask.at? h w = some px ∧
      (px = 255 ↔ 0 < max_idx) ∧ (px = 0 ↔ max_idx = 0) := by
  obtain ⟨_, _, hr, hc, hl, hf⟩ := postprocess_filled host_output dims uninit mask hp
  rw [hr] at hh
  rw [hc] at hw
  obtain ⟨st, hst, hval⟩ := hf h w hw (rowMajor_lt _ _ h w hh hw)
  refine ⟨st.1, st.2, maskValue st.2, hst, ?_, maskValue_eq_255 st.2, maskValue_eq_zero st.2⟩
  unfold Mat8.at?; rw [hc]; exact hval

theorem postprocess_selects_least_argmax_witness :
    ∃ mask max_val max_idx,
      postprocess [F32.fin (1 / 2), F32.fin (1 / 5), F32.fin (1 / 2)]
        (Dims4 1 (3 : Nat) (1 : Nat) (1 : Nat)) (fun _ => 7) = .ok mask ∧
      scanClasses [F32.fin (1 / 2), F32.fin (1 / 5), F32.fin (1 / 2)] 3 1 1 0 0 =
        .ok (max_val, max_idx) ∧
      max_idx = 0 ∧ mask.at? 0 0 = some 0 := by
  obtain ⟨mask, mv, mi, h1, h2, _, _, _, _, _, _, h9⟩ :=
    postprocess_selects_least_argmax [F32.fin (1 / 2), F32.fin (1 / 5), F32.fin (1 / 2)]
      1 3 1 1 (fun _ => 7) (by decide) rfl (by simp [F32.ordered]) 0 0
      (by decide) (by decide)
  have h := h9 (by decide) rfl rfl (by
    intro c hc h0 h2
    have hc1 : c = 1 := by omega
    subst hc1
    simp [scoreAt, scoreIndex, F32.gt]
    norm_num)
  exact ⟨mask, mv, mi, h1, h2, h.1, h.2⟩

theorem postprocess_mask_binary_witness :
    postprocess [F32.fin 0, F32.nan, F32.fin 1, F32.pinf] (Dims4 1 2 1 2) (fun _ => 7) =
        .ok { rows := 1, cols := 2, data := [255, 255] } ∧
      ((2 : Nat) = 1 * 2 ∧ ∀ b ∈ ([255, 255] : List Byte), b = 0 ∨ b = 255) :=
  have h : postprocess [F32.fin 0, F32.nan, F32.fin 1, F32.pinf] (Dims4 1 2 1 2) (fun _ => 7) =
      .ok { rows := 1, cols := 2, data := [255, 255] } := by
    simp [postprocess, Dims4, Dims.get, forLoopE, rowStep, pixelStep, scanClasses, classStep,
      scoreIndex, F32.gt, Mat8.create, Mat8.setAt, maskValue]
  ⟨h, postprocess_mask_binary _ _ _ _ h⟩

theorem postprocess_pixel_iff_foreground_witness :
    ∃ max_val max_idx px,
      scanClasses [F32.fin 3, F32.fin 1, F32.fin 2, F32.fin 5] 2 1 2 0 1 =
        .ok (max_val, max_idx) ∧
      (Mat8.mk 1 2 [0, 255]).at? 0 1 = some px ∧
      (px = 255 ↔ 0 < max_idx) ∧ (px = 0 ↔ max_idx = 0) :=
  postprocess_pixel_iff_foreground [F32.fin 3, F32.fin 1, F32.fin 2, F32.fin 5]
    (Dims4 1 2 1 2) (fun _ => 7) { rows := 1, cols := 2, data := [0, 255] }
    (by rfl)
    0 1 (by decide) (by decide)

/-! ## The loops of `preprocess` -/

theorem chw_unique (H W c h w c' h' w' : Nat) (hh : h < H) (hw : w < W)
    (hh' : h' < H) (hw' : w' < W)
    (e : c * (H * W) + h * W + w = c' * (H * W) + h' * W + w') :
    c = c' ∧ h = h' ∧ w = w' := by
  have b1 : h * W + w < H * W := rowMajor_lt H W h w hh hw
  have b2 : h' * W + w' < H * W := rowMajor_lt H W h' w' hh' hw'
  obtain ⟨ec, er⟩ := rowMajor_unique (H * W) c (h * W + w) c' (h' * W + w') b1 b2 (by omega)
  obtain ⟨eh, ew⟩ := rowMajor_unique W h w h' w' hw hw' er
  exact ⟨ec, eh, ew⟩

theorem chw_lt (H W c h w : Nat) (hc : c < 3) (hh : h < H) (hw : w < W) :
    c * (H * W) + h * W + w < 3 * H * W := by
  have := scoreIndex_lt 3 H W c h w hc hh hw
  unfold scoreIndex at this
  exact this

theorem vecResize_length {α : Type} (v : List α) (n : Nat) (z : α) :
    (vecResize v n z).length = n := by
  simp [vecResize]
  omega

theorem inputFilled_step (image : Image) (H W c h w : Nat) (buf : List ℚ)
    (hc : c < 3) (hh : h < H) (hw : w < W)
    (hI : InputFilled image H W (c * (H * W) + h * W + w) buf) :
    InputFilled image H W (c * (H * W) + h * W + (w + 1))
      (preprocessStep image H W c h w buf) := by
  obtain ⟨hl, hf⟩ := hI
  refine ⟨by simp [preprocessStep, hl], ?_⟩
  intro c' h' w' hh' hw' hlt
  have hin : c * (H * W) + h * W + w < buf.length := by
    rw [hl]; exact chw_lt H W c h w hc hh hw
  by_cases he : c' * (H * W) + h' * W + w' = c * (H * W) + h * W + w
  · obtain ⟨e1, e2, e3⟩ := chw_unique H W c' h' w' c h w hh' hw' hh hw he
    subst e1; subst e2; subst e3
    simp only [preprocessStep]
    rw [List.getElem?_set_self hin]
    rfl
  · simp only [preprocessStep]
    rw [List.getElem?_set_ne (fun e => he e.symm)]
    exact hf c' h' w' hh' hw' (by omega)

theorem inputFilled_row (image : Image) (H W c h : Nat) (buf : List ℚ)
    (hc : c < 3) (hh : h < H)
    (hI : InputFilled image H W (c * (H * W) + h * W) buf) :
    InputFilled image H W (c * (H * W) + (h + 1) * W)
      (forLoop (preprocessStep image H W c h) W 0 buf) := by
  have key := forLoop_inv (preprocessStep image H W c h)
    (fun w b => InputFilled image H W (c * (H * W) + h * W + w) b) W 0 buf
    (by simpa using hI)
    (fun j t _ hj hP => inputFilled_step image H W c h j t hc hh (by omega) hP)
  have e : c * (H * W) + h * W + (0 + W) = c * (H * W) + (h + 1) * W := by ring
  simp only [e] at key
  exact key

theorem inputFilled_channel (image : Image) (H W c : Nat) (buf : List ℚ)
    (hc : c < 3)
    (hI : InputFilled image H W (c * (H * W)) buf) :
    InputFilled image H W ((c + 1) * (H * W))
      (forLoop (fun h host_data => forLoop (preprocessStep image H W c h) W 0 host_data)
        H 0 buf) := by
  have key := forLoop_inv
    (fun h host_data => forLoop (preprocessStep image H W c h) W 0 host_data)
    (fun h b => InputFilled image H W (c * (H * W) + h * W) b) H 0 buf
    (by simpa using hI)
    (fun j t _ hj hP => inputFilled_row image H W c j t hc (by omega) hP)
  have e : c * (H * W) + (0 + H) * W = (c + 1) * (H * W) := by ring
  simp only [e] at key
  exact key

theorem preprocess_filled (host_input : List ℚ) (image : Image) :
    InputFilled image image.rows image.cols (3 * (image.rows * image.cols))
      (preprocess host_input image) := by
  have key := forLoop_inv
    (fun c host_data =>
      forLoop (fun h host_data =>
        forLoop (preprocessStep image image.rows image.cols c h) image.cols 0 host_data)
        image.rows 0 host_data)
    (fun c b => InputFilled image image.rows image.cols (c * (image.rows * image.cols)) b)
    3 0 (vecResize host_input (1 * 3 * image.rows * image.cols) 0)
    ⟨by rw [vecResize_length], fun _ _ _ _ _ hlt => by simp at hlt⟩
    (fun j t _ hj hP => inputFilled_channel image _ _ j t (by omega) hP)
  simpa [preprocess] using key

theorem preprocess_length (host_input : List ℚ) (image : Image) :
    (preprocess host_input image).length = 3 * image.rows * image.cols :=
  (preprocess_filled host_input image).1

theorem preprocess_getElem? (host_input : List ℚ) (image : Image) (c h w : Nat)
    (hc : c < 3) (hh : h < image.rows) (hw : w < image.cols) :
    (preprocess host_input image)[c * (image.rows * image.cols) + h * image.cols + w]? =
      some (normalized image c h w) := by
  refine (preprocess_filled host_input image).2 c h w hh hw ?_
  have := chw_lt image.rows image.cols c h w hc hh hw
  have e : 3 * image.rows * image.cols = 3 * (image.rows * image.cols) := by ring
  omega

theorem chw_surjective (H W i : Nat) (hi : i < 3 * H * W) :
    ∃ c h w, c < 3 ∧ h < H ∧ w < W ∧ c * (H * W) + h * W + w = i := by
  have hHW : 0 < H * W := by
    rcases Nat.eq_zero_or_pos (H * W) with h0 | h0
    · have e : 3 * H * W = 3 * (H * W) := by ring
      rw [e, h0] at hi; simp at hi
    · exact h0
  have hW : 0 < W := Nat.pos_of_mul_pos_left hHW
  refine ⟨i / (H * W), i % (H * W) / W, i % (H * W) % W, ?_, ?_, Nat.mod_lt _ hW, ?_⟩
  · apply Nat.div_lt_of_lt_mul
    have e : H * W * 3 = 3 * H * W := by ring
    omega
  · apply Nat.div_lt_of_lt_mul
    have := Nat.mod_lt i hHW
    have e : W * H = H * W := by ring
    omega
  · have h1 : i % (H * W) / W * W + i % (H * W) % W = i % (H * W) := Nat.div_add_mod' _ _
    have h2 : i / (H * W) * (H * W) + i % (H * W) = i := Nat.div_add_mod' _ _
    omega

theorem Flt.toRat_eq_div (x : Flt) (h : x.e ≤ 0) :
    x.toRat = (x.m : ℚ) / 2 ^ (-x.e).toNat := by
  unfold Flt.toRat
  have hk : x.e = -((-x.e).toNat : Int) := by omega
  have h2 : (2 : ℚ) ^ x.e = ((2 : ℚ) ^ (-x.e).toNat)⁻¹ := by
    conv_lhs => rw [hk]
    rw [zpow_neg, zpow_natCast]
  rw [h2, div_eq_mul_inv]

theorem Flt.toRat_mk_neg (m : Int) (k : Nat) :
    Flt.toRat ⟨m, -(k : Int)⟩ = (m : ℚ) / 2 ^ k := by
  unfold Flt.toRat
  rw [zpow_neg, zpow_natCast, div_eq_mul_inv]

theorem Flt.toRat_close (x : Flt) (A : Int) (B N : Nat) (hB : 0 < B) (hN : 0 < N)
    (he : x.e ≤ 0)
    (h : (x.m * (B : Int) - A * 2 ^ (-x.e).toNat).natAbs * N ≤ 2 ^ (-x.e).toNat * B) :
    |x.toRat - (A : ℚ) / (B : ℚ)| ≤ 1 / (N : ℚ) := by
  rw [Flt.toRat_eq_div x he]
  have hBq : (0 : ℚ) < (B : ℚ) := by exact_mod_cast hB
  have hNq : (0 : ℚ) < (N : ℚ) := by exact_mod_cast hN
  have h2 : (0 : ℚ) < (2 : ℚ) ^ (-x.e).toNat := by positivity
  have e : (x.m : ℚ) / 2 ^ (-x.e).toNat - (A : ℚ) / (B : ℚ) =
      ((x.m : ℚ) * B - A * 2 ^ (-x.e).toNat) / (2 ^ (-x.e).toNat * B) := by
    field_simp
    ring
  rw [e, abs_div, abs_of_pos (mul_pos h2 hBq), div_le_div_iff₀ (mul_pos h2 hBq) hNq, one_mul]
  have hc : (((x.m * (B : Int) - A * 2 ^ (-x.e).toNat).natAbs * N : Nat) : ℚ) ≤
      ((2 ^ (-x.e).toNat * B : Nat) : ℚ) := by exact_mod_cast h
  have habs : (((x.m * (B : Int) - A * 2 ^ (-x.e).toNat).natAbs : Nat) : ℚ) =
      |(x.m : ℚ) * B - A * 2 ^ (-x.e).toNat| := by
    rw [Nat.cast_natAbs]
    push_cast
    rfl
  push_cast at hc
  rw [← habs]
  exact hc

theorem Flt.toRat_ne (x : Flt) (A : Int) (B : Nat) (hB : 0 < B) (he : x.e ≤ 0)
    (h : x.m * (B : Int) ≠ A * 2 ^ (-x.e).toNat) :
    x.toRat ≠ (A : ℚ) / (B : ℚ) := by
  rw [Flt.toRat_eq_div x he]
  have hBq : (0 : ℚ) < (B : ℚ) := by exact_mod_cast hB
  have h2 : (0 : ℚ) < (2 : ℚ) ^ (-x.e).toNat := by positivity
  intro heq
  rw [div_eq_div_iff (ne_of_gt h2) (ne_of_gt hBq)] at heq
  apply h
  exact_mod_cast heq


set_option maxRecDepth 1000000 in
theorem normalize_check : ∀ (b : Byte) (c : Fin 3),
    (normalize (byteToFloat b) c.val).e ≤ 0 ∧
    ((normalize (byteToFloat b) c.val).m *
        ((255 * ([229, 224, 225].getD c.val 0) : Nat) : Int) -
      (1000 * (b.val : Int) - 255 * (([485, 456, 406] : List Int).getD c.val 0)) *
        2 ^ (-(normalize (byteToFloat b) c.val).e).toNat).natAbs * 1000000 ≤
      2 ^ (-(normalize (byteToFloat b) c.val).e).toNat * (255 * ([229, 224, 225].getD c.val 0)) ∧
    (normalize (byteToFloat b) c.val).m *
        ((255 * ([229, 224, 225].getD c.val 0) : Nat) : Int) ≠
      (1000 * (b.val : Int) - 255 * (([485, 456, 406] : List Int).getD c.val 0)) *
        2 ^ (-(normalize (byteToFloat b) c.val).e).toNat := by
  decide

set_option maxRecDepth 1000000 in
theorem byteToFloat_check : ∀ b : Byte,
    0 ≤ (byteToFloat b).m ∧ (byteToFloat b).e ≤ 0 ∧
    (byteToFloat b).m ≤ 2 ^ (-(byteToFloat b).e).toNat ∧
    ((byteToFloat b).m * ((255 : Nat) : Int) -
      (b.val : Int) * 2 ^ (-(byteToFloat b).e).toNat).natAbs * 10000000 ≤
      2 ^ (-(byteToFloat b).e).toNat * 255 := by
  decide

theorem exact_normalized_eq (b c : Nat) (hc : c < 3) :
    ((b : ℚ) / 255 - ([0.485, 0.456, 0.406] : List ℚ).getD c 0) /
        ([0.229, 0.224, 0.225] : List ℚ).getD c 0 =
      ((1000 * (b : Int) - 255 * (([485, 456, 406] : List Int).getD c 0) : Int) : ℚ) /
        ((255 * ([229, 224, 225].getD c 0) : Nat) : ℚ) := by
  interval_cases c <;> simp <;> field_simp <;> ring

/-- C6 (as amended): for a 3-channel byte image, every pixel (h, w) and channel c
in {0, 1, 2} (decoded channel order), `preprocess` stores at the element of
(c, h, w) the `float` value of `(b * s - mean[c]) / std[c]`, where b is the byte
of channel c of that pixel, s is the `float` of the `double` 1.0/255.0, mean and
std are the `float` constants nearest to {0.485, 0.456, 0.406} and
{0.229, 0.224, 0.225}, and each of the three operations is rounded to nearest.
That value is within 10^-6 of the exact (b/255 - mean[c]) / std[c] of the
decimal constants and never equal to it. The intermediate b * s is within 10^-7
of b/255 and lies in [0, 1] for every byte b. -/
theorem preprocess_stores_normalized (host_input : List ℚ) (image : Image) (c h w : Nat)
    (hc : c < 3) (hh : h < image.rows) (hw : w < image.cols) :
    (preprocess host_input image)[c * (image.rows * image.cols) + h * image.cols + w]? =
      some (normalize (byteToFloat (image.at3 h w c)) c).toRat ∧
    normalize (byteToFloat (image.at3 h w c)) c =
      ((Flt.mul32 ⟨((image.at3 h w c).val : Int), 0⟩ scale255).sub32 (mean c)).div32 (std c) ∧
    scale255.toRat = 8421505 / 2147483648 ∧
    ((mean 0).toRat = 4068475 / 8388608 ∧ (mean 1).toRat = 15300821 / 33554432 ∧
      (mean 2).toRat = 13623099 / 33554432) ∧
    ((std 0).toRat = 7683965 / 33554432 ∧ (std 1).toRat = 7516193 / 33554432 ∧
      (std 2).toRat = 7549747 / 33554432) ∧
    |(normalize (byteToFloat (image.at3 h w c)) c).toRat -
        (((image.at3 h w c).val : ℚ) / 255 - ([0.485, 0.456, 0.406] : List ℚ).getD c 0) /
          ([0.229, 0.224, 0.225] : List ℚ).getD c 0| ≤ 1 / 1000000 ∧
    (normalize (byteToFloat (image.at3 h w c)) c).toRat ≠
      (((image.at3 h w c).val : ℚ) / 255 - ([0.485, 0.456, 0.406] : List ℚ).getD c 0) /
        ([0.229, 0.224, 0.225] : List ℚ).getD c 0 ∧
    (∀ b : Byte, 0 ≤ (byteToFloat b).toRat ∧ (byteToFloat b).toRat ≤ 1 ∧
      |(byteToFloat b).toRat - (b.val : ℚ) / 255| ≤ 1 / 10000000) := by
  obtain ⟨he, hclose, hne⟩ := normalize_check (image.at3 h w c) ⟨c, hc⟩
  have hS : 0 < 255 * ([229, 224, 225].getD c 0) := by
    interval_cases c <;> decide
  refine ⟨?_, rfl, ?_, ⟨?_, ?_, ?_⟩, ⟨?_, ?_, ?_⟩, ?_, ?_, ?_⟩
  · rw [preprocess_getElem? host_input image c h w hc hh hw]
    rfl
  · have e : scale255 = ⟨8421505, -((31 : Nat) : Int)⟩ := by decide
    rw [e, Flt.toRat_mk_neg]
    norm_num
  · have e : mean 0 = ⟨16273900, -((25 : Nat) : Int)⟩ := by decide
    rw [e, Flt.toRat_mk_neg]
    norm_num
  · have e : mean 1 = ⟨15300821, -((25 : Nat) : Int)⟩ := by decide
    rw [e, Flt.toRat_mk_neg]
    norm_num
  · have e : mean 2 = ⟨13623099, -((25 : Nat) : Int)⟩ := by decide
    rw [e, Flt.toRat_mk_neg]
    norm_num
  · have e : std 0 = ⟨15367930, -((26 : Nat) : Int)⟩ := by decide
    rw [e, Flt.toRat_mk_neg]
    norm_num
  · have e : std 1 = ⟨15032386, -((26 : Nat) : Int)⟩ := by decide
    rw [e, Flt.toRat_mk_neg]
    norm_num
  · have e : std 2 = ⟨15099494, -((26 : Nat) : Int)⟩ := by decide
    rw [e, Flt.toRat_mk_neg]
    norm_num
  · rw [exact_normalized_eq _ c hc]
    have := Flt.toRat_close _ _ _ 1000000 hS (by decide) he hclose
    simpa using this
  · rw [exact_normalized_eq _ c hc]
    exact Flt.toRat_ne _ _ _ hS he hne
  · intro b
    obtain ⟨h0, hbe, h1, hbc⟩ := byteToFloat_check b
    have h2 : (0 : ℚ) < (2 : ℚ) ^ (-(byteToFloat b).e).toNat := by positivity
    rw [Flt.toRat_eq_div _ hbe]
    refine ⟨?_, ?_, ?_⟩
    · apply div_nonneg _ (le_of_lt h2)
      exact_mod_cast h0
    · rw [div_le_one h2]
      exact_mod_cast h1
    · have := Flt.toRat_close _ _ 255 10000000 (by decide) (by decide) hbe hbc
      rw [Flt.toRat_eq_div _ hbe] at this
      simpa using this

theorem preprocess_stores_normalized_witness :
    (preprocess [1, 2, 3]
        { rows := 1, cols := 2, data := [0, 255, 128, 1, 2, 3] })[1 * (1 * 2) + 0 * 2 + 1]? =
      some (normalize (byteToFloat 2) 1).toRat :=
  (preprocess_stores_normalized [1, 2, 3] { rows := 1, cols := 2, data := [0, 255, 128, 1, 2, 3] }
    1 0 1 (by decide) (by decide) (by decide)).1

/-- C6 (counterexample): on a 1 x 2 image whose second pixel has the byte 2 in
channel 1, `preprocess` stores -8391545/4194304 at index 3, the `float` result,
which is not the exact value (2/255 - 0.456) / 0.224 = -2857/1428. -/
theorem preprocess_stores_rounded_value :
    (preprocess [1, 2, 3] { rows := 1, cols := 2, data := [0, 255, 128, 1, 2, 3] })[3]? =
      some (-8391545 / 4194304 : ℚ) ∧
    ((2 : ℚ) / 255 - 0.456) / 0.224 = -2857 / 1428 ∧
    (-8391545 / 4194304 : ℚ) ≠ ((2 : ℚ) / 255 - 0.456) / 0.224 := by
  refine ⟨?_, by norm_num, by norm_num⟩
  have h := preprocess_getElem? [1, 2, 3]
    { rows := 1, cols := 2, data := [0, 255, 128, 1, 2, 3] } 1 0 1 (by decide) (by decide)
    (by decide)
  have e : normalized { rows := 1, cols := 2, data := [0, 255, 128, 1, 2, 3] } 1 0 1 =
      -8391545 / 4194304 := by
    have e1 : normalize (floatImageAt { rows := 1, cols := 2, data := [0, 255, 128, 1, 2, 3] }
        0 1 1) 1 = ⟨-8391545, -((22 : Nat) : Int)⟩ := by decide
    unfold normalized
    rw [e1, Flt.toRat_mk_neg]
    norm_num
  rw [← e]
  exact h

/-- C7: `preprocess` writes the staging buffer in channel-first order: the
normalised value of channel c at pixel (h, w) is at index c*(H*W) + h*W + w;
the buffer has 3*H*W elements; the index map sends {0..2} x {0..H-1} x {0..W-1}
into {0..3*H*W-1}, is injective and is onto, and the indices of channel c are
exactly the block from c*(H*W) up to (c+1)*(H*W). -/
theorem preprocess_channel_first (host_input : List ℚ) (image : Image) :
    (∀ c h w, c < 3 → h < image.rows → w < image.cols →
      (preprocess host_input image)[c * (image.rows * image.cols) + h * image.cols + w]? =
        some (normalized image c h w)) ∧
    (preprocess host_input image).length = 3 * image.rows * image.cols ∧
    (∀ c h w, c < 3 → h < image.rows → w < image.cols →
      c * (image.rows * image.cols) + h * image.cols + w < 3 * image.rows * image.cols) ∧
    (∀ c h w c' h' w', h < image.rows → w < image.cols → h' < image.rows → w' < image.cols →
      c * (image.rows * image.cols) + h * image.cols + w =
        c' * (image.rows * image.cols) + h' * image.cols + w' →
      c = c' ∧ h = h' ∧ w = w') ∧
    (∀ i, i < 3 * image.rows * image.cols →
      ∃ c h w, c < 3 ∧ h < image.rows ∧ w < image.cols ∧
        c * (image.rows * image.cols) + h * image.cols + w = i) ∧
    (∀ c h w, h < image.rows → w < image.cols →
      c * (image.rows * image.cols) ≤ c * (image.rows * image.cols) + h * image.cols + w ∧
      c * (image.rows * image.cols) + h * image.cols + w < (c + 1) * (image.rows * image.cols)) := by
  refine ⟨fun c h w hc hh hw => preprocess_getElem? host_input image c h w hc hh hw,
    preprocess_length host_input image,
    fun c h w hc hh hw => chw_lt _ _ c h w hc hh hw,
    fun c h w c' h' w' hh hw hh' hw' e => chw_unique _ _ c h w c' h' w' hh hw hh' hw' e,
    fun i hi => chw_surjective _ _ i hi, ?_⟩
  intro c h w hh hw
  have := rowMajor_lt _ _ h w hh hw
  have e : (c + 1) * (image.rows * image.cols) =
      c * (image.rows * image.cols) + image.rows * image.cols := by ring
  omega

/-- C9: the buffer `preprocess` produces depends only on the image: for any
two objects, whatever the size and contents of their `host_input_`, the
resulting `host_input_` is the same list. -/
theorem preprocess_independent_of_prior_state (s1 s2 : TRTSegmentation) (image : Image) :
    preprocess s1.host_input_ image = preprocess s2.host_input_ image := by
  apply List.ext_getElem?
  intro i
  by_cases hi : i < 3 * image.rows * image.cols
  · obtain ⟨c, h, w, hc, hh, hw, rfl⟩ := chw_surjective _ _ i hi
    rw [preprocess_getElem? _ image c h w hc hh hw, preprocess_getElem? _ image c h w hc hh hw]
  · rw [List.getElem?_eq_none (by rw [preprocess_length]; omega),
      List.getElem?_eq_none (by rw [preprocess_length]; omega)]

/-! ## `cv::resize` -/

theorem cvResizeLinear_dims (pixels : Nat → Byte) (src dst : Image) (width height : Nat)
    (h : cvResizeLinear pixels src width height = .ok dst) :
    dst.rows = height ∧ dst.cols = width := by
  unfold cvResizeLinear at h
  split at h
  · simp at h
  · injection h with h
    subst h
    exact ⟨rfl, rfl⟩

theorem cvResizeNearest_spec (src dst : Mat8) (width height : Nat)
    (h : cvResizeNearest src width height = .ok dst) :
    dst.rows = height ∧ dst.cols = width ∧ dst.data.length = height * width ∧
    0 < src.rows ∧ 0 < src.cols ∧ 0 < width ∧ 0 < height ∧
    ∀ y x, y < height → x < width →
      dst.data[y * width + x]? =
        some (src.data.getD
          (min (y * src.rows / height) (src.rows - 1) * src.cols +
            min (x * src.cols / width) (src.cols - 1)) 0) := by
  unfold cvResizeNearest at h
  split at h
  · simp at h
  · rename_i hne
    simp only [Bool.or_eq_true, beq_iff_eq, not_or] at hne
    injection h with h
    subst h
    refine ⟨rfl, rfl, by simp, by omega, by omega, by omega, by omega, ?_⟩
    intro y x hy hx
    have hlt : y * width + x < height * width := rowMajor_lt height width y x hy hx
    have hdiv : (y * width + x) / width = y := by
      rw [Nat.add_comm, Nat.add_mul_div_right _ _ (by omega), Nat.div_eq_of_lt hx, Nat.zero_add]
    have hmod : (y * width + x) % width = x := by
      rw [Nat.add_comm, Nat.add_mul_mod_self_right, Nat.mod_eq_of_lt hx]
    simp only [List.getElem?_map, List.getElem?_range hlt, Option.map_some', hdiv, hmod]

theorem cvResizeNearest_mem (src dst : Mat8) (width height : Nat)
    (hwf : src.data.length = src.rows * src.cols)
    (h : cvResizeNearest src width height = .ok dst) :
    ∀ b ∈ dst.data, b ∈ src.data := by
  obtain ⟨_, _, hl, hr, hc, hw, hh, hpx⟩ := cvResizeNearest_spec src dst width height h
  intro b hb
  obtain ⟨i, hi, rfl⟩ := List.mem_iff_getElem.mp hb
  have hi' : i < height * width := by rw [← hl]; exact hi
  have hdecomp : i / width * width + i % width = i := Nat.div_add_mod' i _
  have hy : i / width < height := by
    apply Nat.div_lt_of_lt_mul
    have e : width * height = height * width := by ring
    omega
  have := hpx (i / width) (i % width) hy (Nat.mod_lt _ hw)
  rw [hdecomp, List.getElem?_eq_getElem hi] at this
  injection this with this
  rw [this]
  have hsy : min (i / width * src.rows / height) (src.rows - 1) < src.rows := by omega
  have hsx : min (i % width * src.cols / width) (src.cols - 1) < src.cols := by omega
  have hin := rowMajor_lt src.rows src.cols _ _ hsy hsx
  rw [← hwf] at hin
  rw [List.getD_eq_getElem _ _ hin]
  exact List.getElem_mem _

/-! ## Paths through `run` -/

theorem runFinish_inv (world : RunWorld) (m : Machine) (oh ow : Nat) (path : String)
    (out : RunOut) (h : runFinish world m oh ow path = .ok out) :
    ∃ src output_mask final_mask,
      bufferAt m.self.buffers_ m.self.output_binding_index_ = .ok src ∧
      postprocess out.self.host_output_ (world.getTensorShape m.self.output_tensor_name_)
        world.uninit = .ok output_mask ∧
      cvResizeNearest output_mask ow oh = .ok final_mask ∧
      out.self = (download world m
        (volume (world.getTensorShape m.self.output_tensor_name_)) src).self ∧
      out.dev = m.dev ∧
      out.events = m.events ++
        [Event.memcpyDeviceToHost src
            ((volume (world.getTensorShape m.self.output_tensor_name_) * sizeofFloat) % 2 ^ 64),
          Event.imwrite path final_mask] ∧
      out.status = (if world.imwrite path final_mask then 0 else -1) := by
  unfold runFinish at h
  simp only at h
  split at h
  · simp at h
  · rename_i src hsrc
    split at h
    · simp at h
    · rename_i output_mask hpost
      split at h
      · simp at h
      · rename_i final_mask hres
        refine ⟨src, output_mask, final_mask, hsrc, ?_⟩
        split at h
        · rename_i hw
          simp only [Machine.ret] at h
          injection h with h
          subst h
          simp only [Bool.not_eq_true', Bool.not_eq_eq_eq_not, Bool.not_true] at hw
          exact ⟨hpost, hres, rfl, rfl, by simp [Machine.emit, download],
            by simp [hw]⟩
        · rename_i hw
          simp only [Machine.ret] at h
          injection h with h
          subst h
          simp only [Bool.not_eq_true', Bool.not_eq_eq_eq_not, Bool.not_true,
            Bool.not_eq_false] at hw
          exact ⟨hpost, hres, rfl, rfl, by simp [Machine.emit, download],
            by simp [hw]⟩

theorem runExecute_inv (world : RunWorld) (m : Machine) (oh ow : Nat) (path : String)
    (out : RunOut) (h : runExecute world m oh ow path = .ok out) :
    (world.executeV2 m.self.buffers_ = false ∧ out.status = -1 ∧ out.self = m.self ∧
      out.dev = m.dev ∧ out.events = m.events ++ [Event.executeV2 m.self.buffers_]) ∨
    (world.executeV2 m.self.buffers_ = true ∧
      runFinish world (m.emit (Event.executeV2 m.self.buffers_)) oh ow path = .ok out) := by
  unfold runExecute at h
  simp only at h
  split at h
  · rename_i hx
    simp only [Machine.ret] at h
    injection h with h
    subst h
    have hx' : world.executeV2 m.self.buffers_ = false := by simpa [Machine.emit] using hx
    exact Or.inl ⟨hx', rfl, rfl, rfl, rfl⟩
  · rename_i hx
    have hx' : world.executeV2 m.self.buffers_ = true := by simpa [Machine.emit] using hx
    exact Or.inr ⟨hx', h⟩

theorem foldl_freeStep_self (l : List Nat) (m : Machine) :
    (l.foldl freeStep m).self = m.self := by
  induction l generalizing m with
  | nil => rfl
  | cons a l ih => simp only [List.foldl_cons]; rw [ih]; rfl

theorem freeBuffers_self (m : Machine) : (freeBuffers m).self = m.self :=
  foldl_freeStep_self _ m

theorem runInfer_inv (world : RunWorld) (m : Machine) (resized : Image) (oh ow : Nat)
    (path : String) (out : RunOut) (h : runInfer world m resized oh ow path = .ok out) :
    ∃ engine dst,
      m.self.engine_ = some engine ∧
      bufferAt (stage world engine (freeBuffers m) resized).self.buffers_
        (stage world engine (freeBuffers m) resized).self.input_binding_index_ = .ok dst ∧
      runExecute world
        ((stage world engine (freeBuffers m) resized).emit
          (Event.memcpyHostToDevice dst
            (((stage world engine (freeBuffers m) resized).self.host_input_.length *
              sizeofFloat) % 2 ^ 64)))
        oh ow path = .ok out := by
  unfold runInfer at h
  simp only at h
  split at h
  · simp at h
  · rename_i engine heng
    split at h
    · simp at h
    · rename_i dst hdst
      rw [freeBuffers_self] at heng
      exact ⟨engine, dst, heng, hdst, h⟩

theorem run_inv (world : RunWorld) (m : Machine) (image_path path : String) (out : RunOut)
    (h : run world m image_path path = .ok out) :
    ((world.imread image_path).empty = true ∧ out.status = -1 ∧ out.self = m.self ∧
      out.dev = m.dev ∧ out.events = m.events) ∨
    ((world.imread image_path).empty = false ∧ (∃ ctx, m.self.context_ = some ctx) ∧
      world.setInputShape m.self.input_tensor_name_ inputShape = false ∧
      out.status = -1 ∧ out.self = m.self ∧ out.dev = m.dev ∧
      out.events = m.events ++ [Event.setInputShape m.self.input_tensor_name_ inputShape]) ∨
    ((world.imread image_path).empty = false ∧ (∃ ctx, m.self.context_ = some ctx) ∧
      world.setInputShape m.self.input_tensor_name_ inputShape = true ∧
      ∃ resized,
        cvResizeLinear world.resizePixels (world.imread image_path) target_width target_height
          = .ok resized ∧
        runInfer world (m.emit (Event.setInputShape m.self.input_tensor_name_ inputShape))
          resized (world.imread image_path).rows (world.imread image_path).cols path
          = .ok out) := by
  unfold run at h
  simp only at h
  split at h
  · rename_i he
    simp only [Machine.ret] at h
    injection h with h
    subst h
    exact Or.inl ⟨he, rfl, rfl, rfl, rfl⟩
  · rename_i he
    simp only [Bool.not_eq_true] at he
    split at h
    · simp at h
    · rename_i resized hres
      split at h
      · simp at h
      · rename_i ctx hctx
        split at h
        · rename_i hs
          simp only [Machine.ret] at h
          injection h with h
          subst h
          have hs' : world.setInputShape m.self.input_tensor_name_ inputShape = false := by
            simpa [Machine.emit] using hs
          exact Or.inr (Or.inl ⟨he, ⟨ctx, hctx⟩, hs', rfl, rfl, rfl, rfl⟩)
        · rename_i hs
          have hs' : world.setInputShape m.self.input_tensor_name_ inputShape = true := by
            simpa [Machine.emit] using hs
          exact Or.inr (Or.inr ⟨he, ⟨ctx, hctx⟩, hs', resized, hres, h⟩)

/-! ## What the stages of `run` leave unchanged -/

theorem allocBuffers_frame (world : RunWorld) (engine : Engine) (m : Machine) :
    (allocBuffers world engine m).self.host_input_ = m.self.host_input_ ∧
    (allocBuffers world engine m).self.host_output_ = m.self.host_output_ ∧
    (allocBuffers world engine m).self.output_tensor_name_ = m.self.output_tensor_name_ ∧
    (allocBuffers world engine m).self.input_tensor_name_ = m.self.input_tensor_name_ ∧
    (allocBuffers world engine m).self.input_binding_index_ = m.self.input_binding_index_ ∧
    (allocBuffers world engine m).self.output_binding_index_ = m.self.output_binding_index_ ∧
    (allocBuffers world engine m).self.runtime_ = m.self.runtime_ ∧
    (allocBuffers world engine m).self.engine_ = m.self.engine_ ∧
    (allocBuffers world engine m).self.context_ = m.self.context_ := by
  unfold allocBuffers
  exact forLoop_inv (allocStep world engine)
    (fun _ m' => m'.self.host_input_ = m.self.host_input_ ∧
      m'.self.host_output_ = m.self.host_output_ ∧
      m'.self.output_tensor_name_ = m.self.output_tensor_name_ ∧
      m'.self.input_tensor_name_ = m.self.input_tensor_name_ ∧
      m'.self.input_binding_index_ = m.self.input_binding_index_ ∧
      m'.self.output_binding_index_ = m.self.output_binding_index_ ∧
      m'.self.runtime_ = m.self.runtime_ ∧
      m'.self.engine_ = m.self.engine_ ∧
      m'.self.context_ = m.self.context_)
    engine.getNbIOTensors 0 _ ⟨rfl, rfl, rfl, rfl, rfl, rfl, rfl, rfl, rfl⟩
    (fun j t _ _ hP => hP)

theorem stage_host_input (world : RunWorld) (engine : Engine) (m : Machine) (resized : Image) :
    (stage world engine m resized).self.host_input_ = preprocess m.self.host_input_ resized := by
  unfold stage
  simp only
  rw [(allocBuffers_frame world engine m).1]

theorem stage_output_tensor_name (world : RunWorld) (engine : Engine) (m : Machine)
    (resized : Image) :
    (stage world engine m resized).self.output_tensor_name_ = m.self.output_tensor_name_ :=
  (allocBuffers_frame world engine m).2.2.1

theorem download_host_input (world : RunWorld) (m : Machine) (n src : Nat) :
    (download world m n src).self.host_input_ = m.self.host_input_ := rfl

theorem runInfer_host_input (world : RunWorld) (m : Machine) (resized : Image) (oh ow : Nat)
    (path : String) (out : RunOut) (h : runInfer world m resized oh ow path = .ok out) :
    out.self.host_input_ = preprocess m.self.host_input_ resized := by
  obtain ⟨engine, dst, _, _, hx⟩ := runInfer_inv world m resized oh ow path out h
  rcases runExecute_inv world _ oh ow path out hx with ⟨_, _, hself, _, _⟩ | ⟨_, hfin⟩
  · rw [hself]
    show (stage world engine (freeBuffers m) resized).self.host_input_ = _
    rw [stage_host_input, freeBuffers_self]
  · obtain ⟨_, _, _, _, _, _, hself, _⟩ := runFinish_inv world _ oh ow path out hfin
    rw [hself, download_host_input]
    show (stage world engine (freeBuffers m) resized).self.host_input_ = _
    rw [stage_host_input, freeBuffers_self]

theorem run_cases (world : RunWorld) (m : Machine) (image_path path : String)
    (out : RunOut) (h : run world m image_path path = .ok out) :
    (out.status = -1 ∧ out.events = m.events) ∨
    (out.status = -1 ∧ ∃ earlier e, out.events = earlier ++ [e] ∧
      ∀ p k, e ≠ Event.imwrite p k) ∨
    ((world.imread image_path).empty = false ∧
      ∃ earlier output_mask final_mask,
        postprocess out.self.host_output_ (world.getTensorShape m.self.output_tensor_name_)
          world.uninit = .ok output_mask ∧
        cvResizeNearest output_mask (world.imread image_path).cols
          (world.imread image_path).rows = .ok final_mask ∧
        out.events = earlier ++ [Event.imwrite path final_mask] ∧
        out.status = (if world.imwrite path final_mask then 0 else -1)) := by
  rcases run_inv world m image_path path out h with ⟨_, hs, _, _, hev⟩ |
    ⟨_, _, _, hs, _, _, hev⟩ | ⟨hne, _, _, resized, _, hinf⟩
  · exact Or.inl ⟨hs, hev⟩
  · exact Or.inr (Or.inl ⟨hs, _, _, hev, fun _ _ e => Event.noConfusion e⟩)
  · obtain ⟨engine, dst, _, _, hx⟩ := runInfer_inv world _ resized _ _ path out hinf
    rcases runExecute_inv world _ _ _ path out hx with ⟨_, hs, _, _, hev⟩ | ⟨_, hfin⟩
    · exact Or.inr (Or.inl ⟨hs, _, _, hev, fun _ _ e => Event.noConfusion e⟩)
    · obtain ⟨src, output_mask, final_mask, _, hpost, hres, _, _, hev, hst⟩ :=
        runFinish_inv world _ _ _ path out hfin
      have hname : (stage world engine (freeBuffers
          (m.emit (Event.setInputShape m.self.input_tensor_name_ inputShape)))
            resized).self.output_tensor_name_ = m.self.output_tensor_name_ := by
        rw [stage_output_tensor_name, freeBuffers_self]; rfl
      simp only [Machine.emit] at hpost hev hname
      rw [hname] at hpost hev
      obtain ⟨earlier, hearlier⟩ :
          ∃ earlier, out.events = earlier ++ [Event.imwrite path final_mask] :=
        ⟨_, by rw [hev]; exact (List.append_assoc _ [_] [_]).symm⟩
      exact Or.inr (Or.inr ⟨hne, earlier, output_mask, final_mask, hpost, hres, hearlier, hst⟩)

theorem run_status_zero (world : RunWorld) (m : Machine) (image_path path : String)
    (out : RunOut) (h : run world m image_path path = .ok out) (hok : out.status = 0) :
    (world.imread image_path).empty = false ∧
    ∃ earlier output_mask final_mask,
      postprocess out.self.host_output_ (world.getTensorShape m.self.output_tensor_name_)
        world.uninit = .ok output_mask ∧
      cvResizeNearest output_mask (world.imread image_path).cols (world.imread image_path).rows
        = .ok final_mask ∧
      out.events = earlier ++ [Event.imwrite path final_mask] ∧
      world.imwrite path final_mask = true := by
  rcases run_cases world m image_path path out h with ⟨hs, _⟩ | ⟨hs, _⟩ |
    ⟨hne, earlier, output_mask, final_mask, hpost, hres, hev, hst⟩
  · rw [hs] at hok; exact absurd hok (by decide)
  · rw [hs] at hok; exact absurd hok (by decide)
  · refine ⟨hne, earlier, output_mask, final_mask, hpost, hres, hev, ?_⟩
    by_contra hc
    simp only [Bool.not_eq_true] at hc
    rw [hst, hc] at hok
    exact absurd hok (by decide)

theorem run_last_imwrite (world : RunWorld) (m : Machine) (image_path path : String)
    (out : RunOut) (h : run world m image_path path = .ok out)
    (earlier : List Event) (p : String) (mask : Mat8)
    (hlast : out.events = earlier ++ [Event.imwrite p mask])
    (hnew : m.events.length < out.events.length) :
    ∃ output_mask,
      postprocess out.self.host_output_ (world.getTensorShape m.self.output_tensor_name_)
        world.uninit = .ok output_mask ∧
      cvResizeNearest output_mask (world.imread image_path).cols (world.imread image_path).rows
        = .ok mask := by
  rcases run_cases world m image_path path out h with ⟨_, hev⟩ | ⟨_, e1, e, hev, hne⟩ |
    ⟨_, e1, output_mask, final_mask, hpost, hres, hev, _⟩
  · rw [hev] at hnew; exact absurd hnew (Nat.lt_irrefl _)
  · rw [hlast] at hev
    have := (List.append_inj' hev rfl).2
    injection this with this
    exact absurd this.symm (hne p mask)
  · rw [hlast] at hev
    have := (List.append_inj' hev rfl).2
    injection this with this
    injection this with _ hm
    subst hm
    exact ⟨output_mask, hpost, hres⟩

/-! ## The mask `run` writes -/

/-- C4: when `run` returns 0 on a decoded image of width W and height H, the
image is non-empty (W >= 1, H >= 1) and the mask handed to `cv::imwrite`, the
last call `run` makes, has exactly H rows and W columns and H*W pixels,
whatever shape the network output has; for a 4000 x 3000 image the mask is
4000 x 3000. -/
theorem run_mask_has_original_size (world : RunWorld) (m : Machine)
    (image_path output_mask_path : String) (out : RunOut)
    (hrun : run world m image_path output_mask_path = .ok out) (hok : out.status = 0) :
    1 ≤ (world.imread image_path).cols ∧ 1 ≤ (world.imread image_path).rows ∧
    ∃ earlier final_mask,
      out.events = earlier ++ [Event.imwrite output_mask_path final_mask] ∧
      world.imwrite output_mask_path final_mask = true ∧
      final_mask.rows = (world.imread image_path).rows ∧
      final_mask.cols = (world.imread image_path).cols ∧
      final_mask.data.length = (world.imread image_path).rows * (world.imread image_path).cols ∧
      ((world.imread image_path).cols = 4000 → (world.imread image_path).rows = 3000 →
        final_mask.cols = 4000 ∧ final_mask.rows = 3000) := by
  obtain ⟨hne, earlier, output_mask, final_mask, _, hres, hev, hw⟩ :=
    run_status_zero world m image_path output_mask_path out hrun hok
  obtain ⟨hr, hc, hl, _, _, hw0, hh0, _⟩ := cvResizeNearest_spec _ _ _ _ hres
  refine ⟨hw0, hh0, earlier, final_mask, hev, hw, hr, hc, hl, ?_⟩
  intro e1 e2
  rw [hc, hr]
  exact ⟨e1, e2⟩

set_option maxRecDepth 100000 in
theorem run_mask_has_original_size_witness :
    ∃ out, run demoWorld demoMachine "in.jpg" "out.png" = .ok out ∧ out.status = 0 ∧
      ∃ earlier final_mask,
        out.events = earlier ++ [Event.imwrite "out.png" final_mask] ∧
        final_mask.rows = 3000 ∧ final_mask.cols = 4000 :=
  have hrun : run demoWorld demoMachine "in.jpg" "out.png" = .ok _ := rfl
  match run_mask_has_original_size demoWorld demoMachine "in.jpg" "out.png" _ hrun rfl with
  | ⟨_, _, earlier, final_mask, hev, _, hr, hc, _, _⟩ =>
    ⟨_, hrun, rfl, earlier, final_mask, hev, hr, hc⟩

/-- C5: the mask that a call of `run` hands to `cv::imwrite` is the
nearest-neighbour resize of the mask `postprocess` produced: each of its pixels
is a copy of a pixel of that network-resolution mask, so every value in it
occurs in the network-resolution mask and is 0 or 255. -/
theorem run_restore_keeps_labels (world : RunWorld) (m : Machine)
    (image_path output_mask_path : String) (out : RunOut)
    (hrun : run world m image_path output_mask_path = .ok out)
    (earlier : List Event) (p : String) (mask : Mat8)
    (hlast : out.events = earlier ++ [Event.imwrite p mask])
    (hnew : m.events.length < out.events.length) :
    ∃ output_mask,
      postprocess out.self.host_output_ (world.getTensorShape m.self.output_tensor_name_)
        world.uninit = .ok output_mask ∧
      cvResizeNearest output_mask (world.imread image_path).cols (world.imread image_path).rows
        = .ok mask ∧
      (∀ y x, y < mask.rows → x < mask.cols →
        ∃ sy sx v, sy < output_mask.rows ∧ sx < output_mask.cols ∧
          mask.at? y x = some v ∧ output_mask.at? sy sx = some v) ∧
      (∀ b ∈ mask.data, b ∈ output_mask.data) ∧
      (∀ b ∈ mask.data, b = 0 ∨ b = 255) := by
  obtain ⟨output_mask, hpost, hres⟩ :=
    run_last_imwrite world m image_path output_mask_path out hrun earlier p mask hlast hnew
  obtain ⟨hwf, hbin⟩ := postprocess_data_binary _ _ _ _ hpost
  have hmem := cvResizeNearest_mem output_mask mask _ _ hwf hres
  obtain ⟨hr, hc, _, hr0, hc0, _, _, hpx⟩ := cvResizeNearest_spec _ _ _ _ hres
  refine ⟨output_mask, hpost, hres, ?_, hmem, fun b hb => hbin b (hmem b hb)⟩
  intro y x hy hx
  rw [hr] at hy
  rw [hc] at hx
  have hsy : min (y * output_mask.rows / (world.imread image_path).rows)
      (output_mask.rows - 1) < output_mask.rows := by omega
  have hsx : min (x * output_mask.cols / (world.imread image_path).cols)
      (output_mask.cols - 1) < output_mask.cols := by omega
  have hin := rowMajor_lt output_mask.rows output_mask.cols _ _ hsy hsx
  rw [← hwf] at hin
  refine ⟨_, _, output_mask.data.getD
      (min (y * output_mask.rows / (world.imread image_path).rows) (output_mask.rows - 1) *
          output_mask.cols +
        min (x * output_mask.cols / (world.imread image_path).cols) (output_mask.cols - 1)) 0,
    hsy, hsx, ?_, ?_⟩
  · unfold Mat8.at?
    rw [hc]
    exact hpx y x hy hx
  · unfold Mat8.at?
    rw [List.getElem?_eq_getElem hin, List.getD_eq_getElem _ _ hin]

set_option maxRecDepth 100000 in
theorem run_restore_keeps_labels_witness :
    ∃ out earlier mask, run demoWorld demoMachine "in.jpg" "out.png" = .ok out ∧
      out.events = earlier ++ [Event.imwrite "out.png" mask] ∧
      ∀ b ∈ mask.data, b = 0 ∨ b = 255 :=
  have hrun : run demoWorld demoMachine "in.jpg" "out.png" = .ok _ := rfl
  have hlast := (run_status_zero demoWorld demoMachine "in.jpg" "out.png" _ hrun rfl).2
  match hlast with
  | ⟨earlier, _, mask, _, _, hev, _⟩ =>
    match run_restore_keeps_labels demoWorld demoMachine "in.jpg" "out.png" _ hrun
        earlier "out.png" mask hev (by rw [hev]; simp [demoMachine]) with
    | ⟨_, _, _, _, _, hbin⟩ => ⟨_, earlier, mask, hrun, hev, hbin⟩

/-- C8: `preprocess` leaves `host_input_` with exactly 1*3*H*W elements for an
image of height H and width W; and after every `run` that returns having gone
past the shape request (non-empty image, shape accepted), `host_input_` is the
result of `preprocess` on a 256 x 2048 image and has exactly
1*3*256*2048 = 1572864 elements. -/
theorem preprocess_buffer_size :
    (∀ (host_input : List ℚ) (image : Image),
      (preprocess host_input image).length = 1 * 3 * image.rows * image.cols) ∧
    (∀ (world : RunWorld) (m : Machine) (image_path output_mask_path : String) (out : RunOut),
      run world m image_path output_mask_path = .ok out →
      (world.imread image_path).empty = false →
      world.setInputShape m.self.input_tensor_name_ inputShape = true →
      (∃ resized : Image, resized.rows = 256 ∧ resized.cols = 2048 ∧
        out.self.host_input_ = preprocess m.self.host_input_ resized) ∧
      out.self.host_input_.length = 1 * 3 * 256 * 2048 ∧
      out.self.host_input_.length = 1572864) := by
  refine ⟨fun host_input image => by rw [preprocess_length], ?_⟩
  intro world m image_path path out hrun hne hs
  rcases run_inv world m image_path path out hrun with ⟨he, _⟩ | ⟨_, _, hs', _⟩ |
    ⟨_, _, _, resized, hres, hinf⟩
  · rw [he] at hne; exact absurd hne (by decide)
  · rw [hs'] at hs; exact absurd hs (by decide)
  · obtain ⟨hr, hc⟩ := cvResizeLinear_dims _ _ _ _ _ hres
    have hin := runInfer_host_input world _ resized _ _ path out hinf
    have hin' : out.self.host_input_ = preprocess m.self.host_input_ resized := hin
    have hlen : out.self.host_input_.length = 1 * 3 * 256 * 2048 := by
      rw [hin', preprocess_length, hr, hc]; rfl
    exact ⟨⟨resized, hr, hc, hin'⟩, hlen, hlen⟩

set_option maxRecDepth 100000 in
theorem preprocess_buffer_size_witness :
    ∃ out, run demoWorld demoMachine "in.jpg" "out.png" = .ok out ∧
      out.self.host_input_.length = 1572864 :=
  have hrun : run demoWorld demoMachine "in.jpg" "out.png" = .ok _ := rfl
  ⟨_, hrun, (preprocess_buffer_size.2 demoWorld demoMachine "in.jpg" "out.png" _ hrun rfl rfl).2.2⟩

/-! ## `init` -/

theorem init_not_open (world : InitWorld) (s : TRTSegmentation) (engine_path : String)
    (hf : world.fileOpens engine_path = false) :
    init world s engine_path = .ok (-1, s) := by
  unfold init
  simp [hf]

theorem init_of_read (world : InitWorld) (s : TRTSegmentation) (engine_path : String)
    (hf : world.fileOpens engine_path = true)
    (hr : readEngineData world engine_path = .ok ()) :
    init world s engine_path = .ok (initBringUp world s) := by
  unfold init
  simp [hf, hr]

theorem init_of_throw (world : InitWorld) (s : TRTSegmentation) (engine_path : String)
    (e : Fault) (hf : world.fileOpens engine_path = true)
    (hr : readEngineData world engine_path = .error e) :
    init world s engine_path = .error e := by
  unfold init
  simp [hf, hr]

theorem init_ok_cases (world : InitWorld) (s : TRTSegmentation) (engine_path : String)
    (r : Int × TRTSegmentation) (h : init world s engine_path = .ok r) :
    (world.fileOpens engine_path = false ∧ r = (-1, s)) ∨
    (world.fileOpens engine_path = true ∧ readEngineData world engine_path = .ok () ∧
      r = initBringUp world s) := by
  cases hf : world.fileOpens engine_path
  · rw [init_not_open world s engine_path hf] at h
    exact Or.inl ⟨rfl, (Except.ok.inj h).symm⟩
  · cases hr : readEngineData world engine_path with
    | error e =>
      rw [init_of_throw world s engine_path e hf hr] at h
      exact Except.noConfusion h
    | ok u =>
      rw [init_of_read world s engine_path hf hr] at h
      exact Or.inr ⟨rfl, rfl, (Except.ok.inj h).symm⟩

theorem initBringUp_zero_iff (world : InitWorld) (s : TRTSegmentation) :
    ((initBringUp world s).1 = 0 ↔
      world.createInferRuntime.isSome = true ∧
      world.deserializeCudaEngine.isSome = true ∧
      world.createExecutionContext.isSome = true ∧
      (initBringUp world s).2.input_tensor_name_ ≠ "" ∧
      (initBringUp world s).2.output_tensor_name_ ≠ "") ∧
    ((initBringUp world s).1 ≠ 0 → (initBringUp world s).1 = -1) := by
  unfold initBringUp
  cases hr : world.createInferRuntime with
  | none => simp
  | some rt =>
    cases he : world.deserializeCudaEngine with
    | none => simp
    | some engine =>
      cases hc : world.createExecutionContext with
      | none => simp
      | some ctx =>
        simp only [Option.isSome_some, true_and]
        split
        · rename_i hempty
          simp only [Bool.or_eq_true, String.isEmpty_iff] at hempty
          refine ⟨⟨fun h => by simp at h, fun h => ?_⟩, fun _ => rfl⟩
          rcases hempty with h1 | h1
          · exact absurd h1 h.1
          · exact absurd h1 h.2
        · rename_i hempty
          simp only [Bool.or_eq_true, String.isEmpty_iff, not_or] at hempty
          exact ⟨⟨fun _ => hempty, fun _ => rfl⟩, fun h => absurd rfl h⟩

/-- C10 (what the code does): whenever `init` returns, it returns 0 exactly
when the engine file opened, the runtime was created, the engine deserialised,
the execution context was created and, after the tensor loop, both
`input_tensor_name_` and `output_tensor_name_` hold a non-empty name, and it
returns -1 in every other case; with a path that cannot be opened it returns
-1. But it does not always return: when the file opens and the
`std::vector<char>` for its contents cannot be constructed (`tellg()` failed, so
that `fsize` is -1, or the storage is not obtained, as for a directory), `init`
throws `std::length_error` or `std::bad_alloc` and gives no status. -/
theorem init_returns_status_or_throws (world : InitWorld) (s : TRTSegmentation)
    (engine_path : String) :
    (∀ r, init world s engine_path = .ok r →
      (r.1 = 0 ↔
        world.fileOpens engine_path = true ∧
        world.createInferRuntime.isSome = true ∧
        world.deserializeCudaEngine.isSome = true ∧
        world.createExecutionContext.isSome = true ∧
        r.2.input_tensor_name_ ≠ "" ∧ r.2.output_tensor_name_ ≠ "") ∧
      (r.1 ≠ 0 → r.1 = -1)) ∧
    (world.fileOpens engine_path = false → init world s engine_path = .ok (-1, s)) ∧
    ((∃ r, init world s engine_path = .ok r) ↔
      (world.fileOpens engine_path = false ∨
        (sizeT (world.tellg engine_path) ≤ vectorMaxSize ∧
          world.vectorAlloc (sizeT (world.tellg engine_path)) = true))) ∧
    (world.fileOpens engine_path = true →
      vectorMaxSize < sizeT (world.tellg engine_path) →
      init world s engine_path = .error .lengthError) ∧
    (world.fileOpens engine_path = true → world.tellg engine_path = -1 →
      init world s engine_path = .error .lengthError) ∧
    (world.fileOpens engine_path = true →
      sizeT (world.tellg engine_path) ≤ vectorMaxSize →
      world.vectorAlloc (sizeT (world.tellg engine_path)) = false →
      init world s engine_path = .error .badAlloc) := by
  have hlen : world.fileOpens engine_path = true →
      vectorMaxSize < sizeT (world.tellg engine_path) →
      init world s engine_path = .error .lengthError := by
    intro hf hlt
    apply init_of_throw world s engine_path _ hf
    unfold readEngineData
    simp [hlt]
  have hbad : world.fileOpens engine_path = true →
      sizeT (world.tellg engine_path) ≤ vectorMaxSize →
      world.vectorAlloc (sizeT (world.tellg engine_path)) = false →
      init world s engine_path = .error .badAlloc := by
    intro hf hle ha
    apply init_of_throw world s engine_path _ hf
    unfold readEngineData
    simp [Nat.not_lt.mpr hle, ha]
  refine ⟨?_, init_not_open world s engine_path, ?_, hlen, ?_, hbad⟩
  · intro r h
    rcases init_ok_cases world s engine_path r h with ⟨hf, hr⟩ | ⟨hf, _, hr⟩
    · subst hr
      refine ⟨⟨fun h0 => by simp at h0, fun h0 => ?_⟩, fun _ => rfl⟩
      rw [hf] at h0
      exact absurd h0.1 (by decide)
    · subst hr
      obtain ⟨h1, h2⟩ := initBringUp_zero_iff world s
      exact ⟨⟨fun h0 => ⟨hf, h1.mp h0⟩, fun h0 => h1.mpr h0.2⟩, h2⟩
  · constructor
    · rintro ⟨r, h⟩
      rcases init_ok_cases world s engine_path r h with ⟨hf, _⟩ | ⟨hf, hread, _⟩
      · exact Or.inl hf
      · right
        by_cases hlt : vectorMaxSize < sizeT (world.tellg engine_path)
        · rw [hlen hf hlt] at h
          exact Except.noConfusion h
        · cases ha : world.vectorAlloc (sizeT (world.tellg engine_path))
          · rw [hbad hf (Nat.not_lt.mp hlt) ha] at h
            exact Except.noConfusion h
          · exact ⟨Nat.not_lt.mp hlt, rfl⟩
    · rintro (hf | ⟨hle, ha⟩)
      · exact ⟨_, init_not_open world s engine_path hf⟩
      · cases hf : world.fileOpens engine_path
        · exact ⟨_, init_not_open world s engine_path hf⟩
        · refine ⟨_, init_of_read world s engine_path hf ?_⟩
          unfold readEngineData
          simp [Nat.not_lt.mpr hle, ha]
  · intro hf ht
    apply hlen hf
    rw [ht]
    decide

theorem init_returns_status_or_throws_witness :
    init directoryInitWorld TRTSegmentation.fresh "/tmp" = .error .badAlloc ∧
    init missingFileWorld TRTSegmentation.fresh "missing.engine" =
      .ok (-1, TRTSegmentation.fresh) ∧
    ∃ r, init demoInitWorld TRTSegmentation.fresh "model.engine" = .ok r ∧ r.1 = 0 :=
  ⟨(init_returns_status_or_throws directoryInitWorld TRTSegmentation.fresh "/tmp").2.2.2.2.2
      rfl (by decide) rfl,
    (init_returns_status_or_throws missingFileWorld TRTSegmentation.fresh
      "missing.engine").2.1 rfl,
    _, rfl, rfl⟩

/-! ## Freeing and allocating device buffers -/

theorem foldl_freeStep_events (l : List Nat) (m : Machine) :
    (l.foldl freeStep m).events = m.events ++ l.map Event.cudaFree := by
  induction l generalizing m with
  | nil => simp
  | cons a l ih =>
    simp only [List.foldl_cons, List.map_cons]
    rw [ih]
    simp [freeStep]

theorem foldl_freeStep_last (l : List Nat) (m : Machine) :
    (l.foldl freeStep m).dev.last = m.dev.last := by
  induction l generalizing m with
  | nil => rfl
  | cons a l ih => simp only [List.foldl_cons]; rw [ih]; rfl

theorem foldl_freeStep_live (l : List Nat) (m : Machine) (a : Nat × Nat) :
    a ∈ (l.foldl freeStep m).dev.live ↔ a ∈ m.dev.live ∧ a.1 ∉ l := by
  induction l generalizing m with
  | nil => simp
  | cons b l ih =>
    simp only [List.foldl_cons]
    rw [ih]
    simp only [freeStep, Device.cudaFree, List.mem_filter, bne_iff_ne, ne_eq, List.mem_cons,
      not_or]
    tauto

theorem freeBuffers_events (m : Machine) :
    (freeBuffers m).events = m.events ++ m.self.buffers_.map Event.cudaFree :=
  foldl_freeStep_events _ m

theorem freeBuffers_live (m : Machine) (a : Nat × Nat) :
    a ∈ (freeBuffers m).dev.live ↔ a ∈ m.dev.live ∧ a.1 ∉ m.self.buffers_ :=
  foldl_freeStep_live _ m a

theorem freeBuffers_live_of_owned (m : Machine) (h : Owned m) :
    (freeBuffers m).dev.live = [] := by
  apply List.eq_nil_iff_forall_not_mem.mpr
  intro a ha
  rw [freeBuffers_live] at ha
  exact ha.2 (h a ha.1)

theorem allocStep_ok (world : RunWorld) (engine : Engine) (i : Nat) (m : Machine)
    (h : world.mallocOk i (tensorBytes world engine i) = true) :
    allocStep world engine i m =
      { self := { m.self with buffers_ := m.self.buffers_.set i (m.dev.last + 1) },
        dev := { live := m.dev.live ++ [(m.dev.last + 1, tensorBytes world engine i)],
                 last := m.dev.last + 1 },
        events := m.events ++
          [Event.cudaMalloc i (tensorBytes world engine i) (m.dev.last + 1)] } := by
  unfold tensorBytes at h
  simp only [allocStep, Device.cudaMalloc, h, if_true, tensorBytes]

theorem allocStep_fail (world : RunWorld) (engine : Engine) (i : Nat) (m : Machine)
    (h : world.mallocOk i (tensorBytes world engine i) = false) :
    allocStep world engine i m =
      { self := { m.self with buffers_ := m.self.buffers_.set i (m.self.buffers_.getD i 0) },
        dev := m.dev,
        events := m.events ++
          [Event.cudaMalloc i (tensorBytes world engine i) (m.self.buffers_.getD i 0)] } := by
  unfold tensorBytes at h
  simp only [allocStep, Device.cudaMalloc, h, tensorBytes]
  rfl

theorem allocInv_step (world : RunWorld) (engine : Engine) (m0 : Machine) (i : Nat)
    (m : Machine) (hi : i < engine.getNbIOTensors) (hI : AllocInv world engine m0 i m) :
    AllocInv world engine m0 (i + 1) (allocStep world engine i m) := by
  obtain ⟨hlen, hnull, hfail, hok, hown, l, hev, hl⟩ := hI
  have hil : i < m.self.buffers_.length := by rw [hlen]; exact hi
  have hi0 : m.self.buffers_[i]? = some 0 := hnull i (Nat.le_refl i) hi
  have hget : m.self.buffers_.getD i 0 = 0 := by
    rw [List.getD_eq_getElem?_getD, hi0]; rfl
  cases hm : world.mallocOk i (tensorBytes world engine i)
  · rw [allocStep_fail world engine i m hm, hget]
    refine ⟨by simp [hlen], ?_, ?_, ?_, ?_, ?_⟩
    · intro j hj hjn
      show (m.self.buffers_.set i 0)[j]? = some 0
      rw [List.getElem?_set_ne (by omega)]
      exact hnull j (by omega) hjn
    · intro j hj hmj
      show (m.self.buffers_.set i 0)[j]? = some 0
      by_cases hji : j = i
      · subst hji; rw [List.getElem?_set_self hil]
      · rw [List.getElem?_set_ne (fun e => hji e.symm)]
        exact hfail j (by omega) hmj
    · intro j hj hmj
      have hji : j ≠ i := by
        intro e; subst e; rw [hm] at hmj; exact Bool.noConfusion hmj
      obtain ⟨p, hp, hpj, hpl⟩ := hok j (by omega) hmj
      refine ⟨p, hp, ?_, hpl⟩
      show (m.self.buffers_.set i 0)[j]? = some p
      rw [List.getElem?_set_ne (fun e => hji e.symm)]
      exact hpj
    · intro a ha
      rcases hown a ha with h0 | ⟨j, hj, hja⟩
      · exact Or.inl h0
      · refine Or.inr ⟨j, by omega, ?_⟩
        show (m.self.buffers_.set i 0)[j]? = some a.1
        rw [List.getElem?_set_ne (by omega)]
        exact hja
    · refine ⟨l ++ [Event.cudaMalloc i (tensorBytes world engine i) 0], ?_, ?_⟩
      · show m.events ++ _ = _
        rw [hev, List.append_assoc]
      · intro e he
        rcases List.mem_append.mp he with h1 | h1
        · exact hl e h1
        · rw [List.mem_singleton.mp h1]; rfl
  · rw [allocStep_ok world engine i m hm]
    refine ⟨by simp [hlen], ?_, ?_, ?_, ?_, ?_⟩
    · intro j hj hjn
      show (m.self.buffers_.set i (m.dev.last + 1))[j]? = some 0
      rw [List.getElem?_set_ne (by omega)]
      exact hnull j (by omega) hjn
    · intro j hj hmj
      have hji : j ≠ i := by
        intro e; subst e; rw [hm] at hmj; exact Bool.noConfusion hmj
      show (m.self.buffers_.set i (m.dev.last + 1))[j]? = some 0
      rw [List.getElem?_set_ne (fun e => hji e.symm)]
      exact hfail j (by omega) hmj
    · intro j hj hmj
      by_cases hji : j = i
      · subst hji
        refine ⟨m.dev.last + 1, by omega, ?_, ?_⟩
        · show (m.self.buffers_.set j (m.dev.last + 1))[j]? = some (m.dev.last + 1)
          rw [List.getElem?_set_self hil]
        · show (m.dev.last + 1, tensorBytes world engine j) ∈
            m.dev.live ++ [(m.dev.last + 1, tensorBytes world engine j)]
          simp
      · obtain ⟨p, hp, hpj, hpl⟩ := hok j (by omega) hmj
        refine ⟨p, hp, ?_, ?_⟩
        · show (m.self.buffers_.set i (m.dev.last + 1))[j]? = some p
          rw [List.getElem?_set_ne (fun e => hji e.symm)]
          exact hpj
        · show (p, tensorBytes world engine j) ∈
            m.dev.live ++ [(m.dev.last + 1, tensorBytes world engine i)]
          exact List.mem_append_left _ hpl
    · intro a ha
      have ha' : a ∈ m.dev.live ++ [(m.dev.last + 1, tensorBytes world engine i)] := ha
      rcases List.mem_append.mp ha' with h1 | h1
      · rcases hown a h1 with h0 | ⟨j, hj, hja⟩
        · exact Or.inl h0
        · refine Or.inr ⟨j, by omega, ?_⟩
          show (m.self.buffers_.set i (m.dev.last + 1))[j]? = some a.1
          rw [List.getElem?_set_ne (by omega)]
          exact hja
      · refine Or.inr ⟨i, by omega, ?_⟩
        rw [List.mem_singleton.mp h1]
        show (m.self.buffers_.set i (m.dev.last + 1))[i]? = some (m.dev.last + 1)
        rw [List.getElem?_set_self hil]
    · refine ⟨l ++ [Event.cudaMalloc i (tensorBytes world engine i) (m.dev.last + 1)], ?_, ?_⟩
      · show m.events ++ _ = _
        rw [hev, List.append_assoc]
      · intro e he
        rcases List.mem_append.mp he with h1 | h1
        · exact hl e h1
        · rw [List.mem_singleton.mp h1]; rfl

theorem allocBuffers_inv (world : RunWorld) (engine : Engine) (m : Machine) :
    AllocInv world engine m engine.getNbIOTensors (allocBuffers world engine m) := by
  unfold allocBuffers
  have key := forLoop_inv (allocStep world engine)
    (fun i m' => AllocInv world engine m i m') engine.getNbIOTensors 0
    ({ m with self := { m.self with buffers_ := List.replicate engine.getNbIOTensors 0 } } :
      Machine)
    ⟨by simp, fun j _ hj => by
        show (List.replicate engine.getNbIOTensors 0)[j]? = some 0
        rw [List.getElem?_replicate]; simp [hj],
      fun j hj _ => absurd hj (Nat.not_lt_zero j),
      fun j hj _ => absurd hj (Nat.not_lt_zero j),
      fun a ha => Or.inl ha, [], by simp, fun e he => absurd he (List.not_mem_nil e)⟩
    (fun j t _ hj hP => allocInv_step world engine m j t (by omega) hP)
  simpa using key

theorem allocBuffers_live_length (world : RunWorld) (engine : Engine) (m : Machine)
    (hall : ∀ i, i < engine.getNbIOTensors →
      world.mallocOk i (tensorBytes world engine i) = true) :
    (allocBuffers world engine m).dev.live.length =
      m.dev.live.length + engine.getNbIOTensors := by
  unfold allocBuffers
  have key := forLoop_inv (allocStep world engine)
    (fun i m' => m'.dev.live.length = m.dev.live.length + i) engine.getNbIOTensors 0
    ({ m with self := { m.self with buffers_ := List.replicate engine.getNbIOTensors 0 } } :
      Machine)
    rfl
    (fun j t _ hj hP => by
      rw [allocStep_ok world engine j t (hall j (by omega))]
      show (t.dev.live ++ [(t.dev.last + 1, tensorBytes world engine j)]).length = _
      rw [List.length_append, hP]
      rfl)
  simpa using key

theorem reconciled_frame (world : RunWorld) (engine : Engine) (m : Machine) :
    (reconciled world engine m).self.host_input_ = m.self.host_input_ ∧
    (reconciled world engine m).self.host_output_ = m.self.host_output_ ∧
    (reconciled world engine m).self.output_tensor_name_ = m.self.output_tensor_name_ ∧
    (reconciled world engine m).self.input_tensor_name_ = m.self.input_tensor_name_ ∧
    (reconciled world engine m).self.input_binding_index_ = m.self.input_binding_index_ ∧
    (reconciled world engine m).self.output_binding_index_ = m.self.output_binding_index_ ∧
    (reconciled world engine m).self.runtime_ = m.self.runtime_ ∧
    (reconciled world engine m).self.engine_ = m.self.engine_ ∧
    (reconciled world engine m).self.context_ = m.self.context_ := by
  unfold reconciled
  have h := allocBuffers_frame world engine
    (freeBuffers (m.emit (Event.setInputShape m.self.input_tensor_name_ inputShape)))
  rw [freeBuffers_self] at h
  exact h

/-- What a returning call of `run` did once the image decoded and the shape was
accepted. -/
theorem run_reconciled (world : RunWorld) (m : Machine) (image_path path : String)
    (out : RunOut) (hrun : run world m image_path path = .ok out)
    (hne : (world.imread image_path).empty = false)
    (hs : world.setInputShape m.self.input_tensor_name_ inputShape = true) :
    ∃ engine resized dst,
      m.self.engine_ = some engine ∧
      cvResizeLinear world.resizePixels (world.imread image_path) target_width target_height
        = .ok resized ∧
      bufferAt (reconciled world engine m).self.buffers_ m.self.input_binding_index_ = .ok dst ∧
      out.self.buffers_ = (reconciled world engine m).self.buffers_ ∧
      out.dev = (reconciled world engine m).dev ∧
      out.self.host_input_ = preprocess m.self.host_input_ resized ∧
      ((world.executeV2 (reconciled world engine m).self.buffers_ = false ∧
          out.status = -1 ∧
          out.self.host_output_ = m.self.host_output_ ∧
          out.events = (reconciled world engine m).events ++
            [Event.memcpyHostToDevice dst ((out.self.host_input_.length * sizeofFloat) % 2 ^ 64),
              Event.executeV2 (reconciled world engine m).self.buffers_]) ∨
        (world.executeV2 (reconciled world engine m).self.buffers_ = true ∧
          ∃ src final_mask,
            out.status = (if world.imwrite path final_mask then 0 else -1) ∧
            out.events = (reconciled world engine m).events ++
              [Event.memcpyHostToDevice dst
                  ((out.self.host_input_.length * sizeofFloat) % 2 ^ 64),
                Event.executeV2 (reconciled world engine m).self.buffers_,
                Event.memcpyDeviceToHost src
                  ((volume (world.getTensorShape m.self.output_tensor_name_) * sizeofFloat)
                    % 2 ^ 64),
                Event.imwrite path final_mask])) := by
  rcases run_inv world m image_path path out hrun with ⟨he, _⟩ | ⟨_, _, hs', _⟩ |
    ⟨_, _, _, resized, hres, hinf⟩
  · rw [he] at hne; exact absurd hne (by decide)
  · rw [hs'] at hs; exact absurd hs (by decide)
  · have hin := runInfer_host_input world _ resized _ _ path out hinf
    have hin' : out.self.host_input_ = preprocess m.self.host_input_ resized := hin
    obtain ⟨engine, dst, heng, hdst, hx⟩ := runInfer_inv world _ resized _ _ path out hinf
    have heng' : m.self.engine_ = some engine := heng
    have hfr := reconciled_frame world engine m
    have hdst' : bufferAt (reconciled world engine m).self.buffers_
        m.self.input_binding_index_ = .ok dst := by
      rw [← hfr.2.2.2.2.1]; exact hdst
    have hstin : (stage world engine (freeBuffers
        (m.emit (Event.setInputShape m.self.input_tensor_name_ inputShape)))
          resized).self.host_input_ = out.self.host_input_ := by
      rw [hin', stage_host_input, freeBuffers_self]; rfl
    refine ⟨engine, resized, dst, heng', hres, hdst', ?_⟩
    rcases runExecute_inv world _ _ _ path out hx with ⟨hxf, hst, hself, hdev, hev⟩ | ⟨hxt, hfin⟩
    · refine ⟨by rw [hself]; rfl, by rw [hdev]; rfl, hin', Or.inl ⟨hxf, hst, ?_, ?_⟩⟩
      · rw [hself]; exact hfr.2.1
      · rw [hev, ← hstin]
        show ((reconciled world engine m).events ++ [_]) ++ [_] = _
        rw [List.append_assoc]; rfl
    · obtain ⟨src, output_mask, final_mask, _, _, _, hself, hdev, hev, hst⟩ :=
        runFinish_inv world _ _ _ path out hfin
      refine ⟨by rw [hself]; rfl, by rw [hdev]; rfl, hin',
        Or.inr ⟨hxt, src, final_mask, hst, ?_⟩⟩
      have hname : (stage world engine (freeBuffers
          (m.emit (Event.setInputShape m.self.input_tensor_name_ inputShape)))
            resized).self.output_tensor_name_ = m.self.output_tensor_name_ := by
        rw [stage_output_tensor_name, freeBuffers_self]; rfl
      simp only [Machine.emit] at hev hname
      rw [hev, hname, ← hstin]
      show (((reconciled world engine m).events ++ [_]) ++ [_]) ++ [_, _] = _
      rw [List.append_assoc, List.append_assoc]; rfl

/-! ## The reconciled device buffers -/

theorem reconciled_inv (world : RunWorld) (engine : Engine) (m : Machine) :
    AllocInv world engine
      (freeBuffers (m.emit (Event.setInputShape m.self.input_tensor_name_ inputShape)))
      engine.getNbIOTensors (reconciled world engine m) :=
  allocBuffers_inv world engine _

theorem reconciled_events (world : RunWorld) (engine : Engine) (m : Machine) :
    ∃ l, (reconciled world engine m).events =
        m.events ++ Event.setInputShape m.self.input_tensor_name_ inputShape ::
          (m.self.buffers_.map Event.cudaFree ++ l) ∧
      ∀ e ∈ l, Event.isMalloc e = true := by
  obtain ⟨_, _, _, _, _, l, hev, hl⟩ := reconciled_inv world engine m
  refine ⟨l, ?_, hl⟩
  rw [hev, freeBuffers_events]
  simp [Machine.emit]

theorem reconciled_owned (world : RunWorld) (engine : Engine) (m : Machine) (h : Owned m) :
    ∀ a ∈ (reconciled world engine m).dev.live,
      a.1 ∈ (reconciled world engine m).self.buffers_ := by
  obtain ⟨_, _, _, _, hown, _⟩ := reconciled_inv world engine m
  intro a ha
  rcases hown a ha with h0 | ⟨j, _, hj⟩
  · have hnil := freeBuffers_live_of_owned
      (m.emit (Event.setInputShape m.self.input_tensor_name_ inputShape)) h
    rw [hnil] at h0
    exact absurd h0 (List.not_mem_nil a)
  · exact List.getElem?_mem hj

theorem reconciled_live_length (world : RunWorld) (engine : Engine) (m : Machine)
    (h : Owned m)
    (hall : ∀ i, i < engine.getNbIOTensors →
      world.mallocOk i (tensorBytes world engine i) = true) :
    (reconciled world engine m).dev.live.length = engine.getNbIOTensors := by
  unfold reconciled
  rw [allocBuffers_live_length world engine _ hall,
    freeBuffers_live_of_owned
      (m.emit (Event.setInputShape m.self.input_tensor_name_ inputShape)) h]
  simp

/-! ## What every returning call of `run` preserves -/

theorem run_session_frame (world : RunWorld) (m : Machine) (image_path path : String)
    (out : RunOut) (hrun : run world m image_path path = .ok out) :
    out.self.runtime_ = m.self.runtime_ ∧ out.self.engine_ = m.self.engine_ ∧
    out.self.context_ = m.self.context_ ∧
    out.self.input_tensor_name_ = m.self.input_tensor_name_ ∧
    out.self.output_tensor_name_ = m.self.output_tensor_name_ ∧
    out.self.input_binding_index_ = m.self.input_binding_index_ ∧
    out.self.output_binding_index_ = m.self.output_binding_index_ := by
  rcases run_inv world m image_path path out hrun with ⟨_, _, hself, _⟩ |
    ⟨_, _, _, _, hself, _⟩ | ⟨_, _, _, resized, _, hinf⟩
  · rw [hself]; exact ⟨rfl, rfl, rfl, rfl, rfl, rfl, rfl⟩
  · rw [hself]; exact ⟨rfl, rfl, rfl, rfl, rfl, rfl, rfl⟩
  · obtain ⟨engine, dst, _, _, hx⟩ := runInfer_inv world _ resized _ _ path out hinf
    have hfr := reconciled_frame world engine m
    have hst : (stage world engine (freeBuffers
          (m.emit (Event.setInputShape m.self.input_tensor_name_ inputShape)))
            resized).self.runtime_ = m.self.runtime_ ∧
        (stage world engine (freeBuffers
          (m.emit (Event.setInputShape m.self.input_tensor_name_ inputShape)))
            resized).self.engine_ = m.self.engine_ ∧
        (stage world engine (freeBuffers
          (m.emit (Event.setInputShape m.self.input_tensor_name_ inputShape)))
            resized).self.context_ = m.self.context_ ∧
        (stage world engine (freeBuffers
          (m.emit (Event.setInputShape m.self.input_tensor_name_ inputShape)))
            resized).self.input_tensor_name_ = m.self.input_tensor_name_ ∧
        (stage world engine (freeBuffers
          (m.emit (Event.setInputShape m.self.input_tensor_name_ inputShape)))
            resized).self.output_tensor_name_ = m.self.output_tensor_name_ ∧
        (stage world engine (freeBuffers
          (m.emit (Event.setInputShape m.self.input_tensor_name_ inputShape)))
            resized).self.input_binding_index_ = m.self.input_binding_index_ ∧
        (stage world engine (freeBuffers
          (m.emit (Event.setInputShape m.self.input_tensor_name_ inputShape)))
            resized).self.output_binding_index_ = m.self.output_binding_index_ :=
      ⟨hfr.2.2.2.2.2.2.1, hfr.2.2.2.2.2.2.2.1, hfr.2.2.2.2.2.2.2.2, hfr.2.2.2.1,
        hfr.2.2.1, hfr.2.2.2.2.1, hfr.2.2.2.2.2.1⟩
    rcases runExecute_inv world _ _ _ path out hx with ⟨_, _, hself, _, _⟩ | ⟨_, hfin⟩
    · rw [hself]; exact hst
    · obtain ⟨_, _, _, _, _, _, hself, _⟩ := runFinish_inv world _ _ _ path out hfin
      rw [hself]
      exact hst

theorem run_owned (world : RunWorld) (m : Machine) (image_path path : String)
    (out : RunOut) (hrun : run world m image_path path = .ok out) (h : Owned m) :
    Owned out.machine := by
  rcases run_inv world m image_path path out hrun with ⟨_, _, hself, hdev, _⟩ |
    ⟨_, _, _, _, hself, hdev, _⟩ | ⟨hne, _, hs, _⟩
  · intro a ha
    show a.1 ∈ out.self.buffers_
    rw [hself]
    exact h a (by rw [← hdev]; exact ha)
  · intro a ha
    show a.1 ∈ out.self.buffers_
    rw [hself]
    exact h a (by rw [← hdev]; exact ha)
  · obtain ⟨engine, _, _, _, _, _, hbuf, hdev, _⟩ :=
      run_reconciled world m image_path path out hrun hne hs
    intro a ha
    show a.1 ∈ out.self.buffers_
    rw [hbuf]
    exact reconciled_owned world engine m h a (by rw [← hdev]; exact ha)

/-! ## The tensor loop of `init` -/

theorem initTensorStep_input (engine : Engine) (i : Nat) (s : TRTSegmentation)
    (h : engine.isInputAt i) :
    initTensorStep engine i s =
      { s with input_tensor_name_ := engine.getIOTensorName i,
               input_binding_index_ := (i : Int) } := by
  unfold Engine.isInputAt at h
  simp only [initTensorStep, h, if_true]

theorem initTensorStep_output (engine : Engine) (i : Nat) (s : TRTSegmentation)
    (h : ¬ engine.isInputAt i) :
    initTensorStep engine i s =
      { s with output_tensor_name_ := engine.getIOTensorName i,
               output_binding_index_ := (i : Int) } := by
  unfold Engine.isInputAt at h
  simp only [initTensorStep, h, if_false]

theorem initInv_step (engine : Engine) (s0 : TRTSegmentation) (k : Nat) (s : TRTSegmentation)
    (hI : InitInv engine s0 k s) : InitInv engine s0 (k + 1) (initTensorStep engine k s) := by
  obtain ⟨hin0, hinL, hout0, houtL, h5, h6, h7, h8, h9, h10⟩ := hI
  by_cases hk : engine.isInputAt k
  · rw [initTensorStep_input engine k s hk]
    refine ⟨?_, ?_, ?_, ?_, h5, h6, h7, h8, h9, h10⟩
    · intro hno; exact absurd hk (hno k (Nat.lt_succ_self k))
    · intro i hi hii hlast
      by_cases hik : i = k
      · subst hik; exact ⟨rfl, rfl⟩
      · exact absurd hk (hlast k (by omega) (Nat.lt_succ_self k))
    · intro hall
      exact hout0 (fun i hi => hall i (by omega))
    · intro i hi hii hlast
      have hik : i ≠ k := fun e => hii (e ▸ hk)
      exact houtL i (by omega) hii (fun j hj hjk => hlast j hj (by omega))
  · rw [initTensorStep_output engine k s hk]
    refine ⟨?_, ?_, ?_, ?_, h5, h6, h7, h8, h9, h10⟩
    · intro hno
      exact hin0 (fun i hi => hno i (by omega))
    · intro i hi hii hlast
      have hik : i ≠ k := fun e => hk (e ▸ hii)
      exact hinL i (by omega) hii (fun j hj hjk => hlast j hj (by omega))
    · intro hall; exact absurd (hall k (Nat.lt_succ_self k)) hk
    · intro i hi hii hlast
      by_cases hik : i = k
      · subst hik; exact ⟨rfl, rfl⟩
      · exact absurd (hlast k (by omega) (Nat.lt_succ_self k)) hk

theorem initLoop_inv (engine : Engine) (s0 : TRTSegmentation) :
    InitInv engine s0 engine.getNbIOTensors
      (forLoop (initTensorStep engine) engine.getNbIOTensors 0 s0) := by
  have key := forLoop_inv (initTensorStep engine) (fun k s => InitInv engine s0 k s)
    engine.getNbIOTensors 0 s0
    ⟨fun _ => ⟨rfl, rfl⟩, fun i hi => absurd hi (Nat.not_lt_zero i), fun _ => ⟨rfl, rfl⟩,
      fun i hi => absurd hi (Nat.not_lt_zero i), rfl, rfl, rfl, rfl, rfl, rfl⟩
    (fun j t _ _ hP => initInv_step engine s0 j t hP)
  simpa using key

/-- When the three bring-up steps of `init` succeed, its result is decided by
the tensor loop. -/
theorem init_of_bringup (world : InitWorld) (s : TRTSegmentation)
    (rt : Runtime) (engine : Engine) (ctx : Context)
    (hr : world.createInferRuntime = some rt)
    (he : world.deserializeCudaEngine = some engine)
    (hc : world.createExecutionContext = some ctx) :
    initBringUp world s =
      (if (forLoop (initTensorStep engine) engine.getNbIOTensors 0
            { s with runtime_ := some rt, engine_ := some engine,
                     context_ := some ctx }).input_tensor_name_.isEmpty ||
          (forLoop (initTensorStep engine) engine.getNbIOTensors 0
            { s with runtime_ := some rt, engine_ := some engine,
                     context_ := some ctx }).output_tensor_name_.isEmpty
        then -1 else 0,
       forLoop (initTensorStep engine) engine.getNbIOTensors 0
          { s with runtime_ := some rt, engine_ := some engine, context_ := some ctx }) := by
  unfold initBringUp
  simp only [hr, he, hc]
  split <;> rfl

theorem exists_last (P : Nat → Prop) (n : Nat) (h : ∃ i, i < n ∧ P i) :
    ∃ i, i < n ∧ P i ∧ ∀ j, i < j → j < n → ¬ P j := by
  induction n with
  | zero => obtain ⟨i, hi, _⟩ := h; exact absurd hi (Nat.not_lt_zero i)
  | succ n ih =>
    by_cases hn : P n
    · exact ⟨n, Nat.lt_succ_self n, hn, fun j hj hjn => absurd hjn (by omega)⟩
    · obtain ⟨i, hi, hPi⟩ := h
      have hin : i < n := by
        rcases Nat.lt_succ_iff_lt_or_eq.mp hi with h1 | h1
        · exact h1
        · subst h1; exact absurd hPi hn
      obtain ⟨i', hi', hP', hlast⟩ := ih ⟨i, hin, hPi⟩
      refine ⟨i', by omega, hP', fun j hj hjn => ?_⟩
      rcases Nat.lt_succ_iff_lt_or_eq.mp hjn with h1 | h1
      · exact hlast j hj h1
      · subst h1; exact hn

theorem init_zero_bringup (world : InitWorld) (s : TRTSegmentation)
    (h : (initBringUp world s).1 = 0) :
    ∃ rt engine ctx, world.createInferRuntime = some rt ∧
      world.deserializeCudaEngine = some engine ∧ world.createExecutionContext = some ctx := by
  unfold initBringUp at h
  cases hr : world.createInferRuntime with
  | none => simp [hr] at h
  | some rt =>
    cases he : world.deserializeCudaEngine with
    | none => simp [hr, he] at h
    | some engine =>
      cases hc : world.createExecutionContext with
      | none => simp [hr, he, hc] at h
      | some ctx => exact ⟨rt, engine, ctx, rfl, rfl, rfl⟩

theorem init_returns_of_read (world : InitWorld) (s : TRTSegmentation) (engine_path : String)
    (hread : world.fileOpens engine_path = true → readEngineData world engine_path = .ok ()) :
    ∃ r, init world s engine_path = .ok r := by
  cases hf : world.fileOpens engine_path
  · exact ⟨_, init_not_open world s engine_path hf⟩
  · exact ⟨_, init_of_read world s engine_path hf (hread hf)⟩

theorem initBringUp_rejects_missing_role (world : InitWorld) (s : TRTSegmentation)
    (engine : Engine)
    (hin : s.input_tensor_name_ = "") (hout : s.output_tensor_name_ = "")
    (heng : world.deserializeCudaEngine = some engine) :
    ((∀ i, i < engine.getNbIOTensors → ¬ engine.isInputAt i) →
      (initBringUp world s).1 ≠ 0) ∧
    ((∀ i, i < engine.getNbIOTensors → engine.isInputAt i) →
      (initBringUp world s).1 ≠ 0) ∧
    (world.createInferRuntime.isSome = true →
      world.createExecutionContext.isSome = true →
      (∀ i, i < engine.getNbIOTensors → engine.getIOTensorName i ≠ "") →
      (∃ i, i < engine.getNbIOTensors ∧ engine.isInputAt i) →
      (∃ i, i < engine.getNbIOTensors ∧ ¬ engine.isInputAt i) →
      (initBringUp world s).1 = 0) := by
  refine ⟨?_, ?_, ?_⟩
  · intro hno h0
    obtain ⟨rt, engine', ctx, hr, he, hc⟩ := init_zero_bringup world s h0
    rw [heng] at he
    injection he with he
    subst he
    rw [init_of_bringup world s rt engine ctx hr heng hc] at h0
    obtain ⟨hI, _⟩ := initLoop_inv engine
      { s with runtime_ := some rt, engine_ := some engine, context_ := some ctx }
    have hname : (forLoop (initTensorStep engine) engine.getNbIOTensors 0
        { s with runtime_ := some rt, engine_ := some engine,
                 context_ := some ctx }).input_tensor_name_ = "" := (hI hno).1.trans hin
    simp only [hname] at h0
    simp at h0
    exact absurd h0.1 (by decide)
  · intro hall h0
    obtain ⟨rt, engine', ctx, hr, he, hc⟩ := init_zero_bringup world s h0
    rw [heng] at he
    injection he with he
    subst he
    rw [init_of_bringup world s rt engine ctx hr heng hc] at h0
    obtain ⟨_, _, hO, _⟩ := initLoop_inv engine
      { s with runtime_ := some rt, engine_ := some engine, context_ := some ctx }
    have hname : (forLoop (initTensorStep engine) engine.getNbIOTensors 0
        { s with runtime_ := some rt, engine_ := some engine,
                 context_ := some ctx }).output_tensor_name_ = "" := (hO hall).1.trans hout
    simp only [hname] at h0
    simp at h0
    exact absurd h0.2 (by decide)
  · intro hr hc hnames hexi hexo
    obtain ⟨rt, hr⟩ := Option.isSome_iff_exists.mp hr
    obtain ⟨ctx, hc⟩ := Option.isSome_iff_exists.mp hc
    rw [init_of_bringup world s rt engine ctx hr heng hc]
    obtain ⟨_, hIL, _, hOL, _⟩ := initLoop_inv engine
      { s with runtime_ := some rt, engine_ := some engine, context_ := some ctx }
    obtain ⟨i, hi, hPi, hlast⟩ := exists_last (fun i => engine.isInputAt i) _ hexi
    obtain ⟨j, hj, hPj, hlastj⟩ := exists_last (fun i => ¬ engine.isInputAt i) _ hexo
    have h1 := (hIL i hi hPi hlast).1
    have h2 := (hOL j hj hPj (fun k hk hkn => by
      have := hlastj k hk hkn
      exact Classical.not_not.mp this)).1
    have e1 : (forLoop (initTensorStep engine) engine.getNbIOTensors 0
        { s with runtime_ := some rt, engine_ := some engine,
                 context_ := some ctx }).input_tensor_name_.isEmpty = false := by
      rw [h1]
      cases hb : (engine.getIOTensorName i).isEmpty
      · rfl
      · exact absurd ((String.isEmpty_iff _).mp hb) (hnames i hi)
    have e2 : (forLoop (initTensorStep engine) engine.getNbIOTensors 0
        { s with runtime_ := some rt, engine_ := some engine,
                 context_ := some ctx }).output_tensor_name_.isEmpty = false := by
      rw [h2]
      cases hb : (engine.getIOTensorName j).isEmpty
      · rfl
      · exact absurd ((String.isEmpty_iff _).mp hb) (hnames j hj)
    simp [e1, e2]

/-- C12 (as amended): on an object whose two name fields are empty, as on a new
one, `init` returns nonzero when no I/O tensor of the engine is classified as
input and when every I/O tensor is classified as input (no output): no status
it returns is 0, and it does return unless reading the opened file throws. But
it does not count the tensors of a role: when the file is read, the bring-up
steps succeed, all tensor names are non-empty and there is at least one input
and at least one output, `init` returns 0, however many inputs or outputs there
are. -/
theorem init_rejects_missing_role (world : InitWorld) (s : TRTSegmentation)
    (engine_path : String) (engine : Engine)
    (hin : s.input_tensor_name_ = "") (hout : s.output_tensor_name_ = "")
    (heng : world.deserializeCudaEngine = some engine) :
    ((∀ i, i < engine.getNbIOTensors → ¬ engine.isInputAt i) →
      ∀ r, init world s engine_path = .ok r → r.1 ≠ 0) ∧
    ((∀ i, i < engine.getNbIOTensors → engine.isInputAt i) →
      ∀ r, init world s engine_path = .ok r → r.1 ≠ 0) ∧
    ((world.fileOpens engine_path = true → readEngineData world engine_path = .ok ()) →
      ∃ r, init world s engine_path = .ok r) ∧
    (world.fileOpens engine_path = true → readEngineData world engine_path = .ok () →
      world.createInferRuntime.isSome = true →
      world.createExecutionContext.isSome = true →
      (∀ i, i < engine.getNbIOTensors → engine.getIOTensorName i ≠ "") →
      (∃ i, i < engine.getNbIOTensors ∧ engine.isInputAt i) →
      (∃ i, i < engine.getNbIOTensors ∧ ¬ engine.isInputAt i) →
      ∃ r, init world s engine_path = .ok r ∧ r.1 = 0) := by
  obtain ⟨h1, h2, h3⟩ := initBringUp_rejects_missing_role world s engine hin hout heng
  refine ⟨?_, ?_, init_returns_of_read world s engine_path, ?_⟩
  · intro hno r hr
    rcases init_ok_cases world s engine_path r hr with ⟨_, e⟩ | ⟨_, _, e⟩
    · subst e; simp
    · subst e; exact h1 hno
  · intro hall r hr
    rcases init_ok_cases world s engine_path r hr with ⟨_, e⟩ | ⟨_, _, e⟩
    · subst e; simp
    · subst e; exact h2 hall
  · intro hf hread hrt hctx hnames hexi hexo
    exact ⟨_, init_of_read world s engine_path hf hread, h3 hrt hctx hnames hexi hexo⟩

theorem init_rejects_missing_role_witness :
    ∃ r, init { demoInitWorld with
                deserializeCudaEngine := some { id := 4, tensors := [{ name := "output",
                                                                       mode := .kOUTPUT }] } }
        TRTSegmentation.fresh "model.engine" = .ok r ∧ r.1 ≠ 0 :=
  ⟨_, rfl, (init_rejects_missing_role
    { demoInitWorld with
      deserializeCudaEngine := some { id := 4, tensors := [{ name := "output",
                                                             mode := .kOUTPUT }] } }
    TRTSegmentation.fresh "model.engine"
    { id := 4, tensors := [{ name := "output", mode := .kOUTPUT }] } rfl rfl rfl).1
    (fun i hi => by
      have h0 : i = 0 := Nat.lt_one_iff.mp hi
      subst h0
      unfold Engine.isInputAt
      decide) _ rfl⟩

/-- C12 (counterexample): an engine with two input tensors and one output
tensor is not rejected: `init` returns 0 and records the last input tensor. -/
theorem init_accepts_two_inputs :
    (twoInputEngine.tensors.filter (fun t => t.mode = TensorIOMode.kINPUT)).length = 2 ∧
    (twoInputEngine.tensors.filter (fun t => t.mode = TensorIOMode.kOUTPUT)).length = 1 ∧
    ∃ r, init { demoInitWorld with deserializeCudaEngine := some twoInputEngine }
        TRTSegmentation.fresh "model.engine" = .ok r ∧
      r.1 = 0 ∧ r.2.input_tensor_name_ = "input_b" ∧ r.2.input_binding_index_ = 1 := by
  refine ⟨by decide, by decide, _, rfl, by rfl, by rfl, by rfl⟩

/-! ## Failure paths of `run` -/

theorem cvResizeLinear_ok (pixels : Nat → Byte) (image : Image)
    (hne : image.empty = false) :
    cvResizeLinear pixels image target_width target_height =
      .ok { rows := target_height, cols := target_width,
            data := (List.range (target_height * target_width * 3)).map pixels } := by
  unfold cvResizeLinear
  rw [if_neg]
  simp [hne, target_width, target_height]

theorem init_failed_context (iw : InitWorld) (engine_path : String)
    (hfail : iw.fileOpens engine_path = false ∨ iw.createInferRuntime = none ∨
      iw.deserializeCudaEngine = none ∨ iw.createExecutionContext = none)
    (r : Int × TRTSegmentation)
    (hret : init iw TRTSegmentation.fresh engine_path = .ok r) :
    r.1 = -1 ∧ r.2.context_ = none := by
  rcases init_ok_cases iw TRTSegmentation.fresh engine_path r hret with ⟨_, e⟩ | ⟨hf, _, e⟩
  · subst e; exact ⟨rfl, rfl⟩
  · subst e
    unfold initBringUp
    cases hr : iw.createInferRuntime with
    | none => exact ⟨rfl, rfl⟩
    | some rt =>
      cases he : iw.deserializeCudaEngine with
      | none => exact ⟨rfl, rfl⟩
      | some engine =>
        cases hc : iw.createExecutionContext with
        | none => exact ⟨rfl, rfl⟩
        | some ctx =>
          rcases hfail with h | h | h | h
          · rw [hf] at h; exact Bool.noConfusion h
          · rw [hr] at h; exact Option.noConfusion h
          · rw [he] at h; exact Option.noConfusion h
          · rw [hc] at h; exact Option.noConfusion h

/-- C11 (what the code does): when `init` on a new object fails at the file,
the runtime, the engine or the context (the opened file being read without an
exception), it returns -1 and leaves `context_` null; a following `run` on an
image that decodes then dereferences that null `context_` (source line 131)
instead of returning a status. -/
theorem run_after_failed_init_dereferences_null (iw : InitWorld) (engine_path : String)
    (hfail : iw.fileOpens engine_path = false ∨ iw.createInferRuntime = none ∨
      iw.deserializeCudaEngine = none ∨ iw.createExecutionContext = none)
    (hread : iw.fileOpens engine_path = true → readEngineData iw engine_path = .ok ())
    (world : RunWorld) (dev : Device) (events : List Event)
    (image_path output_mask_path : String)
    (himg : (world.imread image_path).empty = false) :
    ∃ r, init iw TRTSegmentation.fresh engine_path = .ok r ∧
      r.1 = -1 ∧ r.2.context_ = none ∧
      run world { self := r.2, dev := dev, events := events } image_path output_mask_path =
        .error .nullDeref := by
  obtain ⟨r, hret⟩ := init_returns_of_read iw TRTSegmentation.fresh engine_path hread
  obtain ⟨h1, h2⟩ := init_failed_context iw engine_path hfail r hret
  refine ⟨r, hret, h1, h2, ?_⟩
  unfold run
  simp only [himg, Bool.false_eq_true, if_false, cvResizeLinear_ok _ _ himg, h2]

theorem run_after_failed_init_dereferences_null_witness :
    ∃ r, init missingFileWorld TRTSegmentation.fresh "missing.engine" = .ok r ∧
      r.1 = -1 ∧
      run demoWorld { self := r.2, dev := { live := [], last := 0 }, events := [] }
        "in.jpg" "out.png" = .error .nullDeref :=
  match run_after_failed_init_dereferences_null missingFileWorld "missing.engine"
    (Or.inl rfl) (fun h => Bool.noConfusion h)
    demoWorld { live := [], last := 0 } [] "in.jpg" "out.png" rfl with
  | ⟨r, h0, h1, _, h3⟩ => ⟨r, h0, h1, h3⟩

/-- C13: when `cv::imread` yields an empty image, `run` returns -1 (nonzero)
and nothing else happens: the object is unchanged (so `buffers_`, `host_input_`
and `host_output_` are unchanged), device memory is unchanged and no call is
made on the outside world (no shape request, no free, no allocation). -/
theorem run_undecodable_image_untouched (world : RunWorld) (m : Machine)
    (image_path output_mask_path : String)
    (hempty : (world.imread image_path).empty = true) :
    ∃ out, run world m image_path output_mask_path = .ok out ∧
      out.status = -1 ∧ out.status ≠ 0 ∧
      out.self = m.self ∧
      out.self.buffers_ = m.self.buffers_ ∧
      out.self.host_input_ = m.self.host_input_ ∧
      out.self.host_output_ = m.self.host_output_ ∧
      out.dev = m.dev ∧
      out.events = m.events := by
  refine ⟨{ status := -1, self := m.self, dev := m.dev, events := m.events }, ?_,
    rfl, (by show (-1 : Int) ≠ 0; decide), rfl, rfl, rfl, rfl, rfl, rfl⟩
  unfold run
  simp only [hempty, if_true, Machine.ret]

theorem run_undecodable_image_untouched_witness :
    ∃ out, run { demoWorld with imread := fun _ => { rows := 0, cols := 0, data := [] } }
        demoMachine "broken.jpg" "out.png" = .ok out ∧
      out.status = -1 ∧ out.dev.live = [] ∧ out.events = [] :=
  match run_undecodable_image_untouched
      { demoWorld with imread := fun _ => { rows := 0, cols := 0, data := [] } }
      demoMachine "broken.jpg" "out.png" rfl with
  | ⟨out, hrun, hst, _, _, _, _, _, hdev, hev⟩ =>
    ⟨out, hrun, hst, by rw [hdev]; rfl, by rw [hev]; rfl⟩

/-- C18: when the image decodes, the execution context exists and
`setInputShape` rejects the shape, `run` returns -1 (nonzero) having made only
the shape request: the object (so `buffers_`, `host_input_`, `host_output_`) and
device memory are unchanged, and no free, allocation, copy or execution call is
made. -/
theorem run_shape_rejected_aborts (world : RunWorld) (m : Machine)
    (image_path output_mask_path : String) (ctx : Context)
    (hne : (world.imread image_path).empty = false)
    (hctx : m.self.context_ = some ctx)
    (hs : world.setInputShape m.self.input_tensor_name_ inputShape = false) :
    ∃ out, run world m image_path output_mask_path = .ok out ∧
      out.status = -1 ∧ out.status ≠ 0 ∧
      out.self = m.self ∧
      out.self.buffers_ = m.self.buffers_ ∧
      out.self.host_input_ = m.self.host_input_ ∧
      out.self.host_output_ = m.self.host_output_ ∧
      out.dev = m.dev ∧
      out.events = m.events ++ [Event.setInputShape m.self.input_tensor_name_ inputShape] := by
  refine ⟨{ status := -1, self := m.self, dev := m.dev,
            events := m.events ++ [Event.setInputShape m.self.input_tensor_name_ inputShape] },
    ?_, rfl, (by show (-1 : Int) ≠ 0; decide), rfl, rfl, rfl, rfl, rfl, rfl⟩
  unfold run
  simp only [hne, Bool.false_eq_true, if_false, cvResizeLinear_ok _ _ hne, hctx, Machine.emit,
    hs, Bool.not_false, if_true, Machine.ret]

theorem run_shape_rejected_aborts_witness :
    ∃ out, run { demoWorld with setInputShape := fun _ _ => false }
        demoMachine "in.jpg" "out.png" = .ok out ∧
      out.status = -1 ∧ out.dev.live = [] ∧
      out.events = [Event.setInputShape "input" inputShape] :=
  match run_shape_rejected_aborts { demoWorld with setInputShape := fun _ _ => false }
      demoMachine "in.jpg" "out.png" { id := 2 } rfl rfl rfl with
  | ⟨out, hrun, hst, _, _, _, _, _, hdev, hev⟩ =>
    ⟨out, hrun, hst, by rw [hdev]; rfl, by rw [hev]; rfl⟩

theorem isMalloc_not_afterExecute (e : Event) (h : Event.isMalloc e = true) :
    Event.afterExecute e = false := by
  cases e <;> simp_all [Event.isMalloc, Event.afterExecute]

/-- C17: when the image decodes, the shape is accepted and `executeV2`, called
on the reconciled `buffers_`, returns false, `run` returns -1 (nonzero);
`host_output_` is what it was before the call, and after the calls made up to
`executeV2` none follows: no download of the output and no `cv::imwrite`. -/
theorem run_execute_failure_stops (world : RunWorld) (m : Machine)
    (image_path output_mask_path : String) (out : RunOut)
    (hrun : run world m image_path output_mask_path = .ok out)
    (hne : (world.imread image_path).empty = false)
    (hs : world.setInputShape m.self.input_tensor_name_ inputShape = true)
    (hx : world.executeV2 out.self.buffers_ = false) :
    out.status = -1 ∧ out.status ≠ 0 ∧
    out.self.host_output_ = m.self.host_output_ ∧
    ∃ l, out.events = m.events ++ l ++ [Event.executeV2 out.self.buffers_] ∧
      ∀ e ∈ l ++ [Event.executeV2 out.self.buffers_], Event.afterExecute e = false := by
  obtain ⟨engine, resized, dst, _, _, _, hbuf, _, _, hcase⟩ :=
    run_reconciled world m image_path output_mask_path out hrun hne hs
  rw [hbuf] at hx
  rcases hcase with ⟨_, hst, hout, hev⟩ | ⟨hxt, _⟩
  · refine ⟨hst, by rw [hst]; decide, hout, ?_⟩
    obtain ⟨l, hrec, hl⟩ := reconciled_events world engine m
    refine ⟨Event.setInputShape m.self.input_tensor_name_ inputShape ::
        (m.self.buffers_.map Event.cudaFree ++ l) ++
        [Event.memcpyHostToDevice dst ((out.self.host_input_.length * sizeofFloat) % 2 ^ 64)],
      ?_, ?_⟩
    · rw [hev, hrec, hbuf]
      simp
    · intro e he
      simp only [List.mem_append, List.mem_cons, List.mem_map, List.mem_singleton,
        List.not_mem_nil, or_false] at he
      rcases he with ((h1 | h1 | h1) | h1) | h1
      · rw [h1]; rfl
      · obtain ⟨p, _, hp⟩ := h1; rw [← hp]; rfl
      · exact isMalloc_not_afterExecute e (hl e h1)
      · rw [h1]; rfl
      · rw [h1]; rfl
  · rw [hxt] at hx; exact Bool.noConfusion hx

set_option maxRecDepth 100000 in
theorem run_execute_failure_stops_witness :
    ∃ out, run { demoWorld with executeV2 := fun _ => false } demoMachine "in.jpg" "out.png" =
        .ok out ∧ out.status = -1 ∧ out.self.host_output_ = [] :=
  have hrun : run { demoWorld with executeV2 := fun _ => false } demoMachine "in.jpg" "out.png" =
      .ok _ := rfl
  have h := run_execute_failure_stops { demoWorld with executeV2 := fun _ => false }
    demoMachine "in.jpg" "out.png" _ hrun rfl rfl rfl
  ⟨_, hrun, h.1, h.2.2.1⟩

theorem run_events_begin (world : RunWorld) (m : Machine)
    (image_path output_mask_path : String) (out : RunOut)
    (hrun : run world m image_path output_mask_path = .ok out)
    (hne : (world.imread image_path).empty = false) :
    ∃ rest, out.events =
      m.events ++ Event.setInputShape m.self.input_tensor_name_ inputShape :: rest := by
  rcases run_inv world m image_path output_mask_path out hrun with ⟨he, _⟩ |
    ⟨_, _, _, _, _, _, hev⟩ | ⟨_, _, hs, _⟩
  · rw [he] at hne; exact absurd hne (by decide)
  · exact ⟨[], hev⟩
  · obtain ⟨engine, _, dst, _, _, _, _, _, _, hcase⟩ :=
      run_reconciled world m image_path output_mask_path out hrun hne hs
    obtain ⟨l, hrec, _⟩ := reconciled_events world engine m
    rcases hcase with ⟨_, _, _, hev⟩ | ⟨_, _, _, _, hev⟩
    · exact ⟨_, by rw [hev, hrec, List.append_assoc]; rfl⟩
    · exact ⟨_, by rw [hev, hrec, List.append_assoc]; rfl⟩

/-- C19: for every image that decodes, whatever its dimensions (2048 x 256
included), a returning `run` has resized it with
`cv::resize(image, resized_image, cv::Size(2048, 256))`, whose result has 256
rows and 2048 columns, has requested the input shape (1, 3, 256, 2048) as its
first call, and, once the shape is accepted, has passed that 256 x 2048 image to
`preprocess`. -/
theorem run_resizes_to_target (world : RunWorld) (m : Machine)
    (image_path output_mask_path : String) (out : RunOut)
    (hrun : run world m image_path output_mask_path = .ok out)
    (hne : (world.imread image_path).empty = false) :
    ∃ resized rest,
      cvResizeLinear world.resizePixels (world.imread image_path) 2048 256 = .ok resized ∧
      resized.rows = 256 ∧ resized.cols = 2048 ∧
      out.events = m.events ++
        Event.setInputShape m.self.input_tensor_name_ { nbDims := 4, d := [1, 3, 256, 2048] } ::
          rest ∧
      (world.setInputShape m.self.input_tensor_name_ { nbDims := 4, d := [1, 3, 256, 2048] }
          = true →
        out.self.host_input_ = preprocess m.self.host_input_ resized) := by
  have hres := cvResizeLinear_ok world.resizePixels (world.imread image_path) hne
  obtain ⟨rest, hev⟩ := run_events_begin world m image_path output_mask_path out hrun hne
  refine ⟨_, rest, hres, rfl, rfl, hev, ?_⟩
  intro hs
  obtain ⟨_, resized, _, _, hres', _, _, _, hin, _⟩ :=
    run_reconciled world m image_path output_mask_path out hrun hne hs
  have e := Except.ok.inj (hres.symm.trans hres')
  rw [e]
  exact hin

set_option maxRecDepth 100000 in
theorem run_resizes_to_target_witness :
    ∃ (out : RunOut) (resized : Image),
      run demoWorld256 demoMachine "in.jpg" "out.png" = .ok out ∧
      resized.rows = 256 ∧ resized.cols = 2048 ∧
      out.self.host_input_ = preprocess demoMachine.self.host_input_ resized :=
  have hrun : run demoWorld256 demoMachine "in.jpg" "out.png" = .ok _ := rfl
  match run_resizes_to_target demoWorld256 demoMachine "in.jpg" "out.png" _ hrun rfl with
  | ⟨resized, _, _, hr, hc, _, hin⟩ => ⟨_, resized, hrun, hr, hc, hin rfl⟩

/-! ## Device allocations across calls -/

theorem run_reconcile_count (world : RunWorld) (m : Machine)
    (image_path output_mask_path : String) (out : RunOut) (engine : Engine)
    (hrun : run world m image_path output_mask_path = .ok out)
    (hown : Owned m) (heng : m.self.engine_ = some engine)
    (hrec : Reconciles (world, image_path, output_mask_path)) :
    out.dev.live.length = engine.getNbIOTensors ∧ Owned out.machine ∧
    out.machine.self.engine_ = some engine := by
  obtain ⟨hne, hs, hall⟩ := hrec
  obtain ⟨engine', _, _, heng', _, _, _, hdev, _⟩ :=
    run_reconciled world m image_path output_mask_path out hrun hne (hs _)
  rw [heng] at heng'
  injection heng' with heng'
  subst heng'
  refine ⟨?_, run_owned world m image_path output_mask_path out hrun hown, ?_⟩
  · rw [hdev]
    exact reconciled_live_length world engine m hown (fun i _ => hall i _)
  · show out.self.engine_ = some engine
    rw [(run_session_frame world m image_path output_mask_path out hrun).2.1, heng]

theorem runSeq_reconcile_count (engine : Engine) :
    ∀ (calls : List (RunWorld × String × String)) (m m' : Machine),
      Owned m → m.self.engine_ = some engine →
      (∀ call ∈ calls, Reconciles call) →
      runSeq calls m = .ok m' →
      (calls ≠ [] → m'.dev.live.length = engine.getNbIOTensors) ∧ Owned m' := by
  intro calls
  induction calls with
  | nil =>
    intro m m' hown _ _ hrun
    simp only [runSeq] at hrun
    injection hrun with hrun
    subst hrun
    exact ⟨fun h => absurd rfl h, hown⟩
  | cons call rest ih =>
    intro m m' hown heng hrec hrun
    simp only [runSeq] at hrun
    cases hr : run call.1 m call.2.1 call.2.2 with
    | error e => rw [hr] at hrun; simp at hrun
    | ok out =>
      rw [hr] at hrun
      simp only at hrun
      obtain ⟨hlen, hown', heng'⟩ := run_reconcile_count call.1 m call.2.1 call.2.2 out engine
        hr hown heng (hrec call (List.mem_cons_self _ _))
      obtain ⟨hlen', hown''⟩ := ih out.machine m' hown' heng'
        (fun c hc => hrec c (List.mem_cons_of_mem _ hc)) hrun
      refine ⟨fun _ => ?_, hown''⟩
      cases rest with
      | nil =>
        simp only [runSeq] at hrun
        injection hrun with hrun
        subst hrun
        exact hlen
      | cons c r => exact hlen' (List.cons_ne_nil _ _)

/-- C14: starting from an object that holds every live device allocation (a new
object on an empty device, for one), after any sequence of k >= 1 calls of `run`
that each reach the buffer reconciliation with all allocations succeeding, the
number of live device allocations is the number of I/O tensors of the engine,
whatever k is, and the object again holds every live allocation: each call frees
the buffers of the previous one before it allocates. -/
theorem runs_do_not_leak (calls : List (RunWorld × String × String)) (m m' : Machine)
    (engine : Engine) (hk : calls ≠ []) (hown : Owned m)
    (heng : m.self.engine_ = some engine)
    (hrec : ∀ call ∈ calls, Reconciles call)
    (hrun : runSeq calls m = .ok m') :
    m'.dev.live.length = engine.getNbIOTensors ∧ Owned m' := by
  obtain ⟨h1, h2⟩ := runSeq_reconcile_count engine calls m m' hown heng hrec hrun
  exact ⟨h1 hk, h2⟩

set_option maxRecDepth 100000 in
theorem runs_do_not_leak_witness :
    ∃ m', runSeq [(demoWorld, "a.jpg", "a.png"), (demoWorld256, "b.jpg", "b.png"),
        (demoWorld, "c.jpg", "c.png")] demoMachine = .ok m' ∧
      m'.dev.live.length = 2 :=
  have hrun : runSeq [(demoWorld, "a.jpg", "a.png"), (demoWorld256, "b.jpg", "b.png"),
      (demoWorld, "c.jpg", "c.png")] demoMachine = .ok _ := rfl
  ⟨_, hrun, (runs_do_not_leak _ demoMachine _ demoEngine (List.cons_ne_nil _ _)
    (fun a ha => absurd ha (List.not_mem_nil a)) rfl
    (fun call hc => by
      simp only [List.mem_cons, List.mem_singleton, List.not_mem_nil, or_false] at hc
      rcases hc with h | h | h <;> subst h <;> exact ⟨rfl, fun _ => rfl, fun _ _ => rfl⟩)
    hrun).1⟩

/-! ## A failed allocation -/

/-- C15 (as amended): when the image decodes and the shape is accepted, a
returning `run` has not stopped at a failed device allocation: `buffers_` has
one entry per I/O tensor, the entry of a tensor whose allocation failed is null,
the entry of a tensor whose allocation succeeded is a non-null live allocation
of the requested size, and `executeV2` has been called with that buffer set;
the status is -1 when `executeV2` fails and otherwise that of the mask write. -/
theorem run_alloc_failure_is_ignored (world : RunWorld) (m : Machine)
    (image_path output_mask_path : String) (out : RunOut) (engine : Engine)
    (hrun : run world m image_path output_mask_path = .ok out)
    (hne : (world.imread image_path).empty = false)
    (hs : world.setInputShape m.self.input_tensor_name_ inputShape = true)
    (heng : m.self.engine_ = some engine) :
    out.self.buffers_.length = engine.getNbIOTensors ∧
    (∀ i, i < engine.getNbIOTensors →
      world.mallocOk i (tensorBytes world engine i) = false →
      out.self.buffers_[i]? = some 0) ∧
    (∀ i, i < engine.getNbIOTensors →
      world.mallocOk i (tensorBytes world engine i) = true →
      ∃ p, p ≠ 0 ∧ out.self.buffers_[i]? = some p ∧
        (p, tensorBytes world engine i) ∈ out.dev.live) ∧
    Event.executeV2 out.self.buffers_ ∈ out.events ∧
    (world.executeV2 out.self.buffers_ = false → out.status = -1) ∧
    (world.executeV2 out.self.buffers_ = true →
      ∃ final_mask, out.status = (if world.imwrite output_mask_path final_mask then 0 else -1)) := by
  obtain ⟨engine', _, dst, heng', _, _, hbuf, hdev, _, hcase⟩ :=
    run_reconciled world m image_path output_mask_path out hrun hne hs
  rw [heng] at heng'
  injection heng' with heng'
  subst heng'
  obtain ⟨hlen, _, hfail, hok, _, _⟩ := reconciled_inv world engine m
  rw [hbuf, hdev]
  refine ⟨hlen, hfail, hok, ?_, ?_, ?_⟩
  · rcases hcase with ⟨_, _, _, hev⟩ | ⟨_, _, _, _, hev⟩
    · rw [hev]
      exact List.mem_append_right _ (by simp)
    · rw [hev]
      exact List.mem_append_right _ (by simp)
  · intro hx
    rcases hcase with ⟨_, hst, _⟩ | ⟨hxt, _⟩
    · exact hst
    · rw [hxt] at hx; exact Bool.noConfusion hx
  · intro hx
    rcases hcase with ⟨hxf, _⟩ | ⟨_, _, final_mask, hst, _⟩
    · rw [hxf] at hx; exact Bool.noConfusion hx
    · exact ⟨final_mask, hst⟩

set_option maxRecDepth 100000 in
theorem run_alloc_failure_is_ignored_witness :
    ∃ out, run allocFailWorld demoMachine "in.jpg" "out.png" = .ok out ∧
      out.self.buffers_[1]? = some 0 ∧
      Event.executeV2 out.self.buffers_ ∈ out.events :=
  have hrun : run allocFailWorld demoMachine "in.jpg" "out.png" = .ok _ := rfl
  have h := run_alloc_failure_is_ignored allocFailWorld demoMachine "in.jpg" "out.png" _
    demoEngine hrun rfl rfl rfl
  ⟨_, hrun, h.2.1 1 (by decide) rfl, h.2.2.2.1⟩

set_option maxRecDepth 100000 in
/-- C15 (counterexample): the allocation for tensor 1 fails, yet `run` keeps the
buffer allocated for tensor 0 (`buffers_` is `[1, 0]`, one allocation live) and
goes on to call `executeV2` with that half-allocated set. -/
theorem run_continues_after_failed_alloc :
    ∃ out, run allocFailWorld demoMachine "in.jpg" "out.png" = .ok out ∧
      allocFailWorld.mallocOk 1 (tensorBytes allocFailWorld demoEngine 1) = false ∧
      out.self.buffers_ = [1, 0] ∧
      out.dev.live = [(1, 6291456)] ∧
      out.events.getLast? = some (Event.executeV2 [1, 0]) :=
  ⟨_, rfl, rfl, rfl, rfl, rfl⟩

/-! ## The destructor -/

/-- C20: the destructor calls `cudaFree` on every entry of `buffers_`, so no
allocation held in `buffers_` is live afterwards. When the object holds every
live allocation, none is left; this is the case after any returning `run`,
whatever its status (a failed execution or a failed mask write included),
started from such an object. -/
theorem destroy_frees_all_buffers (m : Machine) :
    (∀ p ∈ m.self.buffers_, Event.cudaFree p ∈ (destroy m).events) ∧
    (∀ a ∈ (destroy m).dev.live, a.1 ∉ m.self.buffers_) ∧
    (Owned m → (destroy m).dev.live = [] ∧ (destroy m).dev.live.length = 0) ∧
    (∀ (world : RunWorld) (image_path output_mask_path : String) (out : RunOut),
      Owned m → run world m image_path output_mask_path = .ok out →
      (destroy out.machine).dev.live = [] ∧ (destroy out.machine).dev.live.length = 0) := by
  refine ⟨?_, ?_, ?_, ?_⟩
  · intro p hp
    unfold destroy
    rw [freeBuffers_events]
    exact List.mem_append_right _ (List.mem_map_of_mem _ hp)
  · intro a ha
    unfold destroy at ha
    exact ((freeBuffers_live m a).mp ha).2
  · intro hown
    unfold destroy
    rw [freeBuffers_live_of_owned m hown]
    exact ⟨rfl, rfl⟩
  · intro world image_path output_mask_path out hown hrun
    unfold destroy
    rw [freeBuffers_live_of_owned _ (run_owned world m image_path output_mask_path out hrun hown)]
    exact ⟨rfl, rfl⟩

set_option maxRecDepth 100000 in
theorem destroy_frees_all_buffers_witness :
    ∃ out, run { demoWorld with executeV2 := fun _ => false } demoMachine "in.jpg" "out.png" =
        .ok out ∧ out.status = -1 ∧ out.dev.live.length = 2 ∧
      (destroy out.machine).dev.live = [] :=
  have hrun : run { demoWorld with executeV2 := fun _ => false } demoMachine "in.jpg" "out.png" =
      .ok _ := rfl
  ⟨_, hrun, rfl, rfl,
    ((destroy_frees_all_buffers demoMachine).2.2.2 { demoWorld with executeV2 := fun _ => false }
      "in.jpg" "out.png" _ (fun a ha => absurd ha (List.not_mem_nil a)) hrun).1⟩

/-! ## More on `postprocess` -/

theorem postprocess_data_pixel (host_output : List F32) (dims : Dims) (uninit : Nat → Byte)
    (mask : Mat8) (hp : postprocess host_output dims uninit = .ok mask) :
    ∀ b ∈ mask.data, ∃ h w st, h < (dims.get 2).toNat ∧ w < (dims.get 3).toNat ∧
      scanClasses host_output (dims.get 1).toNat (dims.get 2).toNat (dims.get 3).toNat h w
        = .ok st ∧ b = maskValue st.2 := by
  obtain ⟨_, _, hr, hc, hl, hf⟩ := postprocess_filled host_output dims uninit mask hp
  intro b hb
  obtain ⟨i, hi, rfl⟩ := List.mem_iff_getElem.mp hb
  have hi' : i < (dims.get 2).toNat * (dims.get 3).toNat := by rw [← hl]; exact hi
  have hW : 0 < (dims.get 3).toNat := by
    rcases Nat.eq_zero_or_pos (dims.get 3).toNat with h0 | h0
    · rw [h0] at hi'; simp at hi'
    · exact h0
  have hdecomp : i / (dims.get 3).toNat * (dims.get 3).toNat + i % (dims.get 3).toNat = i :=
    Nat.div_add_mod' i _
  have hh : i / (dims.get 3).toNat < (dims.get 2).toNat := by
    apply Nat.div_lt_of_lt_mul
    have e : (dims.get 3).toNat * (dims.get 2).toNat =
        (dims.get 2).toNat * (dims.get 3).toNat := by ring
    omega
  obtain ⟨st, hst, hval⟩ := hf (i / (dims.get 3).toNat) (i % (dims.get 3).toNat)
    (Nat.mod_lt _ hW) (by rw [hdecomp]; exact hi')
  rw [hdecomp, List.getElem?_eq_getElem hi] at hval
  injection hval with hval
  exact ⟨_, _, st, hh, Nat.mod_lt _ hW, hst, hval⟩

theorem scanClasses_le_one (host_output : List F32) (C H W h w : Nat) (st : F32 × Nat)
    (hC : C ≤ 1) (hs : scanClasses host_output C H W h w = .ok st) : st.2 = 0 := by
  have key := forLoopE_inv (classStep host_output H W h w) (fun _ st => st.2 = 0) C 0
    (F32.ninf, 0) st rfl
    (fun j t t' _ hj hP ht => by
      have hj0 : j = 0 := by omega
      subst hj0
      unfold classStep at ht
      split at ht
      · simp at ht
      · split at ht
        · injection ht with ht; subst ht; rfl
        · injection ht with ht; subst ht; exact hP) hs
  exact key

/-- C30: when the output shape has at most one class channel (`dims.d[1]` is 0
or 1, or negative), every pixel of a mask `postprocess` produces is 0, whatever
the scores (NaN and infinities included); and it does produce a mask, of H rows
and W columns, whenever H and W are non-negative and the buffer holds the C*H*W
scores of the shape. -/
theorem postprocess_single_class_background (host_output : List F32) (dims : Dims)
    (uninit : Nat → Byte) (hC : dims.get 1 ≤ 1) :
    (∀ mask, postprocess host_output dims uninit = .ok mask →
      (∀ b ∈ mask.data, b = 0) ∧
      (∀ h w, h < mask.rows → w < mask.cols → mask.at? h w = some 0)) ∧
    (0 ≤ dims.get 2 → 0 ≤ dims.get 3 →
      (dims.get 1).toNat * (dims.get 2).toNat * (dims.get 3).toNat ≤ host_output.length →
      ∃ mask, postprocess host_output dims uninit = .ok mask ∧
        mask.rows = (dims.get 2).toNat ∧ mask.cols = (dims.get 3).toNat ∧
        mask.data = List.replicate ((dims.get 2).toNat * (dims.get 3).toNat) 0) := by
  have hC' : (dims.get 1).toNat ≤ 1 := by omega
  have hzero : ∀ mask, postprocess host_output dims uninit = .ok mask →
      (∀ b ∈ mask.data, b = 0) ∧
      (∀ h w, h < mask.rows → w < mask.cols → mask.at? h w = some 0) := by
    intro mask hp
    refine ⟨?_, ?_⟩
    · intro b hb
      obtain ⟨h, w, st, _, _, hst, hval⟩ :=
        postprocess_data_pixel host_output dims uninit mask hp b hb
      rw [hval, scanClasses_le_one host_output _ _ _ h w st hC' hst]
      rfl
    · obtain ⟨_, _, hr, hc, hl, hf⟩ := postprocess_filled host_output dims uninit mask hp
      intro h w hh hw
      rw [hr] at hh
      rw [hc] at hw
      obtain ⟨st, hst, hval⟩ := hf h w hw (rowMajor_lt _ _ h w hh hw)
      unfold Mat8.at?
      rw [hc, hval, scanClasses_le_one host_output _ _ _ h w st hC' hst]
      rfl
  refine ⟨hzero, ?_⟩
  intro hH hW hlen
  obtain ⟨mask, hp⟩ := postprocess_total host_output dims uninit hH hW
    (fun c h w hc hh hw => lt_of_lt_of_le (scoreIndex_lt _ _ _ c h w hc hh hw) hlen)
  obtain ⟨_, _, hr, hc, hl, _⟩ := postprocess_filled host_output dims uninit mask hp
  refine ⟨mask, hp, hr, hc, ?_⟩
  rw [← hl]
  exact List.eq_replicate_of_mem (hzero mask hp).1

theorem postprocess_single_class_background_witness :
    (∀ mask, postprocess [F32.fin 5, F32.nan] (Dims4 1 1 1 2) (fun _ => 7) = .ok mask →
      (∀ b ∈ mask.data, b = 0) ∧
      (∀ h w, h < mask.rows → w < mask.cols → mask.at? h w = some 0)) ∧
    postprocess [F32.fin 5, F32.nan] (Dims4 1 1 1 2) (fun _ => 7) =
      .ok { rows := 1, cols := 2, data := [0, 0] } :=
  ⟨(postprocess_single_class_background [F32.fin 5, F32.nan] (Dims4 1 1 1 2) (fun _ => 7)
      (by decide)).1, rfl⟩

/-- C25: for an output shape (N, C, H, W) with C >= 1 and a buffer of C*H*W
ordered (non-NaN) scores, the pixel `postprocess` writes at (h, w) is 255 if and
only if some class c > 0 scores strictly more than class 0 there, and is 0 if
and only if no class scores strictly more than class 0 (class 0 is greater than
or equal to every other class). -/
theorem postprocess_foreground_iff_beats_background (host_output : List F32) (N : Int)
    (C H W : Nat) (uninit : Nat → Byte) (hC : 1 ≤ C)
    (hlen : host_output.length = C * H * W)
    (hord : ∀ v ∈ host_output, v.ordered = true) (h w : Nat) (hh : h < H) (hw : w < W) :
    ∃ mask px,
      postprocess host_output (Dims4 N C H W) uninit = .ok mask ∧
      mask.at? h w = some px ∧
      (px = 255 ↔ ∃ c, 0 < c ∧ c < C ∧
        (scoreAt host_output H W c h w).gt (scoreAt host_output H W 0 h w) = true) ∧
      (px = 0 ↔ ∀ c, c < C →
        (scoreAt host_output H W c h w).gt (scoreAt host_output H W 0 h w) = false) := by
  have g1 : (Dims4 N C H W).get 1 = (C : Int) := rfl
  have g2 : (Dims4 N C H W).get 2 = (H : Int) := rfl
  have g3 : (Dims4 N C H W).get 3 = (W : Int) := rfl
  have hbAll : ∀ c h w, c < C → h < H → w < W → scoreIndex H W c h w < host_output.length := by
    intro c h w hc hh hw
    rw [hlen]; exact scoreIndex_lt C H W c h w hc hh hw
  obtain ⟨mask, hmask⟩ := postprocess_total host_output (Dims4 N C H W) uninit
    (by rw [g2]; exact Int.natCast_nonneg H) (by rw [g3]; exact Int.natCast_nonneg W)
    (by
      intro c h w hc hh hw
      rw [g1, Int.toNat_natCast] at hc
      rw [g2, Int.toNat_natCast] at hh ⊢
      rw [g3, Int.toNat_natCast] at hw ⊢
      exact hbAll c h w hc hh hw)
  obtain ⟨_, _, hr, hcol, hl, hf⟩ := postprocess_filled host_output _ uninit mask hmask
  rw [g1, g2, g3] at hf
  simp only [Int.toNat_natCast] at hf hcol
  rw [g3, Int.toNat_natCast] at hcol
  obtain ⟨st, hst, hpx⟩ := hf h w hw (rowMajor_lt H W h w hh hw)
  have hb : ∀ c, c < C → scoreIndex H W c h w < host_output.length :=
    fun c hc => hbAll c h w hc hh hw
  have hordAt : ∀ c, c < C → (scoreAt host_output H W c h w).ordered = true := by
    intro c hc
    apply hord
    unfold scoreAt
    rw [List.getD_eq_getElem _ _ (hb c hc)]
    exact List.getElem_mem _
  obtain ⟨_, i1, i2, i3⟩ := scanClasses_argmax host_output C H W h w st hb hordAt hst
  obtain ⟨hlt, hval⟩ := i1 (by omega)
  have hat : mask.at? h w = some (maskValue st.2) := by
    unfold Mat8.at?; rw [hcol]; exact hpx
  refine ⟨mask, maskValue st.2, hmask, hat, ?_, ?_⟩
  · rw [maskValue_eq_255]
    constructor
    · intro hpos
      refine ⟨st.2, hpos, hlt, ?_⟩
      rw [← hval]; exact i3 0 hpos
    · rintro ⟨c, hc0, hcC, hgt⟩
      by_contra hz
      have hz' : st.2 = 0 := by omega
      have := i2 c hcC
      rw [hval, hz', hgt] at this
      exact Bool.noConfusion this
  · rw [maskValue_eq_zero]
    constructor
    · intro hz c hc
      have := i2 c hc
      rw [hval, hz] at this
      exact this
    · intro hall
      by_contra hz
      have hpos : 0 < st.2 := by omega
      have := i3 0 hpos
      rw [hval, hall st.2 hlt] at this
      exact Bool.noConfusion this

theorem postprocess_foreground_iff_beats_background_witness :
    ∃ mask px,
      postprocess [F32.fin 3, F32.fin 1, F32.fin 2, F32.fin 5] (Dims4 1 (2 : Nat) (1 : Nat)
        (2 : Nat)) (fun _ => 7) = .ok mask ∧
      mask.at? 0 1 = some px ∧
      (px = 255 ↔ ∃ c, 0 < c ∧ c < 2 ∧
        (scoreAt [F32.fin 3, F32.fin 1, F32.fin 2, F32.fin 5] 1 2 c 0 1).gt
          (scoreAt [F32.fin 3, F32.fin 1, F32.fin 2, F32.fin 5] 1 2 0 0 1) = true) :=
  match postprocess_foreground_iff_beats_background
      [F32.fin 3, F32.fin 1, F32.fin 2, F32.fin 5] 1 2 1 2 (fun _ => 7) (by decide) rfl
      (by simp [F32.ordered]) 0 1 (by decide) (by decide) with
  | ⟨mask, px, h1, h2, h3, _⟩ => ⟨mask, px, h1, h2, h3⟩

/-! ## The session fields -/

/-- C21: on every return of `run`, whatever the status, the session fields set
by `init` are what they were before the call: `runtime_`, `engine_`, `context_`,
the input and output tensor names and the input and output binding indices. -/
theorem run_keeps_session (world : RunWorld) (m : Machine)
    (image_path output_mask_path : String) (out : RunOut)
    (hrun : run world m image_path output_mask_path = .ok out) :
    out.self.runtime_ = m.self.runtime_ ∧ out.self.engine_ = m.self.engine_ ∧
    out.self.context_ = m.self.context_ ∧
    out.self.input_tensor_name_ = m.self.input_tensor_name_ ∧
    out.self.output_tensor_name_ = m.self.output_tensor_name_ ∧
    out.self.input_binding_index_ = m.self.input_binding_index_ ∧
    out.self.output_binding_index_ = m.self.output_binding_index_ :=
  run_session_frame world m image_path output_mask_path out hrun

set_option maxRecDepth 100000 in
theorem run_keeps_session_witness :
    ∃ out, run demoWorld demoMachine "in.jpg" "out.png" = .ok out ∧ out.status = 0 ∧
      out.self.engine_ = some demoEngine ∧ out.self.input_tensor_name_ = "input" ∧
      out.self.output_binding_index_ = 1 :=
  have hrun : run demoWorld demoMachine "in.jpg" "out.png" = .ok _ := rfl
  have h := run_keeps_session demoWorld demoMachine "in.jpg" "out.png" _ hrun
  ⟨_, hrun, rfl, h.2.1, h.2.2.2.1, h.2.2.2.2.2.2⟩

/-- C29: when the engine file cannot be opened, `init` returns -1 and the
object is exactly what it was: `runtime_`, `engine_`, `context_`, the tensor
names, the binding indices, `buffers_` and the staging buffers are unchanged, so
any later `run` behaves as it would have before the call. -/
theorem init_open_failure_is_atomic (world : InitWorld) (s : TRTSegmentation)
    (engine_path : String) (hopen : world.fileOpens engine_path = false) :
    ∃ r, init world s engine_path = .ok r ∧
      r.1 = -1 ∧
      r.2 = s ∧
      r.2.runtime_ = s.runtime_ ∧
      r.2.engine_ = s.engine_ ∧
      r.2.context_ = s.context_ ∧
      r.2.input_tensor_name_ = s.input_tensor_name_ ∧
      r.2.output_tensor_name_ = s.output_tensor_name_ ∧
      r.2.input_binding_index_ = s.input_binding_index_ ∧
      r.2.output_binding_index_ = s.output_binding_index_ ∧
      r.2.buffers_ = s.buffers_ ∧
      (∀ (rw : RunWorld) (dev : Device) (events : List Event) (image_path path : String),
        run rw { self := r.2, dev := dev, events := events } image_path path =
          run rw { self := s, dev := dev, events := events } image_path path) :=
  ⟨(-1, s), init_not_open world s engine_path hopen,
    rfl, rfl, rfl, rfl, rfl, rfl, rfl, rfl, rfl, rfl, fun _ _ _ _ _ => rfl⟩

set_option maxRecDepth 100000 in
theorem init_open_failure_is_atomic_witness :
    ∃ r, init missingFileWorld demoMachine.self "missing.engine" = .ok r ∧
      r.1 = -1 ∧ r.2 = demoMachine.self ∧
      ∃ out, run demoWorld { self := r.2, dev := { live := [], last := 0 }, events := [] }
        "in.jpg" "out.png" = .ok out ∧ out.status = 0 :=
  match init_open_failure_is_atomic missingFileWorld demoMachine.self "missing.engine" rfl with
  | ⟨r, h0, h1, h2, _, _, _, _, _, _, _, _, h3⟩ =>
    ⟨r, h0, h1, h2, _, (h3 demoWorld { live := [], last := 0 } [] "in.jpg" "out.png").trans rfl,
      rfl⟩

/-! ## The C-linkage functions -/

/-- C22: the C-linkage functions only forward. With a handle and non-null
strings `init_engine` returns the status of `TRTSegmentation::init` on the
designated object and leaves the object as `init` leaves it (and throws exactly
when `init` does); `run_inference` returns the status of `TRTSegmentation::run`
and leaves object, device and trace as `run` leaves them (and faults exactly
when `run` does). With a null handle or a null string both return -1 and change
nothing; `destroy_segmentation_instance` on a null handle changes nothing. Both
functions agree with their specifications `forwardedInit` and `forwardedRun`. -/
theorem shim_is_pure_forwarding :
    (∀ (world : InitWorld) (inst : TRTSegmentation) (dev : Device) (events : List Event)
        (path : String),
      (∀ r, init world inst path = .ok r →
        init_engine world { handle := some inst, dev := dev, events := events } (some path) =
          .ok (r.1, { handle := some r.2, dev := dev, events := events })) ∧
      (∀ e, init world inst path = .error e →
        init_engine world { handle := some inst, dev := dev, events := events } (some path) =
          .error e)) ∧
    (∀ (world : RunWorld) (inst : TRTSegmentation) (dev : Device) (events : List Event)
        (ip op : String),
      (∀ out, run world { self := inst, dev := dev, events := events } ip op = .ok out →
        run_inference world { handle := some inst, dev := dev, events := events }
            (some ip) (some op) =
          .ok (out.status, { handle := some out.self, dev := out.dev, events := out.events })) ∧
      (∀ e, run world { self := inst, dev := dev, events := events } ip op = .error e →
        run_inference world { handle := some inst, dev := dev, events := events }
            (some ip) (some op) = .error e)) ∧
    (∀ (world : InitWorld) (s : Session) (path : Option String),
      s.handle = none ∨ path = none → init_engine world s path = .ok (-1, s)) ∧
    (∀ (world : RunWorld) (s : Session) (ip op : Option String),
      s.handle = none ∨ ip = none ∨ op = none → run_inference world s ip op = .ok (-1, s)) ∧
    (∀ s : Session, s.handle = none → destroy_segmentation_instance s = s) ∧
    (∀ (world : InitWorld) (s : Session) (path : Option String),
      init_engine world s path = forwardedInit world s path) ∧
    (∀ (world : RunWorld) (s : Session) (ip op : Option String),
      run_inference world s ip op = forwardedRun world s ip op) := by
  refine ⟨?_, ?_, ?_, ?_, ?_, ?_, ?_⟩
  · intro world inst dev events path
    refine ⟨fun r h => ?_, fun e h => ?_⟩
    · simp [init_engine, h]
    · simp [init_engine, h]
  · intro world inst dev events ip op
    refine ⟨fun out h => ?_, fun e h => ?_⟩
    · simp [run_inference, h]
    · simp [run_inference, h]
  · intro world s path h
    rcases h with h | h
    · simp [init_engine, h]
    · simp [init_engine, h]
  · intro world s ip op h
    rcases h with h | h | h
    · simp [run_inference, h]
    · simp [run_inference, h]
    · simp [run_inference, h]
  · intro s h
    simp [destroy_segmentation_instance, h]
  · intro world s path
    obtain ⟨handle, dev, events⟩ := s
    cases handle with
    | none => cases path <;> rfl
    | some inst =>
      cases path with
      | none => rfl
      | some path =>
        simp only [init_engine, forwardedInit, Option.isNone_some, Bool.or_self,
          Bool.false_eq_true, if_false]
  · intro world s ip op
    obtain ⟨handle, dev, events⟩ := s
    cases handle with
    | none => cases ip <;> cases op <;> rfl
    | some inst =>
      cases ip with
      | none => cases op <;> rfl
      | some ip =>
        cases op with
        | none => rfl
        | some op =>
          simp only [run_inference, forwardedRun, Option.isNone_some, Bool.or_self,
            Bool.false_eq_true, if_false]
          cases run world { self := inst, dev := dev, events := events } ip op <;> rfl

set_option maxRecDepth 100000 in
theorem shim_is_pure_forwarding_witness :
    (∃ r, init_engine demoInitWorld (create_segmentation_instance { live := [], last := 0 } [])
      (some "model.engine") = .ok r ∧ r.1 = 0) ∧
    init_engine directoryInitWorld (create_segmentation_instance { live := [], last := 0 } [])
      (some "/tmp") = .error .badAlloc ∧
    (∃ r, init_engine demoInitWorld (create_segmentation_instance { live := [], last := 0 } [])
      none = .ok r ∧ r.1 = -1) ∧
    ∃ r, run_inference demoWorld
        { handle := some demoMachine.self, dev := demoMachine.dev, events := demoMachine.events }
        (some "in.jpg") (some "out.png") = .ok r ∧ r.1 = 0 :=
  have hrun : run demoWorld
      { self := demoMachine.self, dev := demoMachine.dev, events := demoMachine.events }
      "in.jpg" "out.png" = .ok _ := rfl
  ⟨⟨_, rfl, rfl⟩,
    (shim_is_pure_forwarding.1 directoryInitWorld TRTSegmentation.fresh { live := [], last := 0 }
      [] "/tmp").2 _ rfl,
    ⟨_, rfl, rfl⟩,
    _, (shim_is_pure_forwarding.2.1 demoWorld demoMachine.self demoMachine.dev
      demoMachine.events "in.jpg" "out.png").1 _ hrun, rfl⟩

/-! ## Tensors of a well-formed engine -/

theorem find?_name_of_nodup (l : List TensorInfo) (hnd : (l.map TensorInfo.name).Nodup)
    (i : Nat) (hi : i < l.length) :
    l.find? (fun t => t.name == (l.map TensorInfo.name).getD i "") = l[i]? := by
  induction l generalizing i with
  | nil => simp at hi
  | cons a l ih =>
    simp only [List.map_cons, List.nodup_cons] at hnd
    cases i with
    | zero => simp [List.find?]
    | succ i =>
      have hi' : i < l.length := by simpa using hi
      have hmem : (l.map TensorInfo.name).getD i "" ∈ l.map TensorInfo.name := by
        rw [List.getD_eq_getElem _ _ (by simpa using hi')]
        exact List.getElem_mem _
      have hne : (a.name == (l.map TensorInfo.name).getD i "") = false := by
        rw [beq_eq_false_iff_ne]
        intro e
        exact hnd.1 (e ▸ hmem)
      have hget : (List.map TensorInfo.name (a :: l)).getD (i + 1) "" =
          (l.map TensorInfo.name).getD i "" := rfl
      rw [List.find?_cons, hget, hne, List.getElem?_cons_succ]
      exact ih hnd.2 i hi'

theorem isInputAt_iff_modeAt (e : Engine) (hwf : e.WellFormed) (i : Nat)
    (hi : i < e.getNbIOTensors) :
    e.isInputAt i ↔ e.modeAt i = TensorIOMode.kINPUT := by
  unfold Engine.isInputAt Engine.getTensorIOMode Engine.getIOTensorName Engine.modeAt
  rw [find?_name_of_nodup e.tensors hwf.1 i hi, List.getElem?_eq_getElem hi]
  have hi' : i < (e.tensors.map TensorInfo.mode).length := by simpa using hi
  rw [List.getD_eq_getElem _ _ hi']
  simp

theorem modeAt_cases (e : Engine) (hwf : e.WellFormed) (i : Nat) (hi : i < e.getNbIOTensors) :
    e.modeAt i = TensorIOMode.kINPUT ∨ e.modeAt i = TensorIOMode.kOUTPUT := by
  unfold Engine.modeAt
  have hi' : i < (e.tensors.map TensorInfo.mode).length := by simpa using hi
  rw [List.getD_eq_getElem _ _ hi']
  simp only [List.getElem_map]
  exact hwf.2 _ (List.getElem_mem _)

theorem initBringUp_records_single (world : InitWorld) (s : TRTSegmentation)
    (engine : Engine) (i j : Nat)
    (hwf : engine.WellFormed)
    (heng : world.deserializeCudaEngine = some engine)
    (hok : (initBringUp world s).1 = 0)
    (hi : i < engine.getNbIOTensors) (hin : engine.modeAt i = TensorIOMode.kINPUT)
    (hin1 : ∀ k, k < engine.getNbIOTensors → engine.modeAt k = TensorIOMode.kINPUT → k = i)
    (hj : j < engine.getNbIOTensors) (hout : engine.modeAt j = TensorIOMode.kOUTPUT)
    (hout1 : ∀ k, k < engine.getNbIOTensors → engine.modeAt k = TensorIOMode.kOUTPUT → k = j) :
    (initBringUp world s).2.input_tensor_name_ = engine.getIOTensorName i ∧
    (initBringUp world s).2.input_binding_index_ = (i : Int) ∧
    (initBringUp world s).2.output_tensor_name_ = engine.getIOTensorName j ∧
    (initBringUp world s).2.output_binding_index_ = (j : Int) ∧
    (initBringUp world s).2.input_binding_index_ ≠
      (initBringUp world s).2.output_binding_index_ ∧
    0 ≤ (initBringUp world s).2.input_binding_index_ ∧
    (initBringUp world s).2.input_binding_index_ < (engine.getNbIOTensors : Int) ∧
    0 ≤ (initBringUp world s).2.output_binding_index_ ∧
    (initBringUp world s).2.output_binding_index_ < (engine.getNbIOTensors : Int) := by
  obtain ⟨rt, engine', ctx, hr, he, hc⟩ := init_zero_bringup world s hok
  rw [heng] at he
  injection he with he
  subst he
  rw [init_of_bringup world s rt engine ctx hr heng hc]
  obtain ⟨_, hIL, _, hOL, _⟩ := initLoop_inv engine
    { s with runtime_ := some rt, engine_ := some engine, context_ := some ctx }
  have hij : i ≠ j := by
    intro e
    rw [e, hout] at hin
    exact TensorIOMode.noConfusion hin
  have hI := hIL i hi ((isInputAt_iff_modeAt engine hwf i hi).mpr hin)
    (fun k hik hk hk' => by
      have := hin1 k hk ((isInputAt_iff_modeAt engine hwf k hk).mp hk')
      omega)
  have hO := hOL j hj
    (fun hj' => by
      have := (isInputAt_iff_modeAt engine hwf j hj).mp hj'
      rw [hout] at this
      exact TensorIOMode.noConfusion this)
    (fun k hjk hk => by
      rw [isInputAt_iff_modeAt engine hwf k hk]
      rcases modeAt_cases engine hwf k hk with h1 | h1
      · exact h1
      · have := hout1 k hk h1
        omega)
  refine ⟨hI.1, hI.2, hO.1, hO.2, ?_, ?_, ?_, ?_, ?_⟩
  · show (forLoop (initTensorStep engine) engine.getNbIOTensors 0 _).input_binding_index_ ≠
      (forLoop (initTensorStep engine) engine.getNbIOTensors 0 _).output_binding_index_
    rw [hI.2, hO.2]
    omega
  · show 0 ≤ (forLoop (initTensorStep engine) engine.getNbIOTensors 0 _).input_binding_index_
    rw [hI.2]; omega
  · show (forLoop (initTensorStep engine) engine.getNbIOTensors 0 _).input_binding_index_ < _
    rw [hI.2]; omega
  · show 0 ≤ (forLoop (initTensorStep engine) engine.getNbIOTensors 0 _).output_binding_index_
    rw [hO.2]; omega
  · show (forLoop (initTensorStep engine) engine.getNbIOTensors 0 _).output_binding_index_ < _
    rw [hO.2]; omega

/-- C23: for a well-formed engine whose I/O tensor list has exactly one input
tensor, at position i, and exactly one output tensor, at position j, a
successful `init` leaves `input_tensor_name_` the name of tensor i,
`input_binding_index_` equal to i, `output_tensor_name_` the name of tensor j and
`output_binding_index_` equal to j; the two indices are distinct and lie in
[0, number of I/O tensors). -/
theorem init_records_single_input_output (world : InitWorld) (s : TRTSegmentation)
    (engine_path : String) (engine : Engine) (i j : Nat) (r : Int × TRTSegmentation)
    (hwf : engine.WellFormed)
    (heng : world.deserializeCudaEngine = some engine)
    (hret : init world s engine_path = .ok r) (hok : r.1 = 0)
    (hi : i < engine.getNbIOTensors) (hin : engine.modeAt i = TensorIOMode.kINPUT)
    (hin1 : ∀ k, k < engine.getNbIOTensors → engine.modeAt k = TensorIOMode.kINPUT → k = i)
    (hj : j < engine.getNbIOTensors) (hout : engine.modeAt j = TensorIOMode.kOUTPUT)
    (hout1 : ∀ k, k < engine.getNbIOTensors → engine.modeAt k = TensorIOMode.kOUTPUT → k = j) :
    r.2.input_tensor_name_ = engine.getIOTensorName i ∧
    r.2.input_binding_index_ = (i : Int) ∧
    r.2.output_tensor_name_ = engine.getIOTensorName j ∧
    r.2.output_binding_index_ = (j : Int) ∧
    r.2.input_binding_index_ ≠ r.2.output_binding_index_ ∧
    0 ≤ r.2.input_binding_index_ ∧
    r.2.input_binding_index_ < (engine.getNbIOTensors : Int) ∧
    0 ≤ r.2.output_binding_index_ ∧
    r.2.output_binding_index_ < (engine.getNbIOTensors : Int) := by
  rcases init_ok_cases world s engine_path r hret with ⟨_, e⟩ | ⟨_, _, e⟩
  · subst e
    simp at hok
  · subst e
    exact initBringUp_records_single world s engine i j hwf heng hok hi hin hin1 hj hout hout1

theorem init_records_single_input_output_witness :
    ∃ r, init demoInitWorld TRTSegmentation.fresh "model.engine" = .ok r ∧ r.1 = 0 ∧
      r.2.input_tensor_name_ = demoEngine.getIOTensorName 0 ∧
      r.2.input_binding_index_ = 0 ∧
      r.2.output_tensor_name_ = demoEngine.getIOTensorName 1 ∧
      r.2.output_binding_index_ = 1 :=
  have h := init_records_single_input_output demoInitWorld TRTSegmentation.fresh "model.engine"
    demoEngine 0 1 _
    ⟨by decide, by decide⟩ rfl rfl rfl (by decide) rfl
    (fun k hk hm => by
      have hk2 : k < 2 := hk
      interval_cases k
      · rfl
      · exact absurd hm (by decide))
    (by decide) rfl
    (fun k hk hm => by
      have hk2 : k < 2 := hk
      interval_cases k
      · exact absurd hm (by decide)
      · rfl)
  ⟨_, rfl, rfl, h.1, h.2.1, h.2.2.1, h.2.2.2.1⟩

/-! ## Byte sizes -/

theorem sizeT_cast (n : Int) : ((sizeT n : Nat) : Int) = n % (2 ^ 64 : Int) := by
  unfold sizeT
  exact Int.toNat_of_nonneg (Int.emod_nonneg _ (by norm_num))

theorem volume_cast (dims : Dims) :
    ((volume dims : Nat) : Int) = dims.product % (2 ^ 64 : Int) := by
  unfold volume Dims.product
  have key := forLoop_inv (fun j vol => (vol * sizeT (dims.get j)) % 2 ^ 64)
    (fun k vol => ((vol : Nat) : Int) = ((List.range k).map dims.get).prod % (2 ^ 64 : Int))
    dims.nbDims.toNat 0 1 (by simp)
    (fun j t _ _ hP => by
      show (((t * sizeT (dims.get j)) % 2 ^ 64 : Nat) : Int) = _
      rw [List.range_succ, List.map_append, List.prod_append, List.map_singleton,
        List.prod_singleton]
      have hM : ((2 : Int) ^ 64) = 18446744073709551616 := by norm_num
      push_cast
      rw [hP, sizeT_cast]
      simp only [hM]
      rw [← Int.mul_emod])
  simpa using key

theorem tensorBytes_cast (world : RunWorld) (engine : Engine) (i : Nat) :
    ((tensorBytes world engine i : Nat) : Int) =
      ((world.getTensorShape (engine.getIOTensorName i)).product * 4) % (2 ^ 64 : Int) := by
  unfold tensorBytes sizeofFloat
  have hM : ((2 : Int) ^ 64) = 18446744073709551616 := by norm_num
  push_cast
  rw [volume_cast]
  simp only [hM]
  rw [Int.mul_emod, Int.emod_emod, ← Int.mul_emod]

theorem tensorBytes_exact (world : RunWorld) (engine : Engine) (i : Nat)
    (h0 : 0 ≤ (world.getTensorShape (engine.getIOTensorName i)).product)
    (h1 : (world.getTensorShape (engine.getIOTensorName i)).product * 4 < (2 ^ 64 : Int)) :
    ((tensorBytes world engine i : Nat) : Int) =
      (world.getTensorShape (engine.getIOTensorName i)).product * 4 := by
  rw [tensorBytes_cast]
  exact Int.emod_eq_of_lt (by omega) h1

/-! ## The allocation requests -/

theorem allocBuffers_events_exact (world : RunWorld) (engine : Engine) (m : Machine) :
    (allocBuffers world engine m).events =
      m.events ++ (List.range engine.getNbIOTensors).map fun i =>
        Event.cudaMalloc i (tensorBytes world engine i)
          ((allocBuffers world engine m).self.buffers_.getD i 0) := by
  unfold allocBuffers
  have key := forLoop_inv (allocStep world engine)
    (fun k t => t.self.buffers_.length = engine.getNbIOTensors ∧
      t.events = m.events ++ (List.range k).map fun i =>
        Event.cudaMalloc i (tensorBytes world engine i) (t.self.buffers_.getD i 0))
    engine.getNbIOTensors 0
    ({ m with self := { m.self with buffers_ := List.replicate engine.getNbIOTensors 0 } } :
      Machine)
    ⟨by simp, by simp⟩
    (fun j t _ hj hP => by
      obtain ⟨hlen, hev⟩ := hP
      have hjl : j < t.self.buffers_.length := by omega
      refine ⟨by simp [allocStep, hlen], ?_⟩
      show t.events ++ [Event.cudaMalloc j (tensorBytes world engine j) _] = _
      rw [hev, List.range_succ, List.map_append, List.map_singleton, List.append_assoc]
      congr 1
      congr 1
      · apply List.map_congr_left
        intro i hi
        have hij : i < j := List.mem_range.mp hi
        show Event.cudaMalloc i (tensorBytes world engine i) (t.self.buffers_.getD i 0) =
          Event.cudaMalloc i (tensorBytes world engine i)
            ((t.self.buffers_.set j _).getD i 0)
        rw [List.getD_eq_getElem?_getD, List.getD_eq_getElem?_getD,
          List.getElem?_set_ne (by omega)]
      · show [Event.cudaMalloc j (tensorBytes world engine j) _] =
          [Event.cudaMalloc j (tensorBytes world engine j)
            ((t.self.buffers_.set j _).getD j 0)]
        rw [List.getD_eq_getElem?_getD (t.self.buffers_.set j _), List.getElem?_set_self hjl]
        rfl)
  simpa using key.2

theorem reconciled_events_exact (world : RunWorld) (engine : Engine) (m : Machine) :
    (reconciled world engine m).events =
      (freeBuffers (m.emit (Event.setInputShape m.self.input_tensor_name_ inputShape))).events ++
        (List.range engine.getNbIOTensors).map fun i =>
          Event.cudaMalloc i (tensorBytes world engine i)
            ((reconciled world engine m).self.buffers_.getD i 0) :=
  allocBuffers_events_exact world engine _

theorem run_events_reconciled (world : RunWorld) (m : Machine)
    (image_path output_mask_path : String) (out : RunOut) (engine : Engine)
    (hrun : run world m image_path output_mask_path = .ok out)
    (hne : (world.imread image_path).empty = false)
    (hs : world.setInputShape m.self.input_tensor_name_ inputShape = true)
    (heng : m.self.engine_ = some engine) :
    out.self.buffers_ = (reconciled world engine m).self.buffers_ ∧
    out.dev = (reconciled world engine m).dev ∧
    ∃ dst post,
      bufferAt out.self.buffers_ m.self.input_binding_index_ = .ok dst ∧
      out.events =
        (freeBuffers (m.emit (Event.setInputShape m.self.input_tensor_name_ inputShape))).events ++
          ((List.range engine.getNbIOTensors).map fun i =>
            Event.cudaMalloc i (tensorBytes world engine i) (out.self.buffers_.getD i 0)) ++
          Event.memcpyHostToDevice dst ((out.self.host_input_.length * sizeofFloat) % 2 ^ 64) ::
            post := by
  obtain ⟨engine', _, dst, heng', _, hdst, hbuf, hdev, _, hcase⟩ :=
    run_reconciled world m image_path output_mask_path out hrun hne hs
  rw [heng] at heng'
  injection heng' with heng'
  subst heng'
  refine ⟨hbuf, hdev, dst, ?_⟩
  rw [hbuf]
  rcases hcase with ⟨_, _, _, hev⟩ | ⟨_, _, _, _, hev⟩
  · exact ⟨_, hdst, by rw [hev, reconciled_events_exact, List.append_assoc]⟩
  · exact ⟨_, hdst, by rw [hev, reconciled_events_exact, List.append_assoc]⟩

/-- C24: the machine state right after the reconciliation loop of `run`
(`reconciled`) has exactly one `buffers_` entry per I/O tensor, and the
allocation calls the loop made are, in order, one `cudaMalloc` per tensor i, for
entry i, with the byte size `tensorBytes`: the product of the dimensions of the
current shape of tensor i times 4, computed in `size_t`, which is exactly that
product times 4 whenever the product is non-negative and the byte size is below
2^64. Every `run` that returns after a decoded image and an accepted shape ends
with these `buffers_` and has these calls in its trace. -/
theorem run_buffers_sized_by_shape (world : RunWorld) (engine : Engine) (m : Machine) :
    (reconciled world engine m).self.buffers_.length = engine.getNbIOTensors ∧
    (reconciled world engine m).events =
      (freeBuffers (m.emit (Event.setInputShape m.self.input_tensor_name_ inputShape))).events ++
        ((List.range engine.getNbIOTensors).map fun i =>
          Event.cudaMalloc i (tensorBytes world engine i)
            ((reconciled world engine m).self.buffers_.getD i 0)) ∧
    (∀ i, ((tensorBytes world engine i : Nat) : Int) =
      ((world.getTensorShape (engine.getIOTensorName i)).product * 4) % (2 ^ 64 : Int)) ∧
    (∀ i, 0 ≤ (world.getTensorShape (engine.getIOTensorName i)).product →
      (world.getTensorShape (engine.getIOTensorName i)).product * 4 < (2 ^ 64 : Int) →
      ((tensorBytes world engine i : Nat) : Int) =
        (world.getTensorShape (engine.getIOTensorName i)).product * 4) ∧
    (∀ (image_path output_mask_path : String) (out : RunOut),
      run world m image_path output_mask_path = .ok out →
      (world.imread image_path).empty = false →
      world.setInputShape m.self.input_tensor_name_ inputShape = true →
      m.self.engine_ = some engine →
      out.self.buffers_ = (reconciled world engine m).self.buffers_ ∧
      out.self.buffers_.length = engine.getNbIOTensors ∧
      ∃ pre post, out.events = pre ++
        ((List.range engine.getNbIOTensors).map fun i =>
          Event.cudaMalloc i (tensorBytes world engine i) (out.self.buffers_.getD i 0)) ++
        post) := by
  refine ⟨(reconciled_inv world engine m).1, reconciled_events_exact world engine m,
    fun i => tensorBytes_cast world engine i,
    fun i h0 h1 => tensorBytes_exact world engine i h0 h1, ?_⟩
  intro image_path output_mask_path out hrun hne hs heng
  obtain ⟨hbuf, _, dst, post, _, hev⟩ :=
    run_events_reconciled world m image_path output_mask_path out engine hrun hne hs heng
  refine ⟨hbuf, ?_, ⟨_, _, hev⟩⟩
  rw [hbuf]
  exact (reconciled_inv world engine m).1

set_option maxRecDepth 100000 in
theorem run_buffers_sized_by_shape_witness :
    ∃ out, run demoWorld demoMachine "in.jpg" "out.png" = .ok out ∧
      out.self.buffers_.length = 2 ∧
      ((tensorBytes demoWorld demoEngine 0 : Nat) : Int) = (1 * 3 * 256 * 2048) * 4 ∧
      ((tensorBytes demoWorld demoEngine 1 : Nat) : Int) = (1 * 2 * 1 * 2) * 4 :=
  have hrun : run demoWorld demoMachine "in.jpg" "out.png" = .ok _ := rfl
  have h := run_buffers_sized_by_shape demoWorld demoEngine demoMachine
  ⟨_, hrun, (h.2.2.2.2 "in.jpg" "out.png" _ hrun rfl rfl rfl).2.1,
    h.2.2.2.1 0 (by decide) (by decide), h.2.2.2.1 1 (by decide) (by decide)⟩

/-! ## Bounds of the reads and of the upload -/

theorem download_host_output_length (world : RunWorld) (m : Machine) (n src : Nat) :
    (download world m n src).self.host_output_.length = n := by
  unfold download
  simp only [Machine.emit]
  split
  · simp
  · exact vecResize_length _ _ _

theorem product_of_four (dims : Dims) (N C H W : Nat) (hnb : dims.nbDims = 4)
    (h0 : dims.get 0 = (N : Int)) (h1 : dims.get 1 = (C : Int))
    (h2 : dims.get 2 = (H : Int)) (h3 : dims.get 3 = (W : Int)) :
    dims.product = ((N * C * H * W : Nat) : Int) := by
  unfold Dims.product
  rw [hnb]
  have e : (4 : Int).toNat = 4 := rfl
  rw [e]
  simp only [List.range_succ, List.range_zero, List.nil_append, List.cons_append,
    List.map_cons, List.map_nil, List.prod_cons, List.prod_nil, h0, h1, h2, h3]
  push_cast
  ring

/-- C27: when the output shape has exactly 4 dimensions (N, C, H, W) with
N >= 1 (and N*C*H*W below 2^64, so that it is a `size_t`), `run` resizes
`host_output_` to exactly N*C*H*W elements, every index c*(H*W) + h*W + w with
c < C, h < H, w < W is strictly less than that size, and `postprocess` on that
buffer returns a mask: no read is out of bounds. -/
theorem postprocess_reads_in_bounds (dims : Dims) (N C H W : Nat)
    (hnb : dims.nbDims = 4)
    (h0 : dims.get 0 = (N : Int)) (h1 : dims.get 1 = (C : Int))
    (h2 : dims.get 2 = (H : Int)) (h3 : dims.get 3 = (W : Int))
    (hN : 1 ≤ N) (hfit : N * C * H * W < 2 ^ 64) :
    volume dims = N * C * H * W ∧
    (∀ c h w, c < C → h < H → w < W → c * (H * W) + h * W + w < N * C * H * W) ∧
    (∀ (world : RunWorld) (m : Machine) (src : Nat),
      (download world m (volume dims) src).self.host_output_.length = N * C * H * W ∧
      ∃ mask, postprocess (download world m (volume dims) src).self.host_output_ dims
        world.uninit = .ok mask) := by
  have hvol : volume dims = N * C * H * W := by
    have hc := volume_cast dims
    rw [product_of_four dims N C H W hnb h0 h1 h2 h3] at hc
    have hlt : ((N * C * H * W : Nat) : Int) < (2 ^ 64 : Int) := by exact_mod_cast hfit
    rw [Int.emod_eq_of_lt (Int.natCast_nonneg _) hlt] at hc
    exact_mod_cast hc
  have hidx : ∀ c h w, c < C → h < H → w < W → c * (H * W) + h * W + w < N * C * H * W := by
    intro c h w hc hh hw
    have h1 := scoreIndex_lt C H W c h w hc hh hw
    unfold scoreIndex at h1
    have h2 : C * H * W ≤ N * (C * H * W) := Nat.le_mul_of_pos_left _ hN
    have e : N * C * H * W = N * (C * H * W) := by ring
    omega
  refine ⟨hvol, hidx, ?_⟩
  intro world m src
  have hlen := download_host_output_length world m (volume dims) src
  rw [hvol] at hlen
  refine ⟨by rw [hvol] at *; exact hlen, ?_⟩
  apply postprocess_total
  · rw [h2]; exact Int.natCast_nonneg H
  · rw [h3]; exact Int.natCast_nonneg W
  · intro c h w hc hh hw
    rw [h1, Int.toNat_natCast] at hc
    rw [h2, Int.toNat_natCast] at hh ⊢
    rw [h3, Int.toNat_natCast] at hw ⊢
    rw [hvol, hlen]
    exact hidx c h w hc hh hw

theorem postprocess_reads_in_bounds_witness :
    volume (Dims4 2 3 4 5) = 2 * 3 * 4 * 5 ∧
    (2 : Nat) * (4 * 5) + 3 * 5 + 4 < 2 * 3 * 4 * 5 :=
  have h := postprocess_reads_in_bounds (Dims4 2 3 4 5) 2 3 4 5 rfl rfl rfl rfl rfl
    (by decide) (by norm_num)
  ⟨h.1, h.2.1 2 3 4 (by decide) (by decide) (by decide)⟩

theorem bufferAt_ok (buffers : List Nat) (index : Int) (p : Nat)
    (h : bufferAt buffers index = .ok p) :
    0 ≤ index ∧ buffers[index.toNat]? = some p := by
  unfold bufferAt at h
  split at h
  · simp at h
  · rename_i hneg
    split at h
    · simp at h
    · rename_i q hq
      injection h with h
      subst h
      exact ⟨by omega, hq⟩

/-- C28: in a returning `run` whose image decoded and whose shape was accepted,
when the tensor at the input binding index is the input tensor and the context
reports for it the shape (1, 3, 256, 2048), the device buffer of the input was
requested with 6291456 bytes (the volume 1572864 of that shape times 4) and the
host-to-device copy into that buffer copies `host_input_.size() * 4` = 6291456
bytes, the same number; when that allocation succeeded the buffer is a live
allocation of 6291456 bytes, so the upload does not exceed it. -/
theorem run_upload_matches_input_buffer (world : RunWorld) (m : Machine)
    (image_path output_mask_path : String) (out : RunOut) (engine : Engine)
    (hrun : run world m image_path output_mask_path = .ok out)
    (hne : (world.imread image_path).empty = false)
    (hs : world.setInputShape m.self.input_tensor_name_ inputShape = true)
    (heng : m.self.engine_ = some engine)
    (hname : engine.getIOTensorName m.self.input_binding_index_.toNat =
      m.self.input_tensor_name_)
    (hshape : world.getTensorShape m.self.input_tensor_name_ = inputShape) :
    ∃ dst,
      out.self.buffers_[m.self.input_binding_index_.toNat]? = some dst ∧
      tensorBytes world engine m.self.input_binding_index_.toNat = 6291456 ∧
      out.self.host_input_.length * sizeofFloat = 6291456 ∧
      Event.cudaMalloc m.self.input_binding_index_.toNat 6291456 dst ∈ out.events ∧
      Event.memcpyHostToDevice dst 6291456 ∈ out.events ∧
      (world.mallocOk m.self.input_binding_index_.toNat 6291456 = true →
        out.dev.holds dst 6291456 = true) := by
  obtain ⟨hbuf, hdev, dst, post, hdst, hev⟩ :=
    run_events_reconciled world m image_path output_mask_path out engine hrun hne hs heng
  obtain ⟨_, hget⟩ := bufferAt_ok _ _ _ hdst
  obtain ⟨hlen, _, _, hok, _, _⟩ := reconciled_inv world engine m
  have hidx : m.self.input_binding_index_.toNat < engine.getNbIOTensors := by
    rw [← hlen, ← hbuf]
    exact (List.getElem?_eq_some.mp hget).1
  have hbytes : tensorBytes world engine m.self.input_binding_index_.toNat = 6291456 := by
    unfold tensorBytes
    rw [hname, hshape]
    decide
  obtain ⟨_, resized, _, _, hres, _, _, _, hin, _⟩ :=
    run_reconciled world m image_path output_mask_path out hrun hne hs
  obtain ⟨hr, hc⟩ := cvResizeLinear_dims _ _ _ _ _ hres
  have hsize : out.self.host_input_.length * sizeofFloat = 6291456 := by
    rw [hin, preprocess_length, hr, hc]
    rfl
  have hgetD : out.self.buffers_.getD m.self.input_binding_index_.toNat 0 = dst := by
    rw [List.getD_eq_getElem?_getD, hget]; rfl
  refine ⟨dst, hget, hbytes, hsize, ?_, ?_, ?_⟩
  · rw [hev]
    apply List.mem_append_left
    apply List.mem_append_right
    rw [List.mem_map]
    exact ⟨m.self.input_binding_index_.toNat, List.mem_range.mpr hidx, by rw [hbytes, hgetD]⟩
  · rw [hev]
    apply List.mem_append_right
    rw [hsize]
    exact List.mem_cons_self _ _
  · intro hmal
    rw [← hbytes] at hmal
    obtain ⟨p, _, hp, hlive⟩ := hok _ hidx hmal
    rw [← hbuf, hget] at hp
    injection hp with hp
    subst hp
    rw [hdev]
    unfold Device.holds
    rw [List.any_eq_true]
    exact ⟨_, hlive, by rw [hbytes]; simp⟩

set_option maxRecDepth 100000 in
theorem run_upload_matches_input_buffer_witness :
    ∃ out dst, run demoWorld demoMachine "in.jpg" "out.png" = .ok out ∧
      Event.cudaMalloc 0 6291456 dst ∈ out.events ∧
      Event.memcpyHostToDevice dst 6291456 ∈ out.events ∧
      out.dev.holds dst 6291456 = true :=
  have hrun : run demoWorld demoMachine "in.jpg" "out.png" = .ok _ := rfl
  match run_upload_matches_input_buffer demoWorld demoMachine "in.jpg" "out.png" _ demoEngine
      hrun rfl rfl rfl rfl rfl with
  | ⟨dst, _, _, _, h4, h5, h6⟩ => ⟨_, dst, hrun, h4, h5, h6 rfl⟩

/-! ## Order-preserving transformations of the scores -/

theorem forLoopE_sim {σ τ : Type} (body1 : Nat → σ → Except Fault σ)
    (body2 : Nat → τ → Except Fault τ) (R : Nat → σ → τ → Prop) :
    ∀ (n i : Nat) (s : σ) (t : τ), R i s t →
      (∀ j s t, i ≤ j → j < i + n → R j s t →
        (∃ e, body1 j s = .error e ∧ body2 j t = .error e) ∨
        (∃ s' t', body1 j s = .ok s' ∧ body2 j t = .ok t' ∧ R (j + 1) s' t')) →
      (∃ e, forLoopE body1 n i s = .error e ∧ forLoopE body2 n i t = .error e) ∨
      (∃ s' t', forLoopE body1 n i s = .ok s' ∧ forLoopE body2 n i t = .ok t' ∧
        R (i + n) s' t') := by
  intro n
  induction n with
  | zero => intro i s t h _; exact Or.inr ⟨s, t, rfl, rfl, by simpa using h⟩
  | succ n ih =>
    intro i s t h hstep
    rcases hstep i s t (Nat.le_refl i) (by omega) h with ⟨e, h1, h2⟩ | ⟨s', t', h1, h2, hR⟩
    · exact Or.inl ⟨e, by simp [forLoopE, h1], by simp [forLoopE, h2]⟩
    · have e : i + 1 + n = i + (n + 1) := by omega
      rcases ih (i + 1) s' t' hR
        (fun j u v hj hlt hP => hstep j u v (by omega) (by omega) hP) with
        ⟨e', h3, h4⟩ | ⟨s'', t'', h3, h4, hR'⟩
      · exact Or.inl ⟨e', by simp [forLoopE, h1, h3], by simp [forLoopE, h2, h4]⟩
      · rw [e] at hR'
        exact Or.inr ⟨s'', t'', by simp [forLoopE, h1, h3], by simp [forLoopE, h2, h4], hR'⟩

theorem forLoopE_congr {σ : Type} (body1 body2 : Nat → σ → Except Fault σ) :
    ∀ (n i : Nat) (s : σ),
      (∀ j s, i ≤ j → j < i + n → body1 j s = body2 j s) →
      forLoopE body1 n i s = forLoopE body2 n i s := by
  intro n
  induction n with
  | zero => intro i s _; rfl
  | succ n ih =>
    intro i s h
    simp only [forLoopE]
    rw [h i s (Nat.le_refl i) (by omega)]
    cases body2 i s with
    | error e => rfl
    | ok s' => exact ih (i + 1) s' (fun j u hj hlt => h j u (by omega) (by omega))

theorem F32.eq_of_not_gt {a b : F32} (ha : a.ordered = true) (hb : b.ordered = true)
    (h1 : a.gt b = false) (h2 : b.gt a = false) : a = b := by
  cases a <;> cases b <;> simp_all [F32.gt, F32.ordered]
  exact le_antisymm h1 h2

theorem F32.gt_ninf_of_gt {a b : F32} (h : a.gt b = true) : a.gt F32.ninf = true := by
  cases a <;> cases b <;> simp_all [F32.gt]

theorem F32.gt_map {f : F32 → F32}
    (hf_mono : ∀ a b, a.ordered = true → b.ordered = true → a.gt b = true →
      (f a).gt (f b) = true)
    {a b : F32} (ha : a.ordered = true) (hb : b.ordered = true) :
    (f a).gt (f b) = a.gt b := by
  cases hab : a.gt b
  · cases hba : b.gt a
    · rw [F32.eq_of_not_gt ha hb hab hba]
      exact F32.gt_irrefl _
    · exact F32.gt_asymm (hf_mono b a hb ha hba)
  · exact hf_mono a b ha hb hab

theorem scanClasses_map (host_output : List F32) (f : F32 → F32) (C H W h w : Nat)
    (hord : ∀ v ∈ host_output, v.ordered = true)
    (hf_ord : ∀ a, a.ordered = true → (f a).ordered = true)
    (hf_mono : ∀ a b, a.ordered = true → b.ordered = true → a.gt b = true →
      (f a).gt (f b) = true) :
    (∃ e, scanClasses host_output C H W h w = .error e ∧
      scanClasses (host_output.map f) C H W h w = .error e) ∨
    (∃ st st', scanClasses host_output C H W h w = .ok st ∧
      scanClasses (host_output.map f) C H W h w = .ok st' ∧ st.2 = st'.2) := by
  have key := forLoopE_sim (classStep host_output H W h w)
    (classStep (host_output.map f) H W h w)
    (fun c st st' => st.2 = st'.2 ∧ st.1.ordered = true ∧
      ((c = 0 ∧ st.1 = F32.ninf ∧ st'.1 = F32.ninf ∧ st.2 = 0) ∨ (0 < c ∧ st'.1 = f st.1)))
    C 0 (F32.ninf, 0) (F32.ninf, 0) ⟨rfl, rfl, Or.inl ⟨rfl, rfl, rfl, rfl⟩⟩
    (fun c st st' _ _ hR => by
      obtain ⟨hidx, hmv, hcase⟩ := hR
      unfold classStep
      rw [List.getElem?_map]
      cases hget : host_output[scoreIndex H W c h w]? with
      | none => exact Or.inl ⟨_, rfl, rfl⟩
      | some val =>
        have hval : val.ordered = true := hord val (List.getElem?_mem hget)
        simp only [Option.map_some']
        rcases hcase with ⟨hc0, h1, h2, h3⟩ | ⟨hcpos, h2⟩
        · rw [h1, h2]
          cases hg : val.gt F32.ninf
          · have hv : val = F32.ninf := F32.eq_ninf_of_not_gt hval hg
            subst hv
            cases hg' : (f F32.ninf).gt F32.ninf
            · have hfn : f F32.ninf = F32.ninf := F32.eq_ninf_of_not_gt (hf_ord _ rfl) hg'
              refine Or.inr ⟨st, st', by simp, by simp, hidx, hmv,
                Or.inr ⟨by omega, by rw [h2, h1, hfn]⟩⟩
            · refine Or.inr ⟨st, (f F32.ninf, c), by simp, by simp, by rw [h3, hc0], hmv,
                Or.inr ⟨by omega, by rw [h1]⟩⟩
          · have hg' : (f val).gt F32.ninf = true :=
              F32.gt_ninf_of_gt (hf_mono val F32.ninf hval rfl hg)
            refine Or.inr ⟨(val, c), (f val, c), by simp, by simp [hg'], rfl, hval,
              Or.inr ⟨by omega, rfl⟩⟩
        · rw [h2, F32.gt_map hf_mono hval hmv]
          cases hg : val.gt st.1
          · refine Or.inr ⟨st, st', by simp, by simp, hidx, hmv, Or.inr ⟨by omega, h2⟩⟩
          · refine Or.inr ⟨(val, c), (f val, c), by simp, by simp, rfl, hval,
              Or.inr ⟨by omega, rfl⟩⟩)
  rcases key with ⟨e, h1, h2⟩ | ⟨st, st', h1, h2, hR⟩
  · exact Or.inl ⟨e, h1, h2⟩
  · exact Or.inr ⟨st, st', h1, h2, hR.1⟩

theorem pixelStep_map (host_output : List F32) (f : F32 → F32) (C H W h w : Nat) (mask : Mat8)
    (hord : ∀ v ∈ host_output, v.ordered = true)
    (hf_ord : ∀ a, a.ordered = true → (f a).ordered = true)
    (hf_mono : ∀ a b, a.ordered = true → b.ordered = true → a.gt b = true →
      (f a).gt (f b) = true) :
    pixelStep (host_output.map f) C H W h w mask = pixelStep host_output C H W h w mask := by
  unfold pixelStep
  rcases scanClasses_map host_output f C H W h w hord hf_ord hf_mono with
    ⟨e, h1, h2⟩ | ⟨st, st', h1, h2, hidx⟩
  · rw [h1, h2]
  · rw [h1, h2]
    simp only [hidx]

/-- C26 (as amended): for a score buffer none of whose elements is NaN and a
strictly increasing transformation `f` of the scores that maps non-NaN scores to
non-NaN scores, `postprocess` on the transformed buffer gives the same result as
on the original one: the same mask (and the same fault when a read is out of
bounds). Infinite scores are allowed. -/
theorem postprocess_invariant_under_monotone (host_output : List F32) (f : F32 → F32)
    (dims : Dims) (uninit : Nat → Byte)
    (hord : ∀ v ∈ host_output, v.ordered = true)
    (hf_ord : ∀ a, a.ordered = true → (f a).ordered = true)
    (hf_mono : ∀ a b, a.ordered = true → b.ordered = true → a.gt b = true →
      (f a).gt (f b) = true) :
    postprocess (host_output.map f) dims uninit = postprocess host_output dims uninit := by
  unfold postprocess
  simp only
  split
  · rfl
  · apply forLoopE_congr
    intro h mask _ _
    unfold rowStep
    apply forLoopE_congr
    intro w mask' _ _
    exact pixelStep_map host_output f _ _ _ h w mask' hord hf_ord hf_mono

theorem softsign_lt (a b : ℚ) (h : b < a) : b / (1 + |b|) < a / (1 + |a|) := by
  have ha : (0 : ℚ) < 1 + |a| := by positivity
  have hb : (0 : ℚ) < 1 + |b| := by positivity
  rw [div_lt_div_iff₀ hb ha]
  rcases abs_cases a with ⟨ea, _⟩ | ⟨ea, _⟩ <;> rcases abs_cases b with ⟨eb, _⟩ | ⟨eb, _⟩ <;>
    rw [ea, eb] <;> nlinarith

theorem softsign_bounds (q : ℚ) : -1 < q / (1 + |q|) ∧ q / (1 + |q|) < 1 := by
  have hq : (0 : ℚ) < 1 + |q| := by positivity
  constructor
  · rw [lt_div_iff₀ hq]
    rcases abs_cases q with ⟨e, _⟩ | ⟨e, _⟩ <;> rw [e] <;> nlinarith
  · rw [div_lt_one hq]
    rcases abs_cases q with ⟨e, _⟩ | ⟨e, _⟩ <;> rw [e] <;> nlinarith

theorem squash_strictMono (a b : F32) (h : a.gt b = true) : (squash a).gt (squash b) = true := by
  cases a <;> cases b <;> simp_all [F32.gt, squash]
  · exact (softsign_bounds _).1
  · exact softsign_lt _ _ h
  · exact (softsign_bounds _).2

theorem squash_ordered (a : F32) (h : a.ordered = true) : (squash a).ordered = true := by
  cases a <;> simp_all [F32.ordered, squash]

theorem postprocess_invariant_under_monotone_witness :
    postprocess ([F32.ninf, F32.fin 2, F32.fin 1, F32.pinf].map squash) (Dims4 1 2 1 2)
        (fun _ => 7) =
      postprocess [F32.ninf, F32.fin 2, F32.fin 1, F32.pinf] (Dims4 1 2 1 2) (fun _ => 7) :=
  postprocess_invariant_under_monotone [F32.ninf, F32.fin 2, F32.fin 1, F32.pinf] squash
    (Dims4 1 2 1 2) (fun _ => 7)
    (by intro v hv; simp at hv; rcases hv with rfl | rfl | rfl | rfl <;> rfl)
    squash_ordered
    (fun a b _ _ h => squash_strictMono a b h)

/-- C26 (counterexample): `squash` is strictly increasing, keeps NaN as NaN and
non-NaN scores non-NaN, yet on the one-pixel, two-class buffer `[NaN, -inf]` the mask
is 0 before the transformation and 255 after it: the NaN of class 0 never replaces
the initial `-inf`, and `squash (-inf) = -1` does. -/
theorem postprocess_nan_breaks_monotone_invariance :
    (∀ a b : F32, a.gt b = true → (squash a).gt (squash b) = true) ∧
    (∀ a : F32, a.ordered = true → (squash a).ordered = true) ∧
    squash F32.nan = F32.nan ∧
    postprocess [F32.nan, F32.ninf] (Dims4 1 2 1 1) (fun _ => 7) = .ok ⟨1, 1, [0]⟩ ∧
    postprocess ([F32.nan, F32.ninf].map squash) (Dims4 1 2 1 1) (fun _ => 7) =
      .ok ⟨1, 1, [255]⟩ ∧
    postprocess ([F32.nan, F32.ninf].map squash) (Dims4 1 2 1 1) (fun _ => 7) ≠
      postprocess [F32.nan, F32.ninf] (Dims4 1 2 1 1) (fun _ => 7) := by
  have h1 : postprocess [F32.nan, F32.ninf] (Dims4 1 2 1 1) (fun _ => 7) =
      .ok ⟨1, 1, [0]⟩ := rfl
  have h2 : postprocess ([F32.nan, F32.ninf].map squash) (Dims4 1 2 1 1) (fun _ => 7) =
      .ok ⟨1, 1, [255]⟩ := rfl
  refine ⟨squash_strictMono, squash_ordered, rfl, h1, h2, ?_⟩
  rw [h1, h2]
  intro h
  have h3 := Except.ok.inj h
  simp at h3

end TRTSeg
